import Mathlib

/-! The function `ccCompass::estimateStructureNormals`.

A shallow embedding of the structure-normal estimation routine of
`plugins/core/qCompass/ccCompass.cpp` (lines 1298-1896) and of the properties
its specification states about it.

Conventions of the embedding.

* Coordinates, projections and scores are elements of an ordered ring or field
  `K` (exact arithmetic standing for `double` / `PointCoordinateType`).
* The parallel vectors `pid, dist, px, py, pz, nx, ny, nz`, which the source
  always grows by the same `push_back` / `insert` at the same index, are one
  list of records (`Entry`); likewise `bestPd, sne, start, end, segmentID`
  are one list of `Estimate` records.
* A `for` loop over an index range is a recursion over the list of its indices.
* Unsigned 32-bit arithmetic is written with an explicit `% 2 ^ 32`.
-/

namespace CCCompass

/-! ## Data model -/

/-- The three coordinates of a `CCVector3`. -/
structure Vec3 (K : Type) where
  x : K
  y : K
  z : K
  deriving DecidableEq

/-- A point of the region cloud `points[r]`: its position and its sampled normal. -/
structure Sample (K : Type) where
  pos : Vec3 K
  nrm : Vec3 K
  deriving DecidableEq

/-- One index of the parallel vectors `pid, dist, px, py, pz, nx, ny, nz`. -/
structure Entry (K : Type) where
  pid : Nat
  dist : K
  px : K
  py : K
  pz : K
  nx : K
  ny : K
  nz : K
  deriving DecidableEq

/-- The method `CCVector3::dot`. -/
def Vec3.dot {K : Type} [Add K] [Mul K] (a b : Vec3 K) : K :=
  a.x * b.x + a.y * b.y + a.z * b.z

/-- Scaling of a vector, `CCVector3::operator*`. -/
def Vec3.smul {K : Type} [Mul K] (v : Vec3 K) (c : K) : Vec3 K :=
  ⟨v.x * c, v.y * c, v.z * c⟩

/-- Negation of a vector. -/
def Vec3.neg {K : Type} [Neg K] (v : Vec3 K) : Vec3 K :=
  ⟨-v.x, -v.y, -v.z⟩

/-- Difference of two vectors. -/
def Vec3.sub {K : Type} [Sub K] (a b : Vec3 K) : Vec3 K :=
  ⟨a.x - b.x, a.y - b.y, a.z - b.z⟩

/-! ## Sorting the points along the long axis (lines 1520-1560) -/

/-- The values pushed or inserted for cloud point `p` (lines 1534-1536 and 1551-1558):
its index, its projection `d` on the long axis, its position and its normal. -/
def mkEntry {K : Type} (p : Nat) (d : K) (s : Sample K) : Entry K :=
  { pid := p, dist := d,
    px := s.pos.x, py := s.pos.y, pz := s.pos.z,
    nx := s.nrm.x, ny := s.nrm.y, nz := s.nrm.z }

/-- What `v.insert(v.begin() + i, a)` does to a vector. -/
def insertAt {α : Type} (xs : List α) (i : Nat) (a : α) : List α :=
  xs.take i ++ a :: xs.drop i

/-- The "find insert point" loop (lines 1540-1548): scanning from index `n`, the first
index whose `dist` exceeds `d` is stored in `iid`; when there is none `iid` keeps the value it
had (`none` stands for the uninitialised `int iid` of line 1359). -/
def findInsert {K : Type} [LT K] [DecidableRel (fun a b : K => a < b)] (d : K) :
    List (Entry K) → Nat → Option Nat → Option Nat
  | [], _, iid => iid
  | e :: es, n, iid => if d < e.dist then some n else findInsert d es (n + 1) iid

/-- The sorted series under construction together with the variable `iid`. -/
structure SortState (K : Type) where
  series : List (Entry K)
  iid : Option Nat

/-- One iteration of the loop of line 1528 for cloud point `p`. The result is `none`
when the source would read `dist[dist.size() - 1]` of an empty vector, use `iid`
uninitialised, or insert past the end. -/
def sortStep {K : Type} [LinearOrderedRing K] (axis : Vec3 K) (st : SortState K)
    (p : Nat) (s : Sample K) : Option (SortState K) :=
  let d := s.pos.dot axis
  match st.series.getLast? with
  | none => none
  | some last =>
    if last.dist ≤ d then
      some { series := st.series ++ [mkEntry p d s], iid := st.iid }
    else
      match findInsert d st.series 0 st.iid with
      | none => none
      | some i =>
        if i ≤ st.series.length then
          some { series := insertAt st.series i (mkEntry p d s), iid := some i }
        else none

/-- The loop of line 1528 over the cloud points `p, p + 1, ...`. -/
def sortLoop {K : Type} [LinearOrderedRing K] (axis : Vec3 K) :
    List (Sample K) → Nat → SortState K → Option (SortState K)
  | [], _, st => some st
  | s :: rest, p, st => (sortStep axis st p s).bind (sortLoop axis rest (p + 1))

/-- Lines 1520-1560: point 0 is pushed first ("add first point"), then the loop runs over
every point of the cloud starting from `p = 0`. Reading point 0 of an empty cloud gives
`none`. -/
def sortAlongAxis {K : Type} [LinearOrderedRing K] (axis : Vec3 K) (pts : List (Sample K))
    (iid : Option Nat) : Option (SortState K) :=
  match pts with
  | [] => none
  | s0 :: _ =>
    sortLoop axis pts 0 { series := [mkEntry 0 (s0.pos.dot axis) s0], iid := iid }

/-! ## Breaks at pinch nodes (lines 1566-1580) -/

/-- The loop of lines 1574-1580. The second argument lists, for each pinch node, the global
index `nCloud->getPointGlobalIndex(0)` of the cloud point the octree query returned for it. -/
def markBreaks (breaks : List Bool) : List Nat → List Bool
  | [] => breaks
  | i :: rest => markBreaks (breaks.set i true) rest

/-- The test `breaks[pid[p]]` of line 1640 at sorted position `p`. -/
def breakAt (pid : List Nat) (breaks : List Bool) (p : Nat) : Bool :=
  match pid[p]? with
  | some i => breaks.getD i false
  | none => false

/-! ## The window sweep (lines 1589-1753) -/

/-- Truncation to `unsigned` (32 bits). -/
def u32 (n : Nat) : Nat := n % 2 ^ 32

/-- Conversion of an unsigned value to `int` (32 bits, two's complement). -/
def toInt32 (n : Nat) : Int :=
  if n % 2 ^ 32 < 2 ^ 31 then ((n % 2 ^ 32 : Nat) : Int) else ((n % 2 ^ 32 : Nat) : Int) - 2 ^ 32

/-- One index of the parallel vectors `bestPd, sne, start, end, segmentID`
(lines 1589-1593); `end_` is the vector `end`. -/
structure Estimate (K : Type) where
  bestPd : K
  sne : Vec3 K
  start : Int
  end_ : Int
  segmentID : Int
  deriving DecidableEq

/-- The value every index holds after lines 1589-1593: `bestPd = 0`, a default
`CCVector3` (zero), `start = end = 0`, `segmentID = -1`. -/
def Estimate.init {K : Type} [Zero K] : Estimate K :=
  { bestPd := 0, sne := ⟨0, 0, 0⟩, start := 0, end_ := 0, segmentID := -1 }

/-- What lines 1745-1749 store for the window `[lo, hi)` of a series of `M` entries whose
posterior is `pd` and whose third eigenvector is `v`. -/
def Estimate.ofWindow {K : Type} (M lo hi : Nat) (pd : K) (v : Vec3 K) : Estimate K :=
  { bestPd := pd, sne := v, start := toInt32 lo, end_ := toInt32 hi,
    segmentID := toInt32 ((hi * M + lo) % 2 ^ 64) }

/-- The state of the sweep of one series: the Estimates and the flag `hasValidSNE`. -/
structure SweepState (K : Type) where
  est : List (Estimate K)
  hasValidSNE : Bool

/-- The state before the sweep (lines 1588-1593) of a series of `M` entries. -/
def SweepState.init {K : Type} [Zero K] (M : Nat) : SweepState K :=
  { est := List.replicate M Estimate.init, hasValidSNE := false }

/-- The break test of lines 1634-1647 for the window `[lo, hi)`: `broken` becomes true
when some position of the window is flagged. -/
def broken (brk : Nat → Bool) (lo hi : Nat) : Bool :=
  (List.range' lo (hi - lo)).any brk

/-- The body of the loop of lines 1741-1751 at position `p`. -/
def updateAt {K : Type} [LinearOrder K] (M lo hi : Nat) (pd : K) (v : Vec3 K)
    (est : List (Estimate K)) (p : Nat) : List (Estimate K) :=
  match est[p]? with
  | some e => if e.bestPd < pd then est.set p (Estimate.ofWindow M lo hi pd v) else est
  | none => est

/-- The loop of lines 1741-1751 over the positions `ps` of the window. -/
def mapUpdate {K : Type} [LinearOrder K] (M lo hi : Nat) (pd : K) (v : Vec3 K) :
    List Nat → List (Estimate K) → List (Estimate K)
  | [], est => est
  | p :: ps, est => mapUpdate M lo hi pd v ps (updateAt M lo hi pd v est p)

/-- The values of `_max` the inner loop of line 1624 runs through for a given `_min`:
from `_min + minsize` up to, and excluding, `min(unsigned(px.size()), _min + maxsize)`. -/
def innerRange (M minsize maxsize lo : Nat) : List Nat :=
  List.range' (u32 (lo + minsize)) (min (u32 M) (u32 (lo + maxsize)) - u32 (lo + minsize))

/-- The values of `_min` the outer loop of line 1606 runs through: `0` up to, and
excluding, `px.size() - minsize`. The sweep is only reached with `minsize ≤ px.size()`
(line 1501), where the unsigned subtraction does not wrap. -/
def outerRange (M minsize : Nat) : List Nat :=
  List.range (M - minsize)

/-- The inner loop of lines 1624-1752 for a fixed `_min = lo`, over the values `his` of
`_max`. `score lo hi` is the posterior `pd` the source computes for the window `[lo, hi)`
(lines 1649-1736) and `nrm lo hi` its third eigenvector; a window containing a Break ends
the loop (line 1646). -/
def innerLoop {K : Type} [LinearOrder K] (M : Nat) (brk : Nat → Bool)
    (score : Nat → Nat → K) (nrm : Nat → Nat → Vec3 K) (lo : Nat) :
    List Nat → SweepState K → SweepState K
  | [], st => st
  | hi :: his, st =>
    if broken brk lo hi then st
    else
      innerLoop M brk score nrm lo his
        { est := mapUpdate M lo hi (score lo hi) (nrm lo hi) (List.range' lo (hi - lo)) st.est,
          hasValidSNE := true }

/-- The outer loop of lines 1606-1753 over the values `los` of `_min`. `cancel lo` is the
answer of `prg.isCancelRequested()` at the poll of step `lo` (line 1614); when it is true the
function returns at once (line 1621), which is the result `none`. -/
def outerLoop {K : Type} [LinearOrder K] (M minsize maxsize : Nat) (brk : Nat → Bool)
    (score : Nat → Nat → K) (nrm : Nat → Nat → Vec3 K) (cancel : Nat → Bool) :
    List Nat → SweepState K → Option (SweepState K)
  | [], st => some st
  | lo :: los, st =>
    if cancel lo then none
    else
      outerLoop M minsize maxsize brk score nrm cancel los
        (innerLoop M brk score nrm lo (innerRange M minsize maxsize lo) st)

/-- The whole sweep of a series of `M` entries (lines 1588-1753). -/
def sweep {K : Type} [LinearOrder K] [Zero K] (M minsize maxsize : Nat) (brk : Nat → Bool)
    (score : Nat → Nat → K) (nrm : Nat → Nat → Vec3 K) (cancel : Nat → Bool) :
    Option (SweepState K) :=
  outerLoop M minsize maxsize brk score nrm cancel (outerRange M minsize) (SweepState.init M)

/-! ## Storing the Estimates on the cloud (lines 1763-1800) -/

/-- The values of the scalar fields `StartPoint`, `EndPoint`, `SegmentID` and `Weight` at
one point of a cloud. -/
structure ScalarValues (K : Type) where
  startPoint : Int
  endPoint : Int
  segmentID : Int
  weight : K
  deriving DecidableEq

/-- One point of the cloud `points[r]`: its position, its current normal, the four scalar
fields (`none` while no value was set at this index) and the `Thickness` field. -/
structure CloudPoint (K : Type) where
  pos : Vec3 K
  nrm : Vec3 K
  sf : Option (ScalarValues K)
  thickness : Option K
  deriving DecidableEq

/-- The cloud built by lines 1463-1498 from the points of the traces of a region. -/
def loadCloud {K : Type} (pts : List (Sample K)) : List (CloudPoint K) :=
  pts.map (fun s => { pos := s.pos, nrm := s.nrm, sf := none, thickness := none })

/-- The body of the loop of lines 1779-1785 at step `p`: the Estimate of sorted position `p`
is written at cloud index `pid[p]`; `log` is the logarithm of the C library. A step whose
`pid[p]` or Estimate does not exist, or whose index is outside the cloud, writes nothing. -/
def storeAt {K : Type} (log : K → K) (pid : List Nat) (est : List (Estimate K))
    (cloud : List (CloudPoint K)) (p : Nat) : List (CloudPoint K) :=
  match pid[p]?, est[p]? with
  | some i, some e =>
    match cloud[i]? with
    | some c =>
      cloud.set i
        { c with nrm := e.sne,
                 sf := some { startPoint := e.start, endPoint := e.end_,
                              segmentID := e.segmentID, weight := log e.bestPd } }
    | none => cloud
  | _, _ => cloud

/-- The loop of lines 1779-1785 over the steps `ps`. -/
def storeLoop {K : Type} (log : K → K) (pid : List Nat) (est : List (Estimate K)) :
    List Nat → List (CloudPoint K) → List (CloudPoint K)
  | [], cloud => cloud
  | p :: ps, cloud => storeLoop log pid est ps (storeAt log pid est cloud p)

/-- Lines 1778-1785: the loop runs over `p = 0 .. points[r]->size() - 1`. -/
def storeEstimates {K : Type} (log : K → K) (pid : List Nat) (est : List (Estimate K))
    (cloud : List (CloudPoint K)) : List (CloudPoint K) :=
  storeLoop log pid est (List.range cloud.length) cloud

/-! ## One region (lines 1467-1800) -/

/-- The parts of the computation that lie outside `ccCompass.cpp`, taken as given.

* `longAxis` is `CCLib::Neighbourhood::getLSPlaneX` (line 1513), `none` for `nullptr`.
* `nearestIndex cloud x` is the global index of the point the octree query of line 1578
  returns for the pinch node `x`.
* `pd hasNormals n w` is the posterior the source computes for a window whose entries are
  `w` (lines 1649-1736: centroid, mean normal, scatter matrix, Jacobi eigen-analysis, angles,
  `logWishSF`, `logWishart`, `prior`), with `n = maxsize - minsize - 1`.
* `eig3 w` is the third eigenvector of the covariance of the window (line 1746).
* `log` is the logarithm of the C library (line 1781).
* `neighbour opp x` is the first point `nCloud->getPoint(0)` and the squared distance `d`
  the octree query of line 1853 reports for `x` against the octree of the cloud whose
  points are `opp`. -/
structure Env (K : Type) where
  longAxis : List (Sample K) → Option (Vec3 K)
  nearestIndex : List (Sample K) → Vec3 K → Nat
  pd : Bool → Int → List (Entry K) → K
  eig3 : List (Entry K) → Vec3 K
  log : K → K
  neighbour : List (Vec3 K) → Vec3 K → Vec3 K × K

/-- The values read from the dialog (lines 1342-1346); `tcDistance` is already squared. -/
structure Config (K : Type) where
  minsize : Nat
  maxsize : Nat
  tcDistance : K
  calcThickness : Bool

/-- The entries `_min .. _max - 1` of the series. -/
def window {K : Type} (series : List (Entry K)) (lo hi : Nat) : List (Entry K) :=
  (series.drop lo).take (hi - lo)

/-- The normals check of lines 1596-1602: the new value of `hasNormals`. The call `abs` is
the absolute value of a floating-point number. -/
def checkNormals {K : Type} [LinearOrderedField K] (hasNormals : Bool)
    (series : List (Entry K)) : Bool :=
  if hasNormals then
    match series with
    | e :: _ =>
      if |e.nx| ≤ 1 / 1000000 ∧ |e.ny| ≤ 1 / 10000000 ∧ |e.nz| ≤ 1 / 100000000 then false
      else true
    | [] => true
  else false

/-- How the processing of one region ends. -/
inductive RegionOutcome (K : Type) where
  /-- Line 1501: fewer than `minsize` points; the region is dropped. -/
  | tooSmall : RegionOutcome K
  /-- Line 1514: no long axis; `continue`, the region and its raw cloud are kept. -/
  | noAxis : RegionOutcome K
  /-- The sort read or wrote outside a vector (it cannot: see `sortAlongAxis_inv`). -/
  | undefinedSort : RegionOutcome K
  /-- Line 1621: cancellation observed during the sweep; the function returns. -/
  | cancelled : RegionOutcome K
  /-- Line 1755: `hasValidSNE` is false; the region is dropped. -/
  | noValidSNE : RegionOutcome K
  /-- Lines 1763-1799: the Estimates are stored and the cloud is added to the region. -/
  | stored : List (CloudPoint K) → RegionOutcome K

/-- The variables declared once per run that one region hands to the next
(lines 1359 and 1362). -/
structure Carry where
  hasNormals : Bool
  iid : Option Nat

/-- Lines 1500-1800 for one region whose traces hold the points `pts`, with the pinch
nodes `pinch` of its object; `cancel lo` is the cancellation poll of step `lo` of its sweep. -/
def processRegion {K : Type} [LinearOrderedField K] (env : Env K) (cfg : Config K)
    (carry : Carry) (pts : List (Sample K)) (pinch : List (Vec3 K)) (cancel : Nat → Bool) :
    RegionOutcome K × Carry :=
  if pts.length < cfg.minsize then (RegionOutcome.tooSmall, carry)
  else
    match env.longAxis pts with
    | none => (RegionOutcome.noAxis, carry)
    | some axis =>
      match sortAlongAxis axis pts carry.iid with
      | none => (RegionOutcome.undefinedSort, carry)
      | some sorted =>
        let series := sorted.series
        let pid := series.map Entry.pid
        let breaks := markBreaks (List.replicate series.length false)
          (pinch.map (env.nearestIndex pts))
        let hasNormals := checkNormals carry.hasNormals series
        let carry' : Carry := { hasNormals := hasNormals, iid := sorted.iid }
        let n : Int := (cfg.maxsize : Int) - (cfg.minsize : Int) - 1
        match sweep series.length cfg.minsize cfg.maxsize (breakAt pid breaks)
            (fun lo hi => env.pd hasNormals n (window series lo hi))
            (fun lo hi => env.eig3 (window series lo hi)) cancel with
        | none => (RegionOutcome.cancelled, carry')
        | some st =>
          if st.hasValidSNE then
            (RegionOutcome.stored (storeEstimates env.log pid st.est (loadCloud pts)), carry')
          else (RegionOutcome.noValidSNE, carry')

/-! ## Thickness (lines 1802-1881) -/

/-- Modelled from the spec: `CCLib::DistanceComputationTools::computePoint2PlaneDistance`,
whose source is not in `ccCompass.cpp`. The spec has the thickness pass "compute the signed
distance from the nearest opposite point to that plane", the plane being the one through `p`
with `p`'s estimated normal; for the plane equation `pEq = (n.x, n.y, n.z, p.n)` of lines
1862-1866 and a unit normal that is `P.n - pEq[3]`. -/
def computePoint2PlaneDistance {K : Type} [LinearOrderedField K] (P : Vec3 K)
    (pEq0 pEq1 pEq2 pEq3 : K) : K :=
  P.dot ⟨pEq0, pEq1, pEq2⟩ - pEq3

/-- Lines 1851-1875 for one point `c` of the current cloud against the points `opp` of the
opposite cloud: what the point holds after its step. `q` is `nCloud->getPoint(0)` and `d` the
squared distance of the query; past the cutoff the thickness is 1 and nothing else changes
(lines 1855-1859), else the plane equation `pEq` is built from the point and its normal, the
thickness is `abs(d)` for the point-to-plane distance `d` and the normal is multiplied by
`d / abs(d)`. The call `abs` is the absolute value of a floating-point number. -/
def thicknessPoint {K : Type} [LinearOrderedField K] (env : Env K) (cfg : Config K)
    (opp : List (Vec3 K)) (c : CloudPoint K) : CloudPoint K :=
  let q := (env.neighbour opp c.pos).1
  let d := (env.neighbour opp c.pos).2
  if cfg.tcDistance < d then { c with thickness := some 1 }
  else
    let d' := computePoint2PlaneDistance q c.nrm.x c.nrm.y c.nrm.z (c.pos.dot c.nrm)
    { c with thickness := some |d'|, nrm := c.nrm.smul (d' / |d'|) }

/-- The body of the loop of lines 1829-1876 after the cancellation poll, for point `p` of
the cloud `cloud` against the points `opp` of the opposite cloud. -/
def thicknessAt {K : Type} [LinearOrderedField K] (env : Env K) (cfg : Config K)
    (opp : List (Vec3 K)) (cloud : List (CloudPoint K)) (p : Nat) :
    List (CloudPoint K) :=
  match cloud[p]? with
  | none => cloud
  | some c => cloud.set p (thicknessPoint env cfg opp c)

/-- The loop of lines 1829-1876 over the points `ps`; `cancel p` is the poll of line 1840.
The second component tells whether the function returned on cancellation (line 1848). -/
def thicknessLoop {K : Type} [LinearOrderedField K] (env : Env K) (cfg : Config K)
    (opp : List (Vec3 K)) (cancel : Nat → Bool) :
    List Nat → List (CloudPoint K) → List (CloudPoint K) × Bool
  | [], cloud => (cloud, false)
  | p :: ps, cloud =>
    if cancel p then (cloud, true)
    else thicknessLoop env cfg opp cancel ps (thicknessAt env cfg opp cloud p)

/-- Lines 1807-1879 for one surface: every point of `cloud` against the points `opp` of
the opposite cloud. -/
def thicknessSurface {K : Type} [LinearOrderedField K] (env : Env K) (cfg : Config K)
    (opp : List (Vec3 K)) (cancel : Nat → Bool) (cloud : List (CloudPoint K)) :
    List (CloudPoint K) × Bool :=
  thicknessLoop env cfg opp cancel (List.range cloud.length) cloud

/-! ## One dataset and the whole run (lines 1447-1882) -/

/-- The three cancellation polls: at the start of dataset `d` (line 1452), at step `lo` of
the sweep of region `r` of dataset `d` (line 1614), at point `p` of the thickness pass of
surface `r` of dataset `d` (line 1840). -/
structure Cancel where
  dataset : Nat → Bool
  sweep : Nat → Nat → Nat → Bool
  thickness : Nat → Nat → Nat → Bool

/-- One entry of `datasets` with the points of its traces: the lower and the upper region
(`none` for a null region) and the pinch nodes of the object. -/
structure Dataset (K : Type) where
  lower : Option (List (Sample K))
  upper : Option (List (Sample K))
  pinch : List (Vec3 K)

/-- What `regions[r]` and `points[r]` hold once the region loop is done with region `r`. -/
inductive Slot (K : Type) where
  /-- The region pointer `regions[r]` is null. -/
  | absent : Slot K
  /-- The region is kept with its raw cloud, which has no Estimates, no octree and was not
  added to the region (the `continue` of line 1517). -/
  | raw : List (CloudPoint K) → Slot K
  /-- The cloud holds the Estimates and was added to the region (line 1798). -/
  | stored : List (CloudPoint K) → Slot K

/-- How the processing of a dataset ends. -/
inductive Status where
  /-- The dataset was processed to its end. -/
  | completed : Status
  /-- The function returned on a cancellation poll (lines 1621 and 1848). -/
  | cancelled : Status
  /-- The source reads outside a vector or through a null pointer. -/
  | undefinedBehaviour : Status
  deriving DecidableEq

/-- The clouds a dataset has added to its regions, and how its processing ended. -/
structure DatasetOut (K : Type) where
  lower : Option (List (CloudPoint K))
  upper : Option (List (CloudPoint K))
  status : Status

/-- The cloud a slot has added to its region. -/
def Slot.published {K : Type} : Slot K → Option (List (CloudPoint K))
  | Slot.stored c => some c
  | _ => none

/-- The slot a region outcome leaves (`none` when the function does not go on). -/
def RegionOutcome.toSlot {K : Type} (pts : List (Sample K)) :
    RegionOutcome K → Option (Slot K)
  | RegionOutcome.tooSmall => some Slot.absent
  | RegionOutcome.noAxis => some (Slot.raw (loadCloud pts))
  | RegionOutcome.noValidSNE => some Slot.absent
  | RegionOutcome.stored c => some (Slot.stored c)
  | RegionOutcome.undefinedSort => none
  | RegionOutcome.cancelled => none

/-- The status with which the function stops at a region outcome that has no slot. -/
def RegionOutcome.stopStatus {K : Type} : RegionOutcome K → Status
  | RegionOutcome.cancelled => Status.cancelled
  | _ => Status.undefinedBehaviour

/-- One step `r` of the loop of line 1467: a null region is skipped (line 1469), any other
is processed. The result is the slot of the region, or the status the function stops
with, and the variables handed on. -/
def regionStep {K : Type} [LinearOrderedField K] (env : Env K) (cfg : Config K)
    (carry : Carry) (region : Option (List (Sample K))) (pinch : List (Vec3 K))
    (cancel : Nat → Bool) : (Slot K ⊕ Status) × Carry :=
  match region with
  | none => (Sum.inl Slot.absent, carry)
  | some pts =>
    let res := processRegion env cfg carry pts pinch cancel
    match res.1.toSlot pts with
    | some slot => (Sum.inl slot, res.2)
    | none => (Sum.inr res.1.stopStatus, res.2)

/-- Lines 1802-1881: the thickness pass of a dataset whose two slots are `s0` and `s1`. It
runs when both regions are non-null, thickness is asked for and both clouds have points.
Each surface reads the octree of the opposite cloud (line 1823), which only a stored cloud
has (it is computed at line 1570): reading it from a raw cloud is a null dereference. -/
def thicknessPass {K : Type} [LinearOrderedField K] (env : Env K) (cfg : Config K)
    (cancel : Nat → Nat → Bool) (s0 s1 : Slot K) : DatasetOut K :=
  match s0, s1 with
  | Slot.absent, s => { lower := none, upper := s.published, status := Status.completed }
  | s, Slot.absent => { lower := s.published, upper := none, status := Status.completed }
  | Slot.stored c0, Slot.stored c1 =>
    if cfg.calcThickness ∧ 0 < c0.length ∧ 0 < c1.length then
      let r0 := thicknessSurface env cfg (c1.map CloudPoint.pos) (cancel 0) c0
      if r0.2 then { lower := some r0.1, upper := some c1, status := Status.cancelled }
      else
        let r1 := thicknessSurface env cfg (r0.1.map CloudPoint.pos) (cancel 1) c1
        { lower := some r0.1, upper := some r1.1,
          status := if r1.2 then Status.cancelled else Status.completed }
    else { lower := some c0, upper := some c1, status := Status.completed }
  | Slot.raw c0, Slot.stored c1 =>
    if cfg.calcThickness ∧ 0 < c0.length ∧ 0 < c1.length then
      { lower := none, upper := some c1,
        status := if (thicknessSurface env cfg (c1.map CloudPoint.pos) (cancel 0) c0).2 then
          Status.cancelled
          else Status.undefinedBehaviour }
    else { lower := none, upper := some c1, status := Status.completed }
  | Slot.stored c0, Slot.raw c1 =>
    { lower := some c0, upper := none,
      status := if cfg.calcThickness ∧ 0 < c0.length ∧ 0 < c1.length then
        Status.undefinedBehaviour else Status.completed }
  | Slot.raw c0, Slot.raw c1 =>
    { lower := none, upper := none,
      status := if cfg.calcThickness ∧ 0 < c0.length ∧ 0 < c1.length then
        Status.undefinedBehaviour else Status.completed }

/-- Lines 1456-1881 for dataset number `d`. -/
def processDataset {K : Type} [LinearOrderedField K] (env : Env K) (cfg : Config K)
    (cancel : Cancel) (d : Nat) (carry : Carry) (ds : Dataset K) : DatasetOut K × Carry :=
  match regionStep env cfg carry ds.lower ds.pinch (cancel.sweep d 0) with
  | (Sum.inr status, carry0) => ({ lower := none, upper := none, status := status }, carry0)
  | (Sum.inl s0, carry0) =>
    match regionStep env cfg carry0 ds.upper ds.pinch (cancel.sweep d 1) with
    | (Sum.inr status, carry1) =>
      ({ lower := s0.published, upper := none, status := status }, carry1)
    | (Sum.inl s1, carry1) => (thicknessPass env cfg (cancel.thickness d) s0 s1, carry1)

/-- The state of the run between two datasets: the outputs of the datasets processed so
far, the variables handed on, and whether the loop of line 1447 has been left. -/
structure RunState (K : Type) where
  outs : List (DatasetOut K)
  carry : Carry
  halted : Bool

/-- The state of the run before the first dataset: `hasNormals` is true (line 1362) and
`iid` is not initialised (line 1359). -/
def RunState.init {K : Type} : RunState K :=
  { outs := [], carry := { hasNormals := true, iid := none }, halted := false }

/-- One step of the loop of line 1447. The dataset number `_d` is the number of datasets
processed so far. -/
def runStep {K : Type} [LinearOrderedField K] (env : Env K) (cfg : Config K)
    (cancel : Cancel) (st : RunState K) (ds : Dataset K) : RunState K :=
  if st.halted then st
  else if cancel.dataset st.outs.length then { st with halted := true }
  else
    let res := processDataset env cfg cancel st.outs.length st.carry ds
    { outs := st.outs ++ [res.1], carry := res.2,
      halted := decide (res.1.status ≠ Status.completed) }

/-- The function `ccCompass::estimateStructureNormals` from line 1349 on, for the
datasets gathered by lines 1371-1440: `none` when `maxsize < minsize` (line 1350), else the
outputs of the datasets in the order they were processed. -/
def estimateStructureNormals {K : Type} [LinearOrderedField K] (env : Env K) (cfg : Config K)
    (cancel : Cancel) (datasets : List (Dataset K)) : Option (List (DatasetOut K)) :=
  if cfg.maxsize < cfg.minsize then none
  else
    some (datasets.foldl (runStep env cfg cancel) RunState.init).outs

/-! ## Predicates used to state the properties -/

/-- Order of two entries of the series: by projection, ties by cloud index. -/
def EntryLE {K : Type} [LinearOrderedRing K] (a b : Entry K) : Prop :=
  a.dist < b.dist ∨ (a.dist = b.dist ∧ a.pid ≤ b.pid)

/-- The loop invariant of the sort, on entry to the iteration for cloud point `p`. -/
structure SortInv {K : Type} [LinearOrderedRing K] (axis : Vec3 K) (pts : List (Sample K))
    (p : Nat) (l : List (Entry K)) : Prop where
  ne : l ≠ []
  sorted : l.Pairwise EntryLE
  pid_le : ∀ e ∈ l, e.pid ≤ p
  entry : ∀ e ∈ l, ∃ s, pts[e.pid]? = some s ∧ e = mkEntry e.pid (s.pos.dot axis) s
  perm : (l.map Entry.pid).Perm (0 :: List.range p)

/-- The recorded window of an Estimate contains no flagged position. -/
def WindowClean {K : Type} (brk : Nat → Bool) (e : Estimate K) : Prop :=
  ∀ q : Nat, e.start ≤ (q : Int) → (q : Int) < e.end_ → brk q = false

/-- What the update loop of one window does to the Estimate `e` held at position `q`. -/
def updOne {K : Type} [LinearOrder K] (M lo hi : Nat) (pd : K) (v : Vec3 K) (q : Nat)
    (e : Estimate K) : Estimate K :=
  if lo ≤ q ∧ q < hi ∧ e.bestPd < pd then Estimate.ofWindow M lo hi pd v else e

/-- The Estimate `e` at position `p` is the best over the windows `S`: its score is not
negative, no window of `S` containing `p` scores more, and `e` is either untouched or what
a window of `S` containing `p`, of positive score, stores. -/
structure BestOver {K : Type} [LinearOrder K] [Zero K] (M : Nat) (score : Nat → Nat → K)
    (nrm : Nat → Nat → Vec3 K) (S : Nat → Nat → Prop) (p : Nat) (e : Estimate K) : Prop where
  nonneg : 0 ≤ e.bestPd
  ge : ∀ lo hi, S lo hi → lo ≤ p → p < hi → score lo hi ≤ e.bestPd
  attained : e = Estimate.init ∨ ∃ lo hi, S lo hi ∧ lo ≤ p ∧ p < hi ∧ 0 < score lo hi ∧
    e = Estimate.ofWindow M lo hi (score lo hi) (nrm lo hi)

/-- The windows the sweep scores: `lo` is a step of the outer loop, `hi` a step of the inner
loop for it, and no position of `[lo, hi)` is flagged. -/
def Evaluated (M minsize maxsize : Nat) (brk : Nat → Bool) (lo hi : Nat) : Prop :=
  lo ∈ outerRange M minsize ∧ hi ∈ innerRange M minsize maxsize lo ∧ broken brk lo hi = false

/-- A valid window for position `p` in the sense of the specification: a half-open range
`[lo, hi)` with `lo ≤ p < hi ≤ M`, `minsize ≤ hi - lo ≤ maxsize` and no flagged position. -/
def ValidWindow (M minsize maxsize : Nat) (brk : Nat → Bool) (p lo hi : Nat) : Prop :=
  lo ≤ p ∧ p < hi ∧ hi ≤ M ∧ minsize ≤ hi - lo ∧ hi - lo ≤ maxsize ∧
    ∀ q, lo ≤ q → q < hi → brk q = false

/-- The score `b` is the maximum, `0` if there is none, of the score over the valid windows
containing `p`. -/
def IsMaxOverValid {K : Type} [LinearOrder K] [Zero K] (M minsize maxsize : Nat)
    (brk : Nat → Bool) (score : Nat → Nat → K) (p : Nat) (b : K) : Prop :=
  (∀ lo hi, ValidWindow M minsize maxsize brk p lo hi → score lo hi ≤ b) ∧
  ((∃ lo hi, ValidWindow M minsize maxsize brk p lo hi ∧ b = score lo hi) ∨
    ((¬ ∃ lo hi, ValidWindow M minsize maxsize brk p lo hi) ∧ b = 0))

/-- The squared distance between two points. -/
def sqDist {K : Type} [LinearOrderedField K] (a b : Vec3 K) : K :=
  (a.sub b).dot (a.sub b)

/-- The Estimates at a step of the sweep: after the outer loop has completed its steps
`_min = 0 .. k - 1`, the inner loop for `_min = k` has completed `j` steps, and the update loop
of the next window, when there is one and it has no Break, has completed `i` steps. The
result is `none` when a cancellation poll has ended the sweep before. -/
def sweepAt {K : Type} [LinearOrder K] [Zero K] (M minsize maxsize : Nat) (brk : Nat → Bool)
    (score : Nat → Nat → K) (nrm : Nat → Nat → Vec3 K) (cancel : Nat → Bool)
    (k j i : Nat) : Option (List (Estimate K)) :=
  (outerLoop M minsize maxsize brk score nrm cancel ((outerRange M minsize).take k)
      (SweepState.init M)).map (fun st =>
    let st' := innerLoop M brk score nrm k ((innerRange M minsize maxsize k).take j) st
    match (innerRange M minsize maxsize k)[j]? with
    | some hi =>
      if broken brk k hi then st'.est
      else mapUpdate M k hi (score k hi) (nrm k hi) ((List.range' k (hi - k)).take i) st'.est
    | none => st'.est)

/-- The inner loop without the early exit: every window of the range is tested on its own;
a window containing a Break is skipped and the loop goes on with the next one. -/
def innerLoopAll {K : Type} [LinearOrder K] (M : Nat) (brk : Nat → Bool)
    (score : Nat → Nat → K) (nrm : Nat → Nat → Vec3 K) (lo : Nat) :
    List Nat → SweepState K → SweepState K
  | [], st => st
  | hi :: his, st =>
    if broken brk lo hi then innerLoopAll M brk score nrm lo his st
    else
      innerLoopAll M brk score nrm lo his
        { est := mapUpdate M lo hi (score lo hi) (nrm lo hi) (List.range' lo (hi - lo)) st.est,
          hasValidSNE := true }

/-- The outer loop over the inner loop without the early exit. -/
def outerLoopAll {K : Type} [LinearOrder K] (M minsize maxsize : Nat) (brk : Nat → Bool)
    (score : Nat → Nat → K) (nrm : Nat → Nat → Vec3 K) (cancel : Nat → Bool) :
    List Nat → SweepState K → Option (SweepState K)
  | [], st => some st
  | lo :: los, st =>
    if cancel lo then none
    else
      outerLoopAll M minsize maxsize brk score nrm cancel los
        (innerLoopAll M brk score nrm lo (innerRange M minsize maxsize lo) st)

/-- The sweep that tests every window of the loop ranges and skips the broken ones. -/
def sweepAll {K : Type} [LinearOrder K] [Zero K] (M minsize maxsize : Nat) (brk : Nat → Bool)
    (score : Nat → Nat → K) (nrm : Nat → Nat → Vec3 K) (cancel : Nat → Bool) :
    Option (SweepState K) :=
  outerLoopAll M minsize maxsize brk score nrm cancel (outerRange M minsize)
    (SweepState.init M)

/-- The windows `(_min, _max)` the inner loop scores for `_min = lo`, in the order it
scores them: the loop of `innerLoop` with the score left out. -/
def innerWindows (brk : Nat → Bool) (lo : Nat) : List Nat → List (Nat × Nat)
  | [] => []
  | hi :: his => if broken brk lo hi then [] else (lo, hi) :: innerWindows brk lo his

/-- The windows the outer loop scores over the values `los` of `_min`, in order. -/
def outerWindows (M minsize maxsize : Nat) (brk : Nat → Bool) : List Nat → List (Nat × Nat)
  | [] => []
  | lo :: los =>
    innerWindows brk lo (innerRange M minsize maxsize lo) ++
      outerWindows M minsize maxsize brk los

/-- The windows a completed sweep of a series of `M` entries scores, in order. -/
def sweepWindows (M minsize maxsize : Nat) (brk : Nat → Bool) : List (Nat × Nat) :=
  outerWindows M minsize maxsize brk (outerRange M minsize)

/-- The update loops of the windows `ws`, one after the other. -/
def applyWindows {K : Type} [LinearOrder K] (M : Nat) (score : Nat → Nat → K)
    (nrm : Nat → Nat → Vec3 K) : List (Nat × Nat) → List (Estimate K) → List (Estimate K)
  | [], est => est
  | w :: ws, est =>
    applyWindows M score nrm ws
      (mapUpdate M w.1 w.2 (score w.1 w.2) (nrm w.1 w.2) (List.range' w.1 (w.2 - w.1)) est)

/-- The windows the specification has the sweep score for a series of `N` entries: `lo`
from 0 to `N - minsize` and `hi` from `lo + minsize` to `min(N, lo + maxsize)`, bounds
included. -/
def SpecWindow (N minsize maxsize lo hi : Nat) : Prop :=
  lo ≤ N - minsize ∧ lo + minsize ≤ hi ∧ hi ≤ min N (lo + maxsize)

/-- The Break test of the sweep of a region (lines 1566-1586 and 1640): the flags of the
pinch nodes `pinch`, read through `pid` at a position of the sorted series. -/
def regionBreaks {K : Type} (env : Env K) (pts : List (Sample K)) (pinch : List (Vec3 K))
    (series : List (Entry K)) : Nat → Bool :=
  breakAt (series.map Entry.pid)
    (markBreaks (List.replicate series.length false) (pinch.map (env.nearestIndex pts)))

/-- The sweep `processRegion` runs on the sorted series `series` of a region, for the value
`hasNormals` the run hands to the region. -/
def regionSweep {K : Type} [LinearOrderedField K] (env : Env K) (cfg : Config K)
    (hasNormals : Bool) (pts : List (Sample K)) (pinch : List (Vec3 K))
    (cancel : Nat → Bool) (series : List (Entry K)) : Option (SweepState K) :=
  sweep series.length cfg.minsize cfg.maxsize (regionBreaks env pts pinch series)
    (fun lo hi => env.pd (checkNormals hasNormals series)
      ((cfg.maxsize : Int) - (cfg.minsize : Int) - 1) (window series lo hi))
    (fun lo hi => env.eig3 (window series lo hi)) cancel

/-! ## The orientation angles (lines 1697-1724)

The functions of the C library are taken on the real numbers: rounding is left out. -/

/-- The function `atan2(y, x)` of the C library: the angle of the point `(x, y)`, in
`(-π, π]`, and 0 at the origin. -/
noncomputable def atan2 (y x : ℝ) : ℝ := Complex.arg ⟨x, y⟩

/-- The function `asin` of the C library: outside `[-1, 1]` it has no value (the library
returns NaN). -/
noncomputable def asin (x : ℝ) : Option ℝ :=
  if -1 ≤ x ∧ x ≤ 1 then some (Real.arcsin x) else none

/-- The loop `while (c x) x = f x;` with at most `fuel + 1` tests of its condition:
`none` when the condition still holds at the last of them. -/
def whileLoop {α : Type} (c : α → Prop) [DecidablePred c] (f : α → α) : Nat → α → Option α
  | 0, x => if c x then none else some x
  | fuel + 1, x => if c x then whileLoop c f fuel (f x) else some x

/-- Lines 1698-1713: the trend `phi` and the plunge `theta` of the third eigenvector `v` of
the window (`v.x`, `v.y`, `v.z` are `eigVectors.m_values[0][2]`, `[1][2]`, `[2][2]`). -/
noncomputable def trendPlunge (fuel : Nat) (v : Vec3 ℝ) : Option (ℝ × ℝ) :=
  match asin v.z with
  | none => none
  | some a =>
    let phi := atan2 v.x v.y
    let theta := -a
    let phi1 := if theta < 0 then phi + Real.pi else phi
    let theta1 := if theta < 0 then -theta else theta
    match whileLoop (fun x => x < 0) (fun x => x + 2 * Real.pi) fuel phi1 with
    | none => none
    | some phi2 =>
      match whileLoop (fun x => x > 2 * Real.pi) (fun x => x - 2 * Real.pi) fuel phi2 with
      | none => none
      | some phi3 => some (phi3, theta1)

/-- Lines 1716-1724: the third angle `alpha` from the third coordinate `v2z` of the second
eigenvector (`eigVectors.m_values[2][1]`) and the plunge `theta`. A division by
`cos(theta) = 0` has no value. -/
noncomputable def thirdAngle (fuel : Nat) (v2z theta : ℝ) : Option ℝ :=
  if Real.cos theta = 0 then none
  else
    match asin (v2z / Real.cos theta) with
    | none => none
    | some a =>
      match whileLoop (fun x => x < 0) (fun x => x + Real.pi) fuel a with
      | none => none
      | some a1 => whileLoop (fun x => x > Real.pi) (fun x => x - Real.pi) fuel a1

/-! ## The Wishart density (lines 1215-1272) -/

/-- The array `e` of `logWishart` (lines 1236-1247): column 2 is "eigenvector 3", column 1
"eigenvector 2" and column 0 their cross product. -/
noncomputable def wishartBasis (phi theta alpha : ℝ) : Matrix (Fin 3) (Fin 3) ℝ :=
  let e02 := Real.sin phi * Real.cos theta
  let e12 := Real.cos phi * Real.cos theta
  let e22 := -Real.sin theta
  let e01 := Real.sin phi * Real.sin theta * Real.sin alpha - Real.cos phi * Real.cos alpha
  let e11 := Real.sin phi * Real.cos alpha + Real.sin theta * Real.cos phi * Real.sin alpha
  let e21 := Real.sin alpha * Real.cos theta
  let e00 := e12 * e21 - e22 * e11
  let e10 := e22 * e01 - e02 * e21
  let e20 := e02 * e11 - e12 * e01
  !![e00, e01, e02; e10, e11, e12; e20, e21, e22]

/-- The function `lgamma` of the C library: the logarithm of the absolute value of the
gamma function. -/
noncomputable def lgamma (x : ℝ) : ℝ := Real.log |Real.Gamma x|

/-- The function `logWishSF` (lines 1216-1225); `log` is taken on the reals. -/
noncomputable def logWishSF (X : Matrix (Fin 3) (Fin 3) ℝ) (nobserved : Int) : ℝ :=
  let detX := X 0 0 * ((X 1 1 * X 2 2) - (X 2 1 * X 1 2)) -
    X 0 1 * (X 1 0 * X 2 2 - X 2 0 * X 1 2) +
    X 0 2 * (X 1 0 * X 2 1 - X 2 0 * X 1 1)
  ((nobserved : ℝ) - 4) * (1 / 2) * Real.log detX - ((nobserved : ℝ) * 3 / 2) * Real.log 2 -
    ((3 / 2) * Real.log Real.pi + lgamma ((nobserved : ℝ) / 2) +
      lgamma ((nobserved : ℝ) / 2 - 1 / 2) + lgamma ((nobserved : ℝ) / 2 - 1))

/-- The array `i` of `logWishart` (lines 1249-1264) for the eigenvalues `e1, e2, e3`, which
the source inverts first. The source fills the diagonal and the entries above it, and reads
no other entry: the entries below the diagonal are given here by symmetry. -/
noncomputable def wishartInverse (phi theta alpha e1 e2 e3 : ℝ) :
    Matrix (Fin 3) (Fin 3) ℝ :=
  let e := wishartBasis phi theta alpha
  let e1' := 1 / e1
  let e2' := 1 / e2
  let e3' := 1 / e3
  let i00 := e1' * e 0 0 * e 0 0 + e2' * e 0 1 * e 0 1 + e3' * e 0 2 * e 0 2
  let i11 := e1' * e 1 0 * e 1 0 + e2' * e 1 1 * e 1 1 + e3' * e 1 2 * e 1 2
  let i22 := e1' * e 2 0 * e 2 0 + e2' * e 2 1 * e 2 1 + e3' * e 2 2 * e 2 2
  let i01 := e1' * e 0 0 * e 1 0 + e2' * e 0 1 * e 1 1 + e3' * e 0 2 * e 1 2
  let i02 := e1' * e 0 0 * e 2 0 + e2' * e 0 1 * e 2 1 + e3' * e 0 2 * e 2 2
  let i12 := e1' * e 1 0 * e 2 0 + e2' * e 1 1 * e 2 1 + e3' * e 1 2 * e 2 2
  !![i00, i01, i02; i01, i11, i12; i02, i12, i22]

/-- The function `logWishart` (lines 1228-1272); `log` is taken on the reals. -/
noncomputable def logWishart (X : Matrix (Fin 3) (Fin 3) ℝ) (nobserved : Int)
    (phi theta alpha e1 e2 e3 lsf : ℝ) : ℝ :=
  let D := e1 * e2 * e3
  let i := wishartInverse phi theta alpha e1 e2 e3
  let trIX := (i 0 0 * X 0 0 + i 0 1 * X 1 0 + i 0 2 * X 2 0) +
    (i 0 1 * X 0 1 + i 1 1 * X 1 1 + i 1 2 * X 2 1) +
    (i 0 2 * X 0 2 + i 1 2 * X 1 2 + i 2 2 * X 2 2)
  lsf - (1 / 2) * (trIX + (nobserved : ℝ) * Real.log D)

/-- The scale matrix in the words of the specification: `S = E diag(e1, e2, e3) Eᵀ` for the
basis `E` built from the angles. -/
noncomputable def scaleMatrix (phi theta alpha e1 e2 e3 : ℝ) : Matrix (Fin 3) (Fin 3) ℝ :=
  wishartBasis phi theta alpha * Matrix.diagonal ![e1, e2, e3] *
    (wishartBasis phi theta alpha).transpose

/-- The multivariate gamma function of dimension 3:
`Γ₃(a) = π^(3/2) Γ(a) Γ(a - 1/2) Γ(a - 1)`. -/
noncomputable def gamma3 (a : ℝ) : ℝ :=
  Real.pi ^ ((3 : ℝ) / 2) * Real.Gamma a * Real.Gamma (a - 1 / 2) * Real.Gamma (a - 1)

/-- The density of the Wishart distribution of dimension 3 with scale matrix `S` and `n`
degrees of freedom at the matrix `X`:
`det(X)^((n-4)/2) exp(-tr(S⁻¹X)/2) / (2^(3n/2) det(S)^(n/2) Γ₃(n/2))`. -/
noncomputable def wishartDensity (X S : Matrix (Fin 3) (Fin 3) ℝ) (n : ℝ) : ℝ :=
  X.det ^ ((n - 4) / 2) * Real.exp (-(S⁻¹ * X).trace / 2) /
    ((2 : ℝ) ^ (3 * n / 2) * S.det ^ (n / 2) * gamma3 (n / 2))

/-! ## The prior (lines 1200-1213) -/

/-- The function `acos` of the C library: outside `[-1, 1]` it has no value (the library
returns NaN). -/
noncomputable def acos (x : ℝ) : Option ℝ :=
  if -1 ≤ x ∧ x ≤ 1 then some (Real.arccos x) else none

/-- The function `prior` (lines 1201-1213): the sampled normal `(nx, ny, nz)` is turned to
point down, `alpha` is its angle to the normal estimate of trend `phi` and plunge `theta`,
and the result is `sin(alpha) / (2π)`. -/
noncomputable def prior (phi theta nx ny nz : ℝ) : Option ℝ :=
  let nx1 := if nz > 0 then nx * -1 else nx
  let ny1 := if nz > 0 then ny * -1 else ny
  let nz1 := if nz > 0 then nz * -1 else nz
  match acos (nx1 * Real.sin phi * Real.cos theta + ny1 * Real.cos phi * Real.cos theta -
      nz1 * Real.sin theta) with
  | none => none
  | some alpha => some (Real.sin alpha / (2 * Real.pi))

/-! ## Centroid, scatter matrix and covariance of a window (lines 1627-1684) -/

/-- Lines 1632-1649 for a window `[lo, hi)` that contains no Break: the sums `cx, cy, cz` of
the positions of the window, divided by `n = _max - _min`. -/
def windowCentroid {K : Type} [Field K] (series : List (Entry K)) (lo hi : Nat) : Vec3 K :=
  let n : K := ((hi - lo : Nat) : K)
  let w := window series lo hi
  ⟨w.foldl (fun cx e => cx + e.px) 0 / n, w.foldl (fun cy e => cy + e.py) 0 / n,
    w.foldl (fun cz e => cz + e.pz) 0 / n⟩

/-- Lines 1662-1684: the scatter matrix `X` of the window `[lo, hi)`. The loop of line 1669
fills the diagonal and the entries above it; lines 1682-1684 copy them below the diagonal. -/
def scatterMatrix {K : Type} [Field K] (series : List (Entry K)) (lo hi : Nat) :
    Matrix (Fin 3) (Fin 3) K :=
  let c := windowCentroid series lo hi
  let w := window series lo hi
  let x00 := w.foldl (fun x e => x + (e.px - c.x) * (e.px - c.x)) 0
  let x11 := w.foldl (fun x e => x + (e.py - c.y) * (e.py - c.y)) 0
  let x22 := w.foldl (fun x e => x + (e.pz - c.z) * (e.pz - c.z)) 0
  let x01 := w.foldl (fun x e => x + (e.px - c.x) * (e.py - c.y)) 0
  let x02 := w.foldl (fun x e => x + (e.px - c.x) * (e.pz - c.z)) 0
  let x12 := w.foldl (fun x e => x + (e.py - c.y) * (e.pz - c.z)) 0
  !![x00, x01, x02; x01, x11, x12; x02, x12, x22]

/-- Lines 1678-1684: the matrix `cov`, the entries of `X` divided by `n = _max - _min`. -/
def covMatrix {K : Type} [Field K] (series : List (Entry K)) (lo hi : Nat) :
    Matrix (Fin 3) (Fin 3) K :=
  let n : K := ((hi - lo : Nat) : K)
  let X := scatterMatrix series lo hi
  let c00 := X 0 0 / n
  let c11 := X 1 1 / n
  let c22 := X 2 2 / n
  let c01 := X 0 1 / n
  let c02 := X 0 2 / n
  let c12 := X 1 2 / n
  !![c00, c01, c02; c01, c11, c12; c02, c12, c22]

/-- The difference `p - c` of the position of an entry and a point `c`, as a column. -/
def Entry.offset {K : Type} [Sub K] (c : Vec3 K) (e : Entry K) : Fin 3 → K :=
  ![e.px - c.x, e.py - c.y, e.pz - c.z]

/-- The scatter matrix in the words of the specification: the sum over the window of the
outer products `(p - c)(p - c)ᵀ`. -/
def outerSum {K : Type} [Field K] (c : Vec3 K) (w : List (Entry K)) :
    Matrix (Fin 3) (Fin 3) K :=
  (w.map (fun e => Matrix.vecMulVec (e.offset c) (e.offset c))).sum

/-! ### Properties of the sort -/

theorem findInsert_eq {K : Type} [LinearOrderedRing K] (d : K) :
    ∀ (l : List (Entry K)) (n : Nat) (iid : Option Nat), (∃ e ∈ l, d < e.dist) →
      findInsert d l n iid = some (n + (l.takeWhile (fun e => decide (¬ d < e.dist))).length)
  | [], _, _, h => by simp at h
  | e :: es, n, iid, h => by
    by_cases hd : d < e.dist
    · simp [findInsert, hd, List.takeWhile]
    · have h' : ∃ e ∈ es, d < e.dist := by
        rcases h with ⟨a, ha, had⟩
        rcases List.mem_cons.1 ha with rfl | ha
        · exact absurd had hd
        · exact ⟨a, ha, had⟩
      simp [findInsert, hd, List.takeWhile, findInsert_eq d es (n + 1) iid h']
      omega

theorem insertAt_takeWhile {α : Type} (q : α → Bool) (a : α) :
    ∀ l : List α, insertAt l (l.takeWhile q).length a = l.takeWhile q ++ a :: l.dropWhile q
  | [] => by simp [insertAt]
  | b :: l => by
    have ih := insertAt_takeWhile q a l
    unfold insertAt at ih ⊢
    cases hq : q b
    · simp [List.takeWhile, List.dropWhile, hq]
    · simp [List.takeWhile, List.dropWhile, hq, ih]

theorem dropWhile_all_gt {K : Type} [LinearOrderedRing K] (d : K) :
    ∀ (l : List (Entry K)), l.Pairwise EntryLE →
      ∀ e ∈ l.dropWhile (fun e => decide (¬ d < e.dist)), d < e.dist
  | [], _, e, he => by simp at he
  | a :: l, hp, e, he => by
    rw [List.pairwise_cons] at hp
    by_cases hd : d < a.dist
    · have : (a :: l).dropWhile (fun e => decide (¬ d < e.dist)) = a :: l := by
        simp [List.dropWhile, hd]
      rw [this] at he
      rcases List.mem_cons.1 he with rfl | he
      · exact hd
      · rcases hp.1 e he with h | h
        · exact lt_trans hd h
        · exact h.1 ▸ hd
    · have : (a :: l).dropWhile (fun e => decide (¬ d < e.dist)) =
          l.dropWhile (fun e => decide (¬ d < e.dist)) := by
        simp [List.dropWhile, hd]
      rw [this] at he
      exact dropWhile_all_gt d l hp.2 e he

theorem takeWhile_all_le {K : Type} [LinearOrderedRing K] (d : K) (l : List (Entry K)) :
    ∀ e ∈ l.takeWhile (fun e => decide (¬ d < e.dist)), e.dist ≤ d := by
  intro e he
  have := List.mem_takeWhile_imp he
  simpa using this

/-- Inserting an entry with the largest cloud index seen so far before the first entry of
larger projection keeps the series ordered. -/
theorem pairwise_insert {K : Type} [LinearOrderedRing K] (l : List (Entry K)) (x : Entry K)
    (hp : l.Pairwise EntryLE) (hpid : ∀ e ∈ l, e.pid ≤ x.pid) :
    (l.takeWhile (fun e => decide (¬ x.dist < e.dist)) ++
      x :: l.dropWhile (fun e => decide (¬ x.dist < e.dist))).Pairwise EntryLE := by
  rw [List.pairwise_append]
  refine ⟨hp.sublist (List.takeWhile_sublist _), ?_, ?_⟩
  · rw [List.pairwise_cons]
    refine ⟨?_, hp.sublist (List.dropWhile_sublist _)⟩
    intro e he
    exact Or.inl (dropWhile_all_gt x.dist l hp e he)
  · intro a ha b hb
    have hale := takeWhile_all_le x.dist l a ha
    have hamem : a ∈ l := (List.takeWhile_sublist _).subset ha
    rcases List.mem_cons.1 hb with rfl | hb
    · rcases lt_or_eq_of_le hale with h | h
      · exact Or.inl h
      · exact Or.inr ⟨h, hpid a hamem⟩
    · exact Or.inl (lt_of_le_of_lt hale (dropWhile_all_gt x.dist l hp b hb))

/-- Appending an entry whose projection is at least that of the last entry, and whose cloud
index is the largest so far, keeps the series ordered. -/
theorem pairwise_push {K : Type} [LinearOrderedRing K] (l : List (Entry K)) (last x : Entry K)
    (hp : l.Pairwise EntryLE) (hlast : l.getLast? = some last) (hle : last.dist ≤ x.dist)
    (hpid : ∀ e ∈ l, e.pid ≤ x.pid) : (l ++ [x]).Pairwise EntryLE := by
  rw [List.pairwise_append]
  refine ⟨hp, List.pairwise_singleton _ _, ?_⟩
  intro a ha b hb
  rw [List.mem_singleton] at hb
  subst hb
  have hal : a.dist ≤ last.dist := by
    obtain ⟨l', rfl⟩ : ∃ l', l = l' ++ [last] := by
      rcases List.eq_nil_or_concat l with h | ⟨l', b, h⟩
      · subst h; simp at hlast
      · subst h; simp at hlast; subst hlast; exact ⟨l', by simp⟩
    rw [List.pairwise_append] at hp
    rcases List.mem_append.1 ha with h | h
    · rcases hp.2.2 a h last (by simp) with h' | h'
      · exact le_of_lt h'
      · exact le_of_eq h'.1
    · rw [List.mem_singleton] at h; subst h; exact le_refl _
  rcases lt_or_eq_of_le (le_trans hal hle) with h | h
  · exact Or.inl h
  · exact Or.inr ⟨h, hpid a ha⟩

theorem sortStep_inv {K : Type} [LinearOrderedRing K] (axis : Vec3 K) (pts : List (Sample K))
    (p : Nat) (s : Sample K) (st : SortState K) (hs : pts[p]? = some s)
    (inv : SortInv axis pts p st.series) :
    ∃ st', sortStep axis st p s = some st' ∧ SortInv axis pts (p + 1) st'.series := by
  obtain ⟨last, hlast⟩ : ∃ last, st.series.getLast? = some last := by
    cases h : st.series.getLast? with
    | none => exact absurd (List.getLast?_eq_none_iff.1 h) inv.ne
    | some a => exact ⟨a, rfl⟩
  have hlmem : last ∈ st.series := List.mem_of_getLast?_eq_some hlast
  have hx : ∀ e ∈ st.series, e.pid ≤ (mkEntry p (s.pos.dot axis) s).pid := inv.pid_le
  have hentry : ∀ l' : List (Entry K), (∀ e ∈ l', e ∈ st.series ∨ e = mkEntry p (s.pos.dot axis) s) →
      ∀ e ∈ l', ∃ s', pts[e.pid]? = some s' ∧ e = mkEntry e.pid (s'.pos.dot axis) s' := by
    intro l' hl' e he
    rcases hl' e he with h | h
    · exact inv.entry e h
    · subst h; exact ⟨s, hs, rfl⟩
  have hpidle : ∀ l' : List (Entry K), (∀ e ∈ l', e ∈ st.series ∨ e = mkEntry p (s.pos.dot axis) s) →
      ∀ e ∈ l', e.pid ≤ p + 1 := by
    intro l' hl' e he
    rcases hl' e he with h | h
    · exact Nat.le_succ_of_le (inv.pid_le e h)
    · subst h; exact Nat.le_succ p
  by_cases hle : last.dist ≤ s.pos.dot axis
  · refine ⟨{ series := st.series ++ [mkEntry p (s.pos.dot axis) s], iid := st.iid }, ?_, ?_⟩
    · simp [sortStep, hlast, hle]
    · have hmem : ∀ e ∈ st.series ++ [mkEntry p (s.pos.dot axis) s],
          e ∈ st.series ∨ e = mkEntry p (s.pos.dot axis) s := by
        intro e he; simpa using he
      refine ⟨by simp, pairwise_push st.series last _ inv.sorted hlast hle hx,
        hpidle _ hmem, hentry _ hmem, ?_⟩
      simp only [List.map_append, List.map_cons, List.map_nil, List.range_succ]
      exact (inv.perm.append_right [p])
  · have hgt : ∃ e ∈ st.series, s.pos.dot axis < e.dist := ⟨last, hlmem, lt_of_not_le hle⟩
    have hfind := findInsert_eq (s.pos.dot axis) st.series 0 st.iid hgt
    have hlen : (st.series.takeWhile (fun e => decide (¬ s.pos.dot axis < e.dist))).length ≤
        st.series.length := (List.takeWhile_sublist _).length_le
    refine ⟨SortState.mk (insertAt st.series
        (st.series.takeWhile (fun e => decide (¬ s.pos.dot axis < e.dist))).length
        (mkEntry p (s.pos.dot axis) s))
        (some (st.series.takeWhile (fun e => decide (¬ s.pos.dot axis < e.dist))).length), ?_, ?_⟩
    · simp only [sortStep, hlast, hle, hfind, if_false, Nat.zero_add, hlen, if_true]
    · simp only [insertAt_takeWhile]
      have hmem : ∀ e ∈ st.series.takeWhile (fun e => decide (¬ s.pos.dot axis < e.dist)) ++
          mkEntry p (s.pos.dot axis) s ::
            st.series.dropWhile (fun e => decide (¬ s.pos.dot axis < e.dist)),
          e ∈ st.series ∨ e = mkEntry p (s.pos.dot axis) s := by
        intro e he
        rcases List.mem_append.1 he with h | h
        · exact Or.inl ((List.takeWhile_sublist _).subset h)
        · rcases List.mem_cons.1 h with h | h
          · exact Or.inr h
          · exact Or.inl ((List.dropWhile_sublist _).subset h)
      refine ⟨by simp, pairwise_insert st.series (mkEntry p (s.pos.dot axis) s) inv.sorted hx,
        hpidle _ hmem, hentry _ hmem, ?_⟩
      have h1 : (List.map Entry.pid
          (st.series.takeWhile (fun e => decide (¬ s.pos.dot axis < e.dist)) ++
          mkEntry p (s.pos.dot axis) s ::
            st.series.dropWhile (fun e => decide (¬ s.pos.dot axis < e.dist)))).Perm
          (List.map Entry.pid st.series ++ [p]) := by
        have h2 := List.takeWhile_append_dropWhile
          (fun e : Entry K => decide (¬ s.pos.dot axis < e.dist)) st.series
        have h3 : (st.series.takeWhile (fun e => decide (¬ s.pos.dot axis < e.dist)) ++
            mkEntry p (s.pos.dot axis) s ::
            st.series.dropWhile (fun e => decide (¬ s.pos.dot axis < e.dist))).Perm
            (st.series ++ [mkEntry p (s.pos.dot axis) s]) := by
          refine List.perm_middle.trans ?_
          rw [h2]
          exact (List.perm_append_singleton _ _).symm
        simpa [mkEntry] using h3.map Entry.pid
      refine h1.trans ?_
      rw [List.range_succ]
      exact (inv.perm.append_right [p])

theorem sortLoop_inv {K : Type} [LinearOrderedRing K] (axis : Vec3 K) (pts : List (Sample K)) :
    ∀ (rest : List (Sample K)) (p : Nat) (st : SortState K), pts.drop p = rest →
      SortInv axis pts p st.series →
      ∃ st', sortLoop axis rest p st = some st' ∧ SortInv axis pts pts.length st'.series
  | [], p, st, hdrop, inv => by
    have hp : pts.length ≤ p := List.drop_eq_nil_iff.1 hdrop
    have hpid : ∀ e ∈ st.series, e.pid < pts.length := by
      intro e he
      obtain ⟨s, hs, _⟩ := inv.entry e he
      exact (List.getElem?_eq_some_iff.1 hs).1
    refine ⟨st, rfl, inv.ne, inv.sorted, fun e he => Nat.le_of_lt (hpid e he), inv.entry, ?_⟩
    rcases Nat.eq_or_lt_of_le hp with h | h
    · rw [h]; exact inv.perm
    · exfalso
      have hmem : p - 1 ∈ List.map Entry.pid st.series := by
        refine inv.perm.symm.subset ?_
        simp only [List.mem_cons, List.mem_range]
        omega
      obtain ⟨e, he, hep⟩ := List.mem_map.1 hmem
      have := hpid e he
      omega
  | s :: rest, p, st, hdrop, inv => by
    have hs : pts[p]? = some s := by
      rw [← List.head?_drop, hdrop]; rfl
    have hdrop' : pts.drop (p + 1) = rest := by
      rw [← List.drop_drop, hdrop]
      rfl
    obtain ⟨st1, h1, inv1⟩ := sortStep_inv axis pts p s st hs inv
    obtain ⟨st2, h2, inv2⟩ := sortLoop_inv axis pts rest (p + 1) st1 hdrop' inv1
    exact ⟨st2, by simp [sortLoop, h1, h2], inv2⟩

/-- The sort always succeeds on a non-empty cloud, whatever `iid` held before, and its result
satisfies the invariant for the whole cloud. -/
theorem sortAlongAxis_inv {K : Type} [LinearOrderedRing K] (axis : Vec3 K)
    (pts : List (Sample K)) (iid : Option Nat) (hne : pts ≠ []) :
    ∃ st, sortAlongAxis axis pts iid = some st ∧ SortInv axis pts pts.length st.series := by
  cases pts with
  | nil => exact absurd rfl hne
  | cons s0 tl =>
    have inv0 : SortInv axis (s0 :: tl) 0 [mkEntry 0 (s0.pos.dot axis) s0] := by
      refine ⟨by simp, List.pairwise_singleton _ _, ?_, ?_, ?_⟩
      · intro e he; rw [List.mem_singleton] at he; subst he; exact le_refl _
      · intro e he; rw [List.mem_singleton] at he; subst he; exact ⟨s0, by simp [mkEntry], rfl⟩
      · simp [mkEntry]
    exact sortLoop_inv axis (s0 :: tl) (s0 :: tl) 0
      { series := [mkEntry 0 (s0.pos.dot axis) s0], iid := iid } rfl inv0

/-- The series a step of the sort produces does not depend on the value `iid` held. -/
theorem sortStep_indep {K : Type} [LinearOrderedRing K] (axis : Vec3 K)
    (l : List (Entry K)) (i1 i2 : Option Nat) (p : Nat) (s : Sample K) :
    (sortStep axis { series := l, iid := i1 } p s).map SortState.series =
      (sortStep axis { series := l, iid := i2 } p s).map SortState.series := by
  unfold sortStep
  cases hlast : l.getLast? with
  | none => rfl
  | some last =>
    by_cases hle : last.dist ≤ s.pos.dot axis
    · simp [hle]
    · have hgt : ∃ e ∈ l, s.pos.dot axis < e.dist :=
        ⟨last, List.mem_of_getLast?_eq_some hlast, lt_of_not_le hle⟩
      simp only [hle, if_false, findInsert_eq (s.pos.dot axis) l 0 _ hgt]

theorem sortLoop_indep {K : Type} [LinearOrderedRing K] (axis : Vec3 K) :
    ∀ (rest : List (Sample K)) (p : Nat) (st1 st2 : SortState K),
      st1.series = st2.series →
      (sortLoop axis rest p st1).map SortState.series =
        (sortLoop axis rest p st2).map SortState.series
  | [], _, st1, st2, h => by simp [sortLoop, h]
  | s :: rest, p, st1, st2, h => by
    have hstep := sortStep_indep axis st1.series st1.iid st2.iid p s
    have e1 : ({ series := st1.series, iid := st1.iid } : SortState K) = st1 := rfl
    have e2 : ({ series := st1.series, iid := st2.iid } : SortState K) = st2 := by
      rw [h]
    rw [e1, e2] at hstep
    simp only [sortLoop]
    cases h1 : sortStep axis st1 p s with
    | none =>
      cases h2 : sortStep axis st2 p s with
      | none => rfl
      | some b => rw [h1, h2] at hstep; simp at hstep
    | some a =>
      cases h2 : sortStep axis st2 p s with
      | none => rw [h1, h2] at hstep; simp at hstep
      | some b =>
        rw [h1, h2] at hstep
        simp only [Option.map_some', Option.some.injEq] at hstep
        simp only [Option.some_bind]
        exact sortLoop_indep axis rest (p + 1) a b hstep

/-- The sorted series does not depend on the value `iid` held before the sort. -/
theorem sortAlongAxis_indep {K : Type} [LinearOrderedRing K] (axis : Vec3 K)
    (pts : List (Sample K)) (i1 i2 : Option Nat) :
    (sortAlongAxis axis pts i1).map SortState.series =
      (sortAlongAxis axis pts i2).map SortState.series := by
  cases pts with
  | nil => rfl
  | cons s0 tl => exact sortLoop_indep axis _ 0 _ _ rfl

/-! ### Properties of the sweep -/

theorem broken_eq_false_iff (brk : Nat → Bool) (lo hi : Nat) :
    broken brk lo hi = false ↔ ∀ q, lo ≤ q → q < hi → brk q = false := by
  unfold broken
  rw [List.any_eq_false]
  constructor
  · intro h q h1 h2
    have hm : q ∈ List.range' lo (hi - lo) := by
      rw [List.mem_range'_1]; omega
    simpa using h q hm
  · intro h q hq
    rw [List.mem_range'_1] at hq
    simp [h q hq.1 (by omega)]

theorem toInt32_of_lt {n : Nat} (h : n < 2 ^ 31) : toInt32 n = (n : Int) := by
  unfold toInt32
  have h1 : n % 2 ^ 32 = n := Nat.mod_eq_of_lt (by omega)
  rw [h1, if_pos h]

theorem toInt32_neg {n : Nat} (h1 : 2 ^ 31 ≤ n) (h2 : n < 2 ^ 32) : toInt32 n < 0 := by
  unfold toInt32
  have h3 : n % 2 ^ 32 = n := Nat.mod_eq_of_lt h2
  rw [h3, if_neg (by omega)]
  omega

/-- Anything that holds of the Estimates before an update and of the value the update may
store holds after it. -/
theorem updateAt_forall {K : Type} [LinearOrder K] (P : Estimate K → Prop) (M lo hi : Nat)
    (pd : K) (v : Vec3 K) (est : List (Estimate K)) (p : Nat)
    (hnew : P (Estimate.ofWindow M lo hi pd v)) (h : ∀ e ∈ est, P e) :
    ∀ e ∈ updateAt M lo hi pd v est p, P e := by
  intro e he
  unfold updateAt at he
  split at he
  · split at he
    · rcases List.mem_or_eq_of_mem_set he with h1 | h1
      · exact h e h1
      · exact h1 ▸ hnew
    · exact h e he
  · exact h e he

theorem mapUpdate_forall {K : Type} [LinearOrder K] (P : Estimate K → Prop) (M lo hi : Nat)
    (pd : K) (v : Vec3 K) :
    ∀ (ps : List Nat) (est : List (Estimate K)),
      (ps ≠ [] → P (Estimate.ofWindow M lo hi pd v)) → (∀ e ∈ est, P e) →
      ∀ e ∈ mapUpdate M lo hi pd v ps est, P e
  | [], _, _, h => h
  | p :: ps, est, hnew, h =>
    mapUpdate_forall P M lo hi pd v ps _ (fun _ => hnew (by simp))
      (updateAt_forall P M lo hi pd v est p (hnew (by simp)) h)

theorem innerLoop_forall {K : Type} [LinearOrder K] (P : Estimate K → Prop) (M : Nat)
    (brk : Nat → Bool) (score : Nat → Nat → K) (nrm : Nat → Nat → Vec3 K) (lo : Nat) :
    ∀ (his : List Nat) (st : SweepState K),
      (∀ hi ∈ his, broken brk lo hi = false → lo < hi →
        P (Estimate.ofWindow M lo hi (score lo hi) (nrm lo hi))) →
      (∀ e ∈ st.est, P e) → ∀ e ∈ (innerLoop M brk score nrm lo his st).est, P e
  | [], _, _, h => h
  | hi :: his, st, hnew, h => by
    unfold innerLoop
    cases hb : broken brk lo hi
    · simp only [Bool.false_eq_true, if_false]
      refine innerLoop_forall P M brk score nrm lo his _
        (fun hi' hm => hnew hi' (List.mem_cons_of_mem _ hm)) ?_
      refine mapUpdate_forall P M lo hi _ _ _ _ ?_ h
      intro hne
      refine hnew hi (List.mem_cons_self _ _) hb ?_
      by_contra hlt
      exact hne (by simp [Nat.sub_eq_zero_of_le (Nat.le_of_not_lt hlt)])
    · simpa using h

theorem outerLoop_forall {K : Type} [LinearOrder K] (P : Estimate K → Prop)
    (M minsize maxsize : Nat) (brk : Nat → Bool) (score : Nat → Nat → K)
    (nrm : Nat → Nat → Vec3 K) (cancel : Nat → Bool)
    (hnew : ∀ lo hi, hi ∈ innerRange M minsize maxsize lo → broken brk lo hi = false →
      lo < hi → P (Estimate.ofWindow M lo hi (score lo hi) (nrm lo hi))) :
    ∀ (los : List Nat) (st st' : SweepState K),
      outerLoop M minsize maxsize brk score nrm cancel los st = some st' →
      (∀ e ∈ st.est, P e) → ∀ e ∈ st'.est, P e
  | [], st, st', hrun, h => by
    simp only [outerLoop, Option.some.injEq] at hrun
    exact hrun ▸ h
  | lo :: los, st, st', hrun, h => by
    unfold outerLoop at hrun
    cases hc : cancel lo
    · rw [hc] at hrun
      simp only [Bool.false_eq_true, if_false] at hrun
      exact outerLoop_forall P M minsize maxsize brk score nrm cancel hnew los _ st' hrun
        (innerLoop_forall P M brk score nrm lo _ st (fun hi hm => hnew lo hi hm) h)
    · rw [hc] at hrun
      simp at hrun

theorem mem_innerRange {M minsize maxsize lo hi : Nat}
    (h : hi ∈ innerRange M minsize maxsize lo) :
    u32 (lo + minsize) ≤ hi ∧ hi < u32 M ∧ hi < u32 (lo + maxsize) := by
  unfold innerRange at h
  rw [List.mem_range'_1] at h
  omega

theorem u32_lt (n : Nat) : u32 n < 2 ^ 32 := Nat.mod_lt _ (by norm_num)

theorem windowClean_init {K : Type} [Zero K] (brk : Nat → Bool) :
    WindowClean brk (Estimate.init : Estimate K) := by
  intro q h1 h2
  simp only [Estimate.init] at h1 h2
  omega

theorem windowClean_ofWindow {K : Type} (brk : Nat → Bool) (M lo hi : Nat) (pd : K)
    (v : Vec3 K) (hlt : lo < hi) (h32 : hi < 2 ^ 32) (hb : broken brk lo hi = false) :
    WindowClean brk (Estimate.ofWindow M lo hi pd v) := by
  intro q h1 h2
  simp only [Estimate.ofWindow] at h1 h2
  by_cases hhi : hi < 2 ^ 31
  · rw [toInt32_of_lt hhi] at h2
    rw [toInt32_of_lt (lt_trans hlt hhi)] at h1
    exact (broken_eq_false_iff brk lo hi).1 hb q (by omega) (by omega)
  · have := toInt32_neg (Nat.le_of_not_lt hhi) h32
    omega

theorem updateAt_getElem? {K : Type} [LinearOrder K] (M lo hi : Nat) (pd : K) (v : Vec3 K)
    (est : List (Estimate K)) (p q : Nat) :
    (updateAt M lo hi pd v est p)[q]? =
      if q = p then est[q]?.map
        (fun e => if e.bestPd < pd then Estimate.ofWindow M lo hi pd v else e)
      else est[q]? := by
  unfold updateAt
  by_cases hqp : q = p
  · subst hqp
    cases he : est[q]? with
    | none => simp [he]
    | some e =>
      by_cases hlt : e.bestPd < pd
      · have hq : q < est.length := (List.getElem?_eq_some_iff.1 he).1
        simp [hlt, List.getElem?_set, hq]
      · simp [hlt, he]
  · rw [if_neg hqp]
    cases he : est[p]? with
    | none => rfl
    | some e =>
      by_cases hlt : e.bestPd < pd
      · simp only [hlt, if_true]
        rw [List.getElem?_set_ne (Ne.symm hqp)]
      · simp [hlt]

theorem mapUpdate_getElem? {K : Type} [LinearOrder K] (M lo hi : Nat) (pd : K)
    (v : Vec3 K) (q : Nat) :
    ∀ (n a : Nat) (est : List (Estimate K)),
      (mapUpdate M lo hi pd v (List.range' a n) est)[q]? =
        est[q]?.map (fun e => if a ≤ q ∧ q < a + n ∧ e.bestPd < pd then
          Estimate.ofWindow M lo hi pd v else e)
  | 0, a, est => by
    cases he : est[q]? with
    | none => simp [mapUpdate, he]
    | some e =>
      have : ¬ (a ≤ q ∧ q < a ∧ e.bestPd < pd) := fun h => absurd h.1 (not_le.2 h.2.1)
      simp [mapUpdate, he, this]
  | n + 1, a, est => by
    rw [List.range'_succ, mapUpdate, mapUpdate_getElem? M lo hi pd v q n (a + 1),
      updateAt_getElem?]
    by_cases hqa : q = a
    · subst hqa
      cases est[q]? with
      | none => simp
      | some e =>
        by_cases hlt : e.bestPd < pd <;> simp [hlt]
    · rw [if_neg hqa]
      cases est[q]? with
      | none => rfl
      | some e =>
        simp only [Option.map_some']
        congr 1
        have : (a + 1 ≤ q ∧ q < a + 1 + n ∧ e.bestPd < pd) ↔
            (a ≤ q ∧ q < a + (n + 1) ∧ e.bestPd < pd) := by
          constructor
          · rintro ⟨h1, h2, h3⟩; exact ⟨by omega, by omega, h3⟩
          · rintro ⟨h1, h2, h3⟩; exact ⟨by omega, by omega, h3⟩
        simp only [this]

/-- The update loop of the window `[lo, hi)` acts on each position by `updOne`. -/
theorem mapUpdate_window {K : Type} [LinearOrder K] (M lo hi : Nat) (pd : K) (v : Vec3 K)
    (est : List (Estimate K)) (q : Nat) :
    (mapUpdate M lo hi pd v (List.range' lo (hi - lo)) est)[q]? =
      est[q]?.map (updOne M lo hi pd v q) := by
  rw [mapUpdate_getElem?]
  cases est[q]? with
  | none => rfl
  | some e =>
    simp only [Option.map_some', updOne]
    congr 1
    have : (lo ≤ q ∧ q < lo + (hi - lo) ∧ e.bestPd < pd) ↔ (lo ≤ q ∧ q < hi ∧ e.bestPd < pd) := by
      constructor
      · rintro ⟨h1, h2, h3⟩; exact ⟨h1, by omega, h3⟩
      · rintro ⟨h1, h2, h3⟩; exact ⟨h1, by omega, h3⟩
    simp only [this]

theorem BestOver.congr {K : Type} [LinearOrder K] [Zero K] {M : Nat} {score : Nat → Nat → K}
    {nrm : Nat → Nat → Vec3 K} {S S' : Nat → Nat → Prop} {p : Nat} {e : Estimate K}
    (h : BestOver M score nrm S p e) (hS : ∀ lo hi, S lo hi ↔ S' lo hi) :
    BestOver M score nrm S' p e := by
  refine ⟨h.nonneg, fun lo hi hs => h.ge lo hi ((hS lo hi).2 hs), ?_⟩
  rcases h.attained with h1 | ⟨lo, hi, hs, h1⟩
  · exact Or.inl h1
  · exact Or.inr ⟨lo, hi, (hS lo hi).1 hs, h1⟩

theorem BestOver.step {K : Type} [LinearOrder K] [Zero K] {M : Nat} {score : Nat → Nat → K}
    {nrm : Nat → Nat → Vec3 K} {S : Nat → Nat → Prop} {p : Nat} {e : Estimate K}
    (h : BestOver M score nrm S p e) (lo hi : Nat) :
    BestOver M score nrm (fun l h => S l h ∨ (l = lo ∧ h = hi)) p
      (updOne M lo hi (score lo hi) (nrm lo hi) p e) := by
  unfold updOne
  by_cases hc : lo ≤ p ∧ p < hi ∧ e.bestPd < score lo hi
  · rw [if_pos hc]
    have hpos : 0 < score lo hi := lt_of_le_of_lt h.nonneg hc.2.2
    refine ⟨le_of_lt hpos, ?_, Or.inr ⟨lo, hi, Or.inr ⟨rfl, rfl⟩, hc.1, hc.2.1, hpos, rfl⟩⟩
    intro l h' hs h1 h2
    rcases hs with hs | ⟨rfl, rfl⟩
    · exact le_trans (h.ge l h' hs h1 h2) (le_of_lt hc.2.2)
    · exact le_refl _
  · rw [if_neg hc]
    refine ⟨h.nonneg, ?_, ?_⟩
    · intro l h' hs h1 h2
      rcases hs with hs | ⟨rfl, rfl⟩
      · exact h.ge l h' hs h1 h2
      · by_contra hlt
        exact hc ⟨h1, h2, lt_of_not_le hlt⟩
    · rcases h.attained with h1 | ⟨l, h', hs, h1⟩
      · exact Or.inl h1
      · exact Or.inr ⟨l, h', Or.inl hs, h1⟩

theorem broken_mono (brk : Nat → Bool) (lo a h : Nat) (hb : broken brk lo a = true)
    (hah : a ≤ h) : broken brk lo h = true := by
  by_contra hn
  rw [Bool.not_eq_true] at hn
  have h1 := (broken_eq_false_iff brk lo h).1 hn
  have h2 : broken brk lo a = false :=
    (broken_eq_false_iff brk lo a).2 (fun q hq1 hq2 => h1 q hq1 (by omega))
  rw [hb] at h2
  exact Bool.noConfusion h2

theorem innerLoop_best {K : Type} [LinearOrder K] [Zero K] (M : Nat) (brk : Nat → Bool)
    (score : Nat → Nat → K) (nrm : Nat → Nat → Vec3 K) (lo : Nat) :
    ∀ (n a : Nat) (st : SweepState K) (S : Nat → Nat → Prop),
      (∀ q e, st.est[q]? = some e → BestOver M score nrm S q e) →
      ∀ q e, (innerLoop M brk score nrm lo (List.range' a n) st).est[q]? = some e →
        BestOver M score nrm
          (fun l h => S l h ∨ (l = lo ∧ h ∈ List.range' a n ∧ broken brk lo h = false)) q e
  | 0, a, st, S, hst, q, e, he => by
    simp only [List.range'_zero, innerLoop] at he
    exact (hst q e he).congr (fun l h => by simp)
  | n + 1, a, st, S, hst, q, e, he => by
    rw [List.range'_succ, innerLoop] at he
    cases hb : broken brk lo a
    · rw [hb] at he
      simp only [Bool.false_eq_true, if_false] at he
      have hst1 : ∀ q e, (mapUpdate M lo a (score lo a) (nrm lo a)
          (List.range' lo (a - lo)) st.est)[q]? = some e →
          BestOver M score nrm (fun l h => S l h ∨ (l = lo ∧ h = a)) q e := by
        intro q e hq
        rw [mapUpdate_window] at hq
        cases h0 : st.est[q]? with
        | none => rw [h0] at hq; simp at hq
        | some e0 =>
          rw [h0] at hq
          simp only [Option.map_some', Option.some.injEq] at hq
          exact hq ▸ (hst q e0 h0).step lo a
      refine (innerLoop_best M brk score nrm lo n (a + 1) _ _ hst1 q e he).congr ?_
      intro l h
      simp only [List.mem_range'_1]
      constructor
      · rintro ((hs | ⟨rfl, rfl⟩) | ⟨rfl, h1, h2⟩)
        · exact Or.inl hs
        · exact Or.inr ⟨rfl, ⟨le_refl _, by omega⟩, hb⟩
        · exact Or.inr ⟨rfl, ⟨by omega, by omega⟩, h2⟩
      · rintro (hs | ⟨rfl, h1, h2⟩)
        · exact Or.inl (Or.inl hs)
        · by_cases hha : h = a
          · exact Or.inl (Or.inr ⟨rfl, hha⟩)
          · exact Or.inr ⟨rfl, ⟨by omega, by omega⟩, h2⟩
    · rw [hb] at he
      simp only [if_true] at he
      refine (hst q e he).congr ?_
      intro l h
      simp only [List.mem_range'_1]
      constructor
      · exact fun hs => Or.inl hs
      · rintro (hs | ⟨rfl, h1, h2⟩)
        · exact hs
        · rw [broken_mono brk l a h hb h1.1] at h2
          exact Bool.noConfusion h2

theorem outerLoop_best {K : Type} [LinearOrder K] [Zero K] (M minsize maxsize : Nat)
    (brk : Nat → Bool) (score : Nat → Nat → K) (nrm : Nat → Nat → Vec3 K)
    (cancel : Nat → Bool) :
    ∀ (m b : Nat) (st st' : SweepState K) (S : Nat → Nat → Prop),
      outerLoop M minsize maxsize brk score nrm cancel (List.range' b m) st = some st' →
      (∀ q e, st.est[q]? = some e → BestOver M score nrm S q e) →
      ∀ q e, st'.est[q]? = some e →
        BestOver M score nrm (fun l h => S l h ∨ (l ∈ List.range' b m ∧
          h ∈ innerRange M minsize maxsize l ∧ broken brk l h = false)) q e
  | 0, b, st, st', S, hrun, hst, q, e, he => by
    simp only [List.range'_zero, outerLoop, Option.some.injEq] at hrun
    subst hrun
    exact (hst q e he).congr (fun l h => by simp)
  | m + 1, b, st, st', S, hrun, hst, q, e, he => by
    rw [List.range'_succ, outerLoop] at hrun
    cases hc : cancel b
    · rw [hc] at hrun
      simp only [Bool.false_eq_true, if_false] at hrun
      have hst1 := innerLoop_best M brk score nrm b
        (min (u32 M) (u32 (b + maxsize)) - u32 (b + minsize)) (u32 (b + minsize)) st S hst
      refine (outerLoop_best M minsize maxsize brk score nrm cancel m (b + 1) _ st' _ hrun
        hst1 q e he).congr ?_
      intro l h
      unfold innerRange
      simp only [List.mem_range'_1]
      constructor
      · rintro ((hs | ⟨rfl, h1, h2⟩) | ⟨h0, h1, h2⟩)
        · exact Or.inl hs
        · exact Or.inr ⟨⟨le_refl _, by omega⟩, h1, h2⟩
        · exact Or.inr ⟨⟨by omega, by omega⟩, h1, h2⟩
      · rintro (hs | ⟨h0, h1, h2⟩)
        · exact Or.inl (Or.inl hs)
        · by_cases hlb : l = b
          · subst hlb
            exact Or.inl (Or.inr ⟨rfl, h1, h2⟩)
          · exact Or.inr ⟨⟨by omega, by omega⟩, h1, h2⟩
    · rw [hc] at hrun
      simp at hrun

theorem updateAt_length {K : Type} [LinearOrder K] (M lo hi : Nat) (pd : K) (v : Vec3 K)
    (est : List (Estimate K)) (p : Nat) : (updateAt M lo hi pd v est p).length = est.length := by
  unfold updateAt
  split
  · split
    · exact List.length_set _ _ _
    · rfl
  · rfl

theorem mapUpdate_length {K : Type} [LinearOrder K] (M lo hi : Nat) (pd : K) (v : Vec3 K) :
    ∀ (ps : List Nat) (est : List (Estimate K)),
      (mapUpdate M lo hi pd v ps est).length = est.length
  | [], _ => rfl
  | p :: ps, est => by
    rw [mapUpdate, mapUpdate_length M lo hi pd v ps, updateAt_length]

theorem innerLoop_length {K : Type} [LinearOrder K] (M : Nat) (brk : Nat → Bool)
    (score : Nat → Nat → K) (nrm : Nat → Nat → Vec3 K) (lo : Nat) :
    ∀ (his : List Nat) (st : SweepState K),
      (innerLoop M brk score nrm lo his st).est.length = st.est.length
  | [], _ => rfl
  | hi :: his, st => by
    unfold innerLoop
    split
    · rfl
    · rw [innerLoop_length M brk score nrm lo his]
      exact mapUpdate_length _ _ _ _ _ _ _

theorem outerLoop_length {K : Type} [LinearOrder K] (M minsize maxsize : Nat)
    (brk : Nat → Bool) (score : Nat → Nat → K) (nrm : Nat → Nat → Vec3 K)
    (cancel : Nat → Bool) :
    ∀ (los : List Nat) (st st' : SweepState K),
      outerLoop M minsize maxsize brk score nrm cancel los st = some st' →
      st'.est.length = st.est.length
  | [], st, st', hrun => by
    simp only [outerLoop, Option.some.injEq] at hrun
    rw [← hrun]
  | lo :: los, st, st', hrun => by
    unfold outerLoop at hrun
    split at hrun
    · simp at hrun
    · rw [outerLoop_length M minsize maxsize brk score nrm cancel los _ st' hrun]
      exact innerLoop_length _ _ _ _ _ _ _

/-- A sweep that is never cancelled runs to completion. -/
theorem outerLoop_some {K : Type} [LinearOrder K] (M minsize maxsize : Nat)
    (brk : Nat → Bool) (score : Nat → Nat → K) (nrm : Nat → Nat → Vec3 K)
    (cancel : Nat → Bool) :
    ∀ (los : List Nat) (st : SweepState K), (∀ lo ∈ los, cancel lo = false) →
      ∃ st', outerLoop M minsize maxsize brk score nrm cancel los st = some st'
  | [], st, _ => ⟨st, rfl⟩
  | lo :: los, st, h => by
    unfold outerLoop
    rw [h lo (List.mem_cons_self _ _)]
    simp only [Bool.false_eq_true, if_false]
    exact outerLoop_some M minsize maxsize brk score nrm cancel los _
      (fun l hl => h l (List.mem_cons_of_mem _ hl))

/-- After a completed sweep the Estimate of every position is the best over the windows
the sweep scored. -/
theorem sweep_best {K : Type} [LinearOrder K] [Zero K] (M minsize maxsize : Nat)
    (brk : Nat → Bool) (score : Nat → Nat → K) (nrm : Nat → Nat → Vec3 K)
    (cancel : Nat → Bool) (st : SweepState K)
    (hrun : sweep M minsize maxsize brk score nrm cancel = some st) :
    st.est.length = M ∧
    ∀ q e, st.est[q]? = some e →
      BestOver M score nrm (Evaluated M minsize maxsize brk) q e := by
  unfold sweep outerRange at hrun
  rw [List.range_eq_range'] at hrun
  constructor
  · rw [outerLoop_length M minsize maxsize brk score nrm cancel _ _ st hrun]
    simp [SweepState.init]
  · intro q e he
    have h0 : ∀ q e, (SweepState.init M : SweepState K).est[q]? = some e →
        BestOver M score nrm (fun _ _ => False) q e := by
      intro q e hq
      simp only [SweepState.init] at hq
      rw [List.getElem?_replicate] at hq
      split at hq
      · simp only [Option.some.injEq] at hq
        subst hq
        exact ⟨le_of_eq rfl, fun _ _ hf => hf.elim, Or.inl rfl⟩
      · simp at hq
    refine (outerLoop_best M minsize maxsize brk score nrm cancel _ 0 _ st _ hrun h0 q e
      he).congr ?_
    intro l h
    unfold Evaluated outerRange
    rw [List.range_eq_range']
    simp

/-- Without 32-bit overflow the scored windows are those with `lo + minsize ≤ hi`,
`hi < M`, `hi < lo + maxsize`, `lo < M - minsize` and no flagged position. -/
theorem evaluated_iff (M minsize maxsize : Nat) (brk : Nat → Bool) (lo hi : Nat)
    (hM : M < 2 ^ 31) (hmax : maxsize < 2 ^ 31) :
    Evaluated M minsize maxsize brk lo hi ↔
      (lo < M - minsize ∧ lo + minsize ≤ hi ∧ hi < M ∧ hi < lo + maxsize ∧
        ∀ q, lo ≤ q → q < hi → brk q = false) := by
  unfold Evaluated outerRange innerRange
  rw [List.mem_range, List.mem_range'_1, broken_eq_false_iff]
  constructor
  · rintro ⟨h1, ⟨h2, h3⟩, h4⟩
    have e1 : u32 (lo + minsize) = lo + minsize := Nat.mod_eq_of_lt (by omega)
    have e2 : u32 M = M := Nat.mod_eq_of_lt (by omega)
    have e3 : u32 (lo + maxsize) = lo + maxsize := Nat.mod_eq_of_lt (by omega)
    rw [e1, e2, e3] at h3
    rw [e1] at h2
    exact ⟨h1, h2, by omega, by omega, h4⟩
  · rintro ⟨h1, h2, h3, h4, h5⟩
    have e1 : u32 (lo + minsize) = lo + minsize := Nat.mod_eq_of_lt (by omega)
    have e2 : u32 M = M := Nat.mod_eq_of_lt (by omega)
    have e3 : u32 (lo + maxsize) = lo + maxsize := Nat.mod_eq_of_lt (by omega)
    rw [e1, e2, e3]
    exact ⟨h1, ⟨h2, by omega⟩, h5⟩

/-! ### Properties of the write-back -/

/-- A step of the write-back leaves every cloud index other than `pid[p]` as it was. -/
theorem storeAt_getElem?_ne {K : Type} (log : K → K) (pid : List Nat)
    (est : List (Estimate K)) (cloud : List (CloudPoint K)) (p i : Nat)
    (h : pid[p]? ≠ some i) : (storeAt log pid est cloud p)[i]? = cloud[i]? := by
  unfold storeAt
  split
  · rename_i i' e hp he
    split
    · have hne : i' ≠ i := fun hi => h (hi ▸ hp)
      exact List.getElem?_set_ne hne
    · rfl
  · rfl

theorem storeLoop_getElem?_ne {K : Type} (log : K → K) (pid : List Nat)
    (est : List (Estimate K)) (i : Nat) :
    ∀ (ps : List Nat) (cloud : List (CloudPoint K)), (∀ p ∈ ps, pid[p]? ≠ some i) →
      (storeLoop log pid est ps cloud)[i]? = cloud[i]?
  | [], _, _ => rfl
  | p :: ps, cloud, h => by
    rw [storeLoop, storeLoop_getElem?_ne log pid est i ps _
      (fun q hq => h q (List.mem_cons_of_mem _ hq)),
      storeAt_getElem?_ne log pid est cloud p i (h p (List.mem_cons_self _ _))]

/-! ### Properties of the thickness pass -/

theorem thicknessAt_getElem? {K : Type} [LinearOrderedField K] (env : Env K) (cfg : Config K)
    (opp : List (Vec3 K)) (cloud : List (CloudPoint K)) (p i : Nat) :
    (thicknessAt env cfg opp cloud p)[i]? =
      cloud[i]?.map (fun c => if i = p then thicknessPoint env cfg opp c else c) := by
  unfold thicknessAt
  by_cases hip : i = p
  · subst hip
    cases hc : cloud[i]? with
    | none => simp [hc]
    | some c =>
      have hi : i < cloud.length := (List.getElem?_eq_some_iff.1 hc).1
      simp [List.getElem?_set_self hi]
  · cases hc : cloud[p]? with
    | none => simp [hip]
    | some c =>
      simp only [hip, if_false]
      rw [List.getElem?_set_ne (Ne.symm hip)]
      simp

/-- A thickness loop that was not cancelled has replaced each point of its range by what
its step makes of it, and left the others. -/
theorem thicknessLoop_getElem? {K : Type} [LinearOrderedField K] (env : Env K)
    (cfg : Config K) (opp : List (Vec3 K)) (cancel : Nat → Bool) (i : Nat) :
    ∀ (n a : Nat) (cloud res : List (CloudPoint K)),
      thicknessLoop env cfg opp cancel (List.range' a n) cloud = (res, false) →
      res[i]? = cloud[i]?.map
        (fun c => if a ≤ i ∧ i < a + n then thicknessPoint env cfg opp c else c)
  | 0, a, cloud, res, h => by
    simp only [List.range'_zero, thicknessLoop, Prod.mk.injEq, and_true] at h
    subst h
    have : ¬ (a ≤ i ∧ i < a) := by omega
    cases cloud[i]? with
    | none => rfl
    | some c => simp [this]
  | n + 1, a, cloud, res, h => by
    rw [List.range'_succ, thicknessLoop] at h
    cases hc : cancel a
    · rw [hc] at h
      simp only [Bool.false_eq_true, if_false] at h
      rw [thicknessLoop_getElem? env cfg opp cancel i n (a + 1) _ res h, thicknessAt_getElem?]
      cases cloud[i]? with
      | none => rfl
      | some c =>
        simp only [Option.map_some', Option.some.injEq]
        by_cases hia : i = a
        · subst hia
          have h1 : ¬ (i + 1 ≤ i ∧ i < i + 1 + n) := by omega
          have h2 : i ≤ i ∧ i < i + (n + 1) := by omega
          simp [h1, h2]
        · by_cases hr : a + 1 ≤ i ∧ i < a + 1 + n
          · have h2 : a ≤ i ∧ i < a + (n + 1) := by omega
            simp [hia, hr, h2]
          · have h2 : ¬ (a ≤ i ∧ i < a + (n + 1)) := by omega
            simp [hia, hr, h2]
    · rw [hc] at h
      simp at h

/-- A completed thickness pass over a surface has replaced every point by what its step
makes of it. -/
theorem thicknessSurface_getElem? {K : Type} [LinearOrderedField K] (env : Env K)
    (cfg : Config K) (opp : List (Vec3 K)) (cancel : Nat → Bool)
    (cloud res : List (CloudPoint K))
    (h : thicknessSurface env cfg opp cancel cloud = (res, false)) (i : Nat) :
    res[i]? = cloud[i]?.map (thicknessPoint env cfg opp) := by
  unfold thicknessSurface at h
  rw [List.range_eq_range'] at h
  rw [thicknessLoop_getElem? env cfg opp cancel i _ 0 cloud res h]
  cases hc : cloud[i]? with
  | none => rfl
  | some c =>
    have hi : i < cloud.length := (List.getElem?_eq_some_iff.1 hc).1
    simp only [Option.map_some', Option.some.injEq]
    rw [if_pos (by omega)]

/-- A thickness loop whose polls all answer no is not cancelled. -/
theorem thicknessLoop_completes {K : Type} [LinearOrderedField K] (env : Env K)
    (cfg : Config K) (opp : List (Vec3 K)) (cancel : Nat → Bool) :
    ∀ (ps : List Nat) (cloud : List (CloudPoint K)), (∀ p ∈ ps, cancel p = false) →
      (thicknessLoop env cfg opp cancel ps cloud).2 = false
  | [], _, _ => rfl
  | p :: ps, cloud, h => by
    rw [thicknessLoop, h p (List.mem_cons_self _ _)]
    simp only [Bool.false_eq_true, if_false]
    exact thicknessLoop_completes env cfg opp cancel ps _
      (fun q hq => h q (List.mem_cons_of_mem _ hq))

theorem computePoint2PlaneDistance_eq {K : Type} [LinearOrderedField K] (q : Vec3 K)
    (c : CloudPoint K) :
    computePoint2PlaneDistance q c.nrm.x c.nrm.y c.nrm.z (c.pos.dot c.nrm) =
      c.nrm.dot (q.sub c.pos) := by
  simp only [computePoint2PlaneDistance, Vec3.dot, Vec3.sub]
  ring

theorem thicknessPoint_far {K : Type} [LinearOrderedField K] (env : Env K) (cfg : Config K)
    (opp : List (Vec3 K)) (c : CloudPoint K)
    (h : cfg.tcDistance < (env.neighbour opp c.pos).2) :
    thicknessPoint env cfg opp c = { c with thickness := some 1 } := by
  unfold thicknessPoint
  simp only [h, if_true]

theorem thicknessPoint_near {K : Type} [LinearOrderedField K] (env : Env K) (cfg : Config K)
    (opp : List (Vec3 K)) (c : CloudPoint K)
    (h : ¬ cfg.tcDistance < (env.neighbour opp c.pos).2) :
    thicknessPoint env cfg opp c =
      { c with
        thickness := some |c.nrm.dot ((env.neighbour opp c.pos).1.sub c.pos)|,
        nrm := c.nrm.smul (c.nrm.dot ((env.neighbour opp c.pos).1.sub c.pos) /
          |c.nrm.dot ((env.neighbour opp c.pos).1.sub c.pos)|) } := by
  unfold thicknessPoint
  simp only [h, if_false, computePoint2PlaneDistance_eq]

theorem Vec3.smul_one {K : Type} [LinearOrderedField K] (v : Vec3 K) : v.smul 1 = v := by
  cases v
  simp [Vec3.smul]

theorem Vec3.smul_neg_one {K : Type} [LinearOrderedField K] (v : Vec3 K) :
    v.smul (-1) = v.neg := by
  cases v
  simp [Vec3.smul, Vec3.neg]

theorem Vec3.neg_dot {K : Type} [LinearOrderedField K] (v w : Vec3 K) :
    v.neg.dot w = -(v.dot w) := by
  simp only [Vec3.dot, Vec3.neg]
  ring

theorem thicknessPoint_pos {K : Type} [LinearOrderedField K] (env : Env K) (cfg : Config K)
    (opp : List (Vec3 K)) (c : CloudPoint K) : (thicknessPoint env cfg opp c).pos = c.pos := by
  by_cases h : cfg.tcDistance < (env.neighbour opp c.pos).2
  · rw [thicknessPoint_far env cfg opp c h]
  · rw [thicknessPoint_near env cfg opp c h]

/-- A completed thickness pass over a surface is the pointwise image of the cloud. -/
theorem thicknessSurface_eq_map {K : Type} [LinearOrderedField K] (env : Env K)
    (cfg : Config K) (opp : List (Vec3 K)) (cancel : Nat → Bool)
    (cloud : List (CloudPoint K))
    (h : (thicknessSurface env cfg opp cancel cloud).2 = false) :
    (thicknessSurface env cfg opp cancel cloud).1 = cloud.map (thicknessPoint env cfg opp) := by
  apply List.ext_getElem?
  intro i
  rw [thicknessSurface_getElem? env cfg opp cancel cloud _ (Prod.ext rfl h) i,
    List.getElem?_map]

theorem sqDist_comm {K : Type} [LinearOrderedField K] (a b : Vec3 K) :
    sqDist a b = sqDist b a := by
  simp only [sqDist, Vec3.dot, Vec3.sub]
  ring

/-- The thickness pass of two stored surfaces, when it completes, has replaced every point
of each surface by what its step makes of it against the points of the other surface. -/
theorem thicknessPass_completed {K : Type} [LinearOrderedField K] (env : Env K)
    (cfg : Config K) (cancel : Nat → Nat → Bool) (c0 c1 : List (CloudPoint K))
    (hcalc : cfg.calcThickness = true) (h0 : 0 < c0.length) (h1 : 0 < c1.length)
    (hdone : (thicknessPass env cfg cancel (Slot.stored c0) (Slot.stored c1)).status =
      Status.completed) :
    (thicknessPass env cfg cancel (Slot.stored c0) (Slot.stored c1)).lower =
        some (c0.map (thicknessPoint env cfg (c1.map CloudPoint.pos))) ∧
      (thicknessPass env cfg cancel (Slot.stored c0) (Slot.stored c1)).upper =
        some (c1.map (thicknessPoint env cfg (c0.map CloudPoint.pos))) := by
  have hg : (cfg.calcThickness = true ∧ 0 < c0.length ∧ 0 < c1.length) := ⟨hcalc, h0, h1⟩
  unfold thicknessPass at hdone ⊢
  simp only [hg, and_self, if_true] at hdone ⊢
  cases hr0 : (thicknessSurface env cfg (c1.map CloudPoint.pos) (cancel 0) c0).2
  · rw [hr0] at hdone
    simp only [Bool.false_eq_true, if_false] at hdone ⊢
    have e0 := thicknessSurface_eq_map env cfg (c1.map CloudPoint.pos) (cancel 0) c0 hr0
    have hpos : (thicknessSurface env cfg (c1.map CloudPoint.pos) (cancel 0) c0).1.map
        CloudPoint.pos = c0.map CloudPoint.pos := by
      rw [e0, List.map_map]
      apply List.map_congr_left
      intro c _
      exact thicknessPoint_pos env cfg _ c
    cases hr1 : (thicknessSurface env cfg
        ((thicknessSurface env cfg (c1.map CloudPoint.pos) (cancel 0) c0).1.map CloudPoint.pos)
        (cancel 1) c1).2
    · have e1 := thicknessSurface_eq_map env cfg _ (cancel 1) c1 hr1
      rw [e1, hpos, e0]
      exact ⟨rfl, rfl⟩
    · rw [hr1] at hdone
      simp at hdone
  · rw [hr0] at hdone
    simp at hdone

/-! ### Properties of the run -/

/-- A sweep one of whose polls answers yes returns at once. -/
theorem outerLoop_none {K : Type} [LinearOrder K] (M minsize maxsize : Nat)
    (brk : Nat → Bool) (score : Nat → Nat → K) (nrm : Nat → Nat → Vec3 K)
    (cancel : Nat → Bool) :
    ∀ (los : List Nat) (st : SweepState K), (∃ lo ∈ los, cancel lo = true) →
      outerLoop M minsize maxsize brk score nrm cancel los st = none
  | [], _, h => by simp at h
  | lo :: los, st, h => by
    unfold outerLoop
    cases hc : cancel lo
    · simp only [Bool.false_eq_true, if_false]
      refine outerLoop_none M minsize maxsize brk score nrm cancel los _ ?_
      obtain ⟨l, hl, hcl⟩ := h
      rcases List.mem_cons.1 hl with rfl | hl
      · rw [hc] at hcl
        exact Bool.noConfusion hcl
      · exact ⟨l, hl, hcl⟩
    · simp

theorem sortAlongAxis_length {K : Type} [LinearOrderedRing K] (axis : Vec3 K)
    (pts : List (Sample K)) (iid : Option Nat) (st : SortState K)
    (h : sortAlongAxis axis pts iid = some st) : st.series.length = pts.length + 1 := by
  have hne : pts ≠ [] := by
    intro h0
    rw [h0] at h
    simp [sortAlongAxis] at h
  obtain ⟨st', hst', inv⟩ := sortAlongAxis_inv axis pts iid hne
  rw [h] at hst'
  simp only [Option.some.injEq] at hst'
  subst hst'
  have := inv.perm.length_eq
  simpa using this

/-- A region whose sweep observes a cancellation ends as `cancelled`: nothing is stored. -/
theorem processRegion_cancelled {K : Type} [LinearOrderedField K] (env : Env K)
    (cfg : Config K) (carry : Carry) (pts : List (Sample K)) (pinch : List (Vec3 K))
    (cancel : Nat → Bool) (axis : Vec3 K) (hN : cfg.minsize ≤ pts.length)
    (hne : pts ≠ []) (hax : env.longAxis pts = some axis)
    (hc : ∃ lo, lo < pts.length + 1 - cfg.minsize ∧ cancel lo = true) :
    (processRegion env cfg carry pts pinch cancel).1 = RegionOutcome.cancelled := by
  obtain ⟨sorted, hsort, _⟩ := sortAlongAxis_inv axis pts carry.iid hne
  have hlen := sortAlongAxis_length axis pts carry.iid sorted hsort
  obtain ⟨lo, hlo, hcl⟩ := hc
  have hsweep : ∀ (brk : Nat → Bool) (score : Nat → Nat → K) (nrm : Nat → Nat → Vec3 K),
      sweep sorted.series.length cfg.minsize cfg.maxsize brk score nrm cancel = none := by
    intro brk score nrm
    unfold sweep
    refine outerLoop_none _ _ _ _ _ _ _ _ _ ⟨lo, ?_, hcl⟩
    unfold outerRange
    rw [List.mem_range, hlen]
    exact hlo
  unfold processRegion
  rw [if_neg (not_lt.2 hN)]
  simp only [hax, hsort, hsweep]

theorem regionStep_cancelled {K : Type} [LinearOrderedField K] (env : Env K)
    (cfg : Config K) (carry : Carry) (pts : List (Sample K)) (pinch : List (Vec3 K))
    (cancel : Nat → Bool) (axis : Vec3 K) (hN : cfg.minsize ≤ pts.length)
    (hne : pts ≠ []) (hax : env.longAxis pts = some axis)
    (hc : ∃ lo, lo < pts.length + 1 - cfg.minsize ∧ cancel lo = true) :
    (regionStep env cfg carry (some pts) pinch cancel).1 = Sum.inr Status.cancelled := by
  have h := processRegion_cancelled env cfg carry pts pinch cancel axis hN hne hax hc
  simp only [regionStep, h, RegionOutcome.toSlot, RegionOutcome.stopStatus]

/-- Once the loop over the datasets has been left, no later dataset changes the state. -/
theorem foldl_runStep_halted {K : Type} [LinearOrderedField K] (env : Env K) (cfg : Config K)
    (cancel : Cancel) :
    ∀ (l : List (Dataset K)) (st : RunState K), st.halted = true →
      l.foldl (runStep env cfg cancel) st = st
  | [], _, _ => rfl
  | ds :: l, st, h => by
    have : runStep env cfg cancel st ds = st := by
      unfold runStep
      rw [if_pos h]
    rw [List.foldl_cons, this]
    exact foldl_runStep_halted env cfg cancel l st h

theorem runStep_stop {K : Type} [LinearOrderedField K] (env : Env K) (cfg : Config K)
    (cancel : Cancel) (st : RunState K) (ds : Dataset K) (hrun : st.halted = false)
    (hds : cancel.dataset st.outs.length = false)
    (hstop : (processDataset env cfg cancel st.outs.length st.carry ds).1.status ≠
      Status.completed) :
    runStep env cfg cancel st ds =
      { outs := st.outs ++ [(processDataset env cfg cancel st.outs.length st.carry ds).1],
        carry := (processDataset env cfg cancel st.outs.length st.carry ds).2,
        halted := true } := by
  unfold runStep
  rw [hrun, hds]
  simp only [Bool.false_eq_true, if_false, hstop, ne_eq, not_false_eq_true, decide_True]

/-- When the processing of a dataset does not complete, the outputs of the run are those
of the datasets before it followed by what that dataset had added. -/
theorem run_stops_at {K : Type} [LinearOrderedField K] (env : Env K) (cfg : Config K)
    (cancel : Cancel) (pre post : List (Dataset K)) (ds : Dataset K)
    (hcfg : ¬ cfg.maxsize < cfg.minsize)
    (hrun : (pre.foldl (runStep env cfg cancel) RunState.init).halted = false)
    (hds : cancel.dataset (pre.foldl (runStep env cfg cancel) RunState.init).outs.length = false)
    (hstop : (processDataset env cfg cancel
      (pre.foldl (runStep env cfg cancel) RunState.init).outs.length
      (pre.foldl (runStep env cfg cancel) RunState.init).carry ds).1.status ≠
        Status.completed) :
    estimateStructureNormals env cfg cancel (pre ++ ds :: post) =
      some ((pre.foldl (runStep env cfg cancel) RunState.init).outs ++
        [(processDataset env cfg cancel
          (pre.foldl (runStep env cfg cancel) RunState.init).outs.length
          (pre.foldl (runStep env cfg cancel) RunState.init).carry ds).1]) := by
  unfold estimateStructureNormals
  rw [if_neg hcfg, List.foldl_append, List.foldl_cons,
    runStep_stop env cfg cancel _ ds hrun hds hstop,
    foldl_runStep_halted env cfg cancel post _ rfl]

/-- A dataset whose lower region observes a cancellation during its sweep has added
nothing. -/
theorem processDataset_lower_cancelled {K : Type} [LinearOrderedField K] (env : Env K)
    (cfg : Config K) (cancel : Cancel) (d : Nat) (carry : Carry) (ds : Dataset K)
    (pts : List (Sample K)) (axis : Vec3 K) (hlow : ds.lower = some pts)
    (hN : cfg.minsize ≤ pts.length) (hne : pts ≠ []) (hax : env.longAxis pts = some axis)
    (hc : ∃ lo, lo < pts.length + 1 - cfg.minsize ∧ cancel.sweep d 0 lo = true) :
    (processDataset env cfg cancel d carry ds).1 =
      { lower := none, upper := none, status := Status.cancelled } := by
  have h := regionStep_cancelled env cfg carry pts ds.pinch (cancel.sweep d 0) axis hN hne
    hax hc
  unfold processDataset
  rw [hlow]
  rcases hr : regionStep env cfg carry (some pts) ds.pinch (cancel.sweep d 0) with ⟨r, c⟩
  rw [hr] at h
  simp only at h
  subst h
  rfl

/-- A dataset whose upper region observes a cancellation during its sweep has added the
cloud of its lower region, as the lower region left it, and nothing else. -/
theorem processDataset_upper_cancelled {K : Type} [LinearOrderedField K] (env : Env K)
    (cfg : Config K) (cancel : Cancel) (d : Nat) (carry carry0 : Carry) (ds : Dataset K)
    (s0 : Slot K) (pts : List (Sample K)) (axis : Vec3 K)
    (hlow : regionStep env cfg carry ds.lower ds.pinch (cancel.sweep d 0) = (Sum.inl s0, carry0))
    (hup : ds.upper = some pts)
    (hN : cfg.minsize ≤ pts.length) (hne : pts ≠ []) (hax : env.longAxis pts = some axis)
    (hc : ∃ lo, lo < pts.length + 1 - cfg.minsize ∧ cancel.sweep d 1 lo = true) :
    (processDataset env cfg cancel d carry ds).1 =
      { lower := s0.published, upper := none, status := Status.cancelled } := by
  have h := regionStep_cancelled env cfg carry0 pts ds.pinch (cancel.sweep d 1) axis hN hne
    hax hc
  unfold processDataset
  rw [hlow, hup]
  simp only
  rcases hr : regionStep env cfg carry0 (some pts) ds.pinch (cancel.sweep d 1) with ⟨r, c⟩
  rw [hr] at h
  simp only at h
  subst h
  rfl

/-! ## The properties of the specification -/

/-- C1, as stated, fails. A series of 13 positions without Breaks (a trace of twelve points,
whose point 0 the sort enters twice) is swept with `minsize = 5` and `maxsize = 9`. The range
`[8, 13)` is a valid window for the last position 12, and `[0, 9)`, of length `maxsize`, is one
for position 0, but the sweep scores neither. Whatever scores the windows get, the sweep
completes and leaves the Estimate of position 12 as it was created, with `bestPd = 0`: no
scored window contains that position. So as soon as the window `[8, 13)` has a positive score,
the stored `bestPd` of position 12 is not the maximum over the valid windows containing it. -/
theorem sweep_bestPd_not_max_over_valid_windows :
    ValidWindow 13 5 9 (fun _ => false) 12 8 13 ∧
    ¬ Evaluated 13 5 9 (fun _ => false) 8 13 ∧
    ValidWindow 13 5 9 (fun _ => false) 0 0 9 ∧
    ¬ Evaluated 13 5 9 (fun _ => false) 0 9 ∧
    ∀ (score : Nat → Nat → ℝ) (nrm : Nat → Nat → Vec3 ℝ), 0 < score 8 13 →
      ∃ st, sweep 13 5 9 (fun _ => false) score nrm (fun _ => false) = some st ∧
        st.est[12]? = some Estimate.init ∧
        (Estimate.init : Estimate ℝ).bestPd = 0 ∧
        ¬ IsMaxOverValid 13 5 9 (fun _ => false) score 12 (Estimate.init : Estimate ℝ).bestPd := by
  have hev : ∀ lo hi, Evaluated 13 5 9 (fun _ => false) lo hi → hi - lo < 9 ∧ hi < 13 := by
    intro lo hi h
    have := (evaluated_iff 13 5 9 (fun _ => false) lo hi (by norm_num) (by norm_num)).1 h
    omega
  have hv1 : ValidWindow 13 5 9 (fun _ => false) 12 8 13 :=
    ⟨by decide, by decide, by decide, by decide, by decide, fun _ _ _ => rfl⟩
  refine ⟨hv1, fun h => absurd (hev 8 13 h).2 (by decide),
    ⟨by decide, by decide, by decide, by decide, by decide, fun _ _ _ => rfl⟩,
    fun h => absurd (hev 0 9 h).1 (by decide), fun score nrm hpos => ?_⟩
  obtain ⟨st, hst⟩ : ∃ st, sweep 13 5 9 (fun _ => false) score nrm (fun _ => false) = some st :=
    outerLoop_some _ _ _ _ _ _ _ _ _ (fun _ _ => rfl)
  obtain ⟨hlen, hbest⟩ := sweep_best _ _ _ _ _ _ _ st hst
  obtain ⟨e, he⟩ : ∃ e, st.est[12]? = some e :=
    ⟨st.est[12], List.getElem?_eq_getElem (by omega)⟩
  have hinit : e = Estimate.init := by
    rcases (hbest 12 e he).attained with h | ⟨lo, hi, hs, _, h2, _, _⟩
    · exact h
    · have := hev lo hi hs
      omega
  subst hinit
  refine ⟨st, hst, he, rfl, fun hmax => ?_⟩
  have h := hmax.1 8 13 hv1
  have h0 : (Estimate.init : Estimate ℝ).bestPd = 0 := rfl
  rw [h0] at h
  exact absurd hpos (not_lt.2 h)

/-- C1 (amended). After a completed sweep of a series of `M < 2^31` positions with
`minsize ≤ M` (which line 1501 ensures) and `maxsize < 2^31`, the Estimate stored at every
position `p` has a score that is not negative and at least the score of
every window `[lo, hi)` containing `p` that has no flagged position, a length from `minsize`
to `maxsize - 1` and ends before the last position (`hi < M`), hence, when
`p + maxsize ≤ M`, of every such window with `hi ≤ M`; and the Estimate is either untouched, or
its score, normal, `start` and `end` are those of one window containing `p` with no flagged
position, `hi ≤ M`, a length from `minsize` to `maxsize - 1` and a positive score. -/
theorem sweep_bestPd_max_over_scored_windows {K : Type} [LinearOrder K] [Zero K]
    (M minsize maxsize : Nat) (brk : Nat → Bool) (score : Nat → Nat → K)
    (nrm : Nat → Nat → Vec3 K) (cancel : Nat → Bool) (st : SweepState K)
    (hM : M < 2 ^ 31) (hmax : maxsize < 2 ^ 31) (_hmin : minsize ≤ M)
    (hrun : sweep M minsize maxsize brk score nrm cancel = some st) (p : Nat) (hp : p < M) :
    ∃ e, st.est[p]? = some e ∧ 0 ≤ e.bestPd ∧
      (∀ lo hi, lo ≤ p → p < hi → hi < M → minsize ≤ hi - lo → hi - lo < maxsize →
        (∀ q, lo ≤ q → q < hi → brk q = false) → score lo hi ≤ e.bestPd) ∧
      (p + maxsize ≤ M →
        ∀ lo hi, lo ≤ p → p < hi → hi ≤ M → minsize ≤ hi - lo → hi - lo < maxsize →
          (∀ q, lo ≤ q → q < hi → brk q = false) → score lo hi ≤ e.bestPd) ∧
      (e = Estimate.init ∨
        ∃ lo hi, lo ≤ p ∧ p < hi ∧ hi ≤ M ∧ minsize ≤ hi - lo ∧ hi - lo < maxsize ∧
          (∀ q, lo ≤ q → q < hi → brk q = false) ∧ 0 < score lo hi ∧
          e.bestPd = score lo hi ∧ e.sne = nrm lo hi ∧ e.start = (lo : Int) ∧
          e.end_ = (hi : Int)) := by
  obtain ⟨hlen, hbest⟩ := sweep_best M minsize maxsize brk score nrm cancel st hrun
  have hpl : p < st.est.length := by rw [hlen]; exact hp
  refine ⟨st.est[p], List.getElem?_eq_getElem hpl, ?_⟩
  have hb := hbest p st.est[p] (List.getElem?_eq_getElem hpl)
  have hge : ∀ lo hi, lo ≤ p → p < hi → hi < M → minsize ≤ hi - lo → hi - lo < maxsize →
      (∀ q, lo ≤ q → q < hi → brk q = false) → score lo hi ≤ (st.est[p]).bestPd := by
    intro lo hi h1 h2 h3 h4 h5 h6
    exact hb.ge lo hi ((evaluated_iff M minsize maxsize brk lo hi hM hmax).2
      ⟨by omega, by omega, h3, by omega, h6⟩) h1 h2
  refine ⟨hb.nonneg, hge, ?_, ?_⟩
  · intro hpm lo hi h1 h2 _ h4 h5 h6
    exact hge lo hi h1 h2 (by omega) h4 h5 h6
  · rcases hb.attained with h | ⟨lo, hi, hs, h1, h2, h3, h4⟩
    · exact Or.inl h
    · have hev := (evaluated_iff M minsize maxsize brk lo hi hM hmax).1 hs
      refine Or.inr ⟨lo, hi, h1, h2, by omega, by omega, by omega, hev.2.2.2.2, h3, ?_⟩
      rw [h4]
      exact ⟨rfl, rfl, toInt32_of_lt (by omega), toInt32_of_lt (by omega)⟩

/-- C1 (amended), at the series of 13 positions swept with `minsize = 5` and
`maxsize = 9`, position 3. -/
theorem sweep_bestPd_max_over_scored_windows_witness :
    ∃ st, sweep (K := ℤ) 13 5 9 (fun _ => false)
        (fun lo hi => if hi - lo = 9 then 10 else 1) (fun _ _ => ⟨0, 0, 1⟩)
        (fun _ => false) = some st ∧
      ∃ e, st.est[3]? = some e ∧ 0 ≤ e.bestPd ∧
      (∀ lo hi, lo ≤ 3 → 3 < hi → hi < 13 → 5 ≤ hi - lo → hi - lo < 9 →
        (∀ q, lo ≤ q → q < hi → (fun _ : Nat => false) q = false) →
        (fun lo hi : Nat => if hi - lo = 9 then (10 : ℤ) else 1) lo hi ≤ e.bestPd) ∧
      (3 + 9 ≤ 13 →
        ∀ lo hi, lo ≤ 3 → 3 < hi → hi ≤ 13 → 5 ≤ hi - lo → hi - lo < 9 →
          (∀ q, lo ≤ q → q < hi → (fun _ : Nat => false) q = false) →
          (fun lo hi : Nat => if hi - lo = 9 then (10 : ℤ) else 1) lo hi ≤ e.bestPd) ∧
      (e = Estimate.init ∨
        ∃ lo hi, lo ≤ 3 ∧ 3 < hi ∧ hi ≤ 13 ∧ 5 ≤ hi - lo ∧ hi - lo < 9 ∧
          (∀ q, lo ≤ q → q < hi → (fun _ : Nat => false) q = false) ∧
          0 < (fun lo hi : Nat => if hi - lo = 9 then (10 : ℤ) else 1) lo hi ∧
          e.bestPd = (fun lo hi : Nat => if hi - lo = 9 then (10 : ℤ) else 1) lo hi ∧
          e.sne = (fun _ _ : Nat => (⟨0, 0, 1⟩ : Vec3 ℤ)) lo hi ∧ e.start = (lo : Int) ∧
          e.end_ = (hi : Int)) := by
  obtain ⟨st, hst⟩ : ∃ st, sweep (K := ℤ) 13 5 9 (fun _ => false)
      (fun lo hi => if hi - lo = 9 then 10 else 1) (fun _ _ => ⟨0, 0, 1⟩)
      (fun _ => false) = some st :=
    outerLoop_some _ _ _ _ _ _ _ _ _ (fun _ _ => rfl)
  exact ⟨st, hst, sweep_bestPd_max_over_scored_windows 13 5 9 (fun _ => false)
    (fun lo hi => if hi - lo = 9 then 10 else 1) (fun _ _ => ⟨0, 0, 1⟩) (fun _ => false) st
    (by norm_num) (by norm_num) (by norm_num) hst 3 (by norm_num)⟩

/-- At every step of the sweep, the recorded window of every position has no flagged
position. -/
theorem sweepAt_windowClean {K : Type} [LinearOrder K] [Zero K] (M minsize maxsize : Nat)
    (brk : Nat → Bool) (score : Nat → Nat → K) (nrm : Nat → Nat → Vec3 K)
    (cancel : Nat → Bool) (k j i : Nat) (est : List (Estimate K))
    (h : sweepAt M minsize maxsize brk score nrm cancel k j i = some est) :
    ∀ e ∈ est, WindowClean brk e := by
  have hnew : ∀ lo hi, hi ∈ innerRange M minsize maxsize lo → broken brk lo hi = false →
      lo < hi → WindowClean brk (Estimate.ofWindow M lo hi (score lo hi) (nrm lo hi)) := by
    intro lo hi hm hb hlt
    exact windowClean_ofWindow brk M lo hi _ _ hlt
      (lt_trans (mem_innerRange hm).2.1 (u32_lt M)) hb
  unfold sweepAt at h
  cases hrun : outerLoop M minsize maxsize brk score nrm cancel
      ((outerRange M minsize).take k) (SweepState.init M) with
  | none => rw [hrun] at h; simp at h
  | some st =>
    rw [hrun] at h
    simp only [Option.map_some', Option.some.injEq] at h
    have h0 : ∀ e ∈ (SweepState.init M : SweepState K).est, WindowClean brk e := by
      intro e he
      simp only [SweepState.init] at he
      rw [List.eq_of_mem_replicate he]
      exact windowClean_init brk
    have h1 := outerLoop_forall (WindowClean brk) M minsize maxsize brk score nrm cancel hnew
      _ _ st hrun h0
    have h2 := innerLoop_forall (WindowClean brk) M brk score nrm k
      ((innerRange M minsize maxsize k).take j) st
      (fun hi hm => hnew k hi (List.mem_of_mem_take hm)) h1
    cases hj : (innerRange M minsize maxsize k)[j]? with
    | none =>
      rw [hj] at h
      exact h ▸ h2
    | some hi =>
      rw [hj] at h
      simp only at h
      cases hb : broken brk k hi
      · rw [hb] at h
        simp only [Bool.false_eq_true, if_false] at h
        rw [← h]
        refine mapUpdate_forall (WindowClean brk) M k hi _ _ _ _ ?_ h2
        intro hne
        refine hnew k hi (List.getElem?_mem hj) hb ?_
        by_contra hlt
        exact hne (by simp [Nat.sub_eq_zero_of_le (Nat.le_of_not_lt hlt)])
      · rw [hb] at h
        simp only [if_true] at h
        exact h ▸ h2

/-- C2. At every step of the sweep (after `k` steps of the outer loop, `j` steps of the
inner loop and `i` steps of the update loop of the next window) and after it, for every
sorted position `p` whose Estimate has been set (`segmentID[p] ≠ -1`), the recorded window
`[start[p], end[p])` contains no sorted position `q` with `breaks[pid[q]]` true. In
particular, when position 100 of a series of 200 is a Break, no recorded window has
`start[p] ≤ 100 < end[p]`. -/
theorem recorded_window_spans_no_break {K : Type} [LinearOrder K] [Zero K]
    (M minsize maxsize : Nat) (pid : List Nat) (breaks : List Bool) (score : Nat → Nat → K)
    (nrm : Nat → Nat → Vec3 K) (cancel : Nat → Bool) :
    (∀ k j i est, sweepAt M minsize maxsize (breakAt pid breaks) score nrm cancel k j i =
        some est → ∀ (p : Nat) (e : Estimate K), est[p]? = some e →
        (e.segmentID ≠ -1 → ∀ q : Nat, e.start ≤ (q : Int) → (q : Int) < e.end_ →
          breakAt pid breaks q = false) ∧
        (M = 200 → breakAt pid breaks 100 = true → ¬ (e.start ≤ 100 ∧ 100 < e.end_))) ∧
    (∀ st, sweep M minsize maxsize (breakAt pid breaks) score nrm cancel = some st →
      ∀ (p : Nat) (e : Estimate K), st.est[p]? = some e →
        (e.segmentID ≠ -1 → ∀ q : Nat, e.start ≤ (q : Int) → (q : Int) < e.end_ →
          breakAt pid breaks q = false) ∧
        (M = 200 → breakAt pid breaks 100 = true → ¬ (e.start ≤ 100 ∧ 100 < e.end_))) := by
  have key : ∀ e : Estimate K, WindowClean (breakAt pid breaks) e →
      (e.segmentID ≠ -1 → ∀ q : Nat, e.start ≤ (q : Int) → (q : Int) < e.end_ →
          breakAt pid breaks q = false) ∧
        (M = 200 → breakAt pid breaks 100 = true → ¬ (e.start ≤ 100 ∧ 100 < e.end_)) := by
    intro e hc
    refine ⟨fun _ => hc, fun _ hb hse => ?_⟩
    have := hc 100 (by exact_mod_cast hse.1) (by exact_mod_cast hse.2)
    rw [hb] at this
    exact Bool.noConfusion this
  constructor
  · intro k j i est h p e he
    exact key e (sweepAt_windowClean M minsize maxsize _ score nrm cancel k j i est h e
      (List.getElem?_mem he))
  · intro st h p e he
    have hfin : sweepAt M minsize maxsize (breakAt pid breaks) score nrm cancel
        (M - minsize) 0 0 = some st.est := by
      unfold sweepAt
      have htake : (outerRange M minsize).take (M - minsize) = outerRange M minsize := by
        unfold outerRange
        exact List.take_of_length_le (by simp)
      unfold sweep at h
      rw [htake, h]
      simp only [Option.map_some', List.take_zero, innerLoop, mapUpdate]
      split
      · split <;> rfl
      · rfl
    exact key e (sweepAt_windowClean M minsize maxsize _ score nrm cancel _ _ _ st.est hfin e
      (List.getElem?_mem he))

/-- C2, at two series. First a series of 6 positions whose position 3 is a Break
(`pid[3] = 2` and `breaks[2]` is true), swept with `minsize = 2` and `maxsize = 4`, the score
of a window being its length: the windows `[0, 2)` and `[0, 3)` are recorded, no window
reaches position 3. Then the series of 200 positions of the scenario, whose position 100 is
a Break (`pid[100] = 99` and `breaks[99]` is true), swept with `minsize = 20` and
`maxsize = 50`: the sweep completes and no recorded window has `start ≤ 100 < end`. -/
theorem recorded_window_spans_no_break_witness :
    ((sweep (K := ℤ) 6 2 4
        (breakAt [0, 0, 1, 2, 3, 4] [false, false, true, false, false, false, false])
        (fun lo hi => ((hi - lo : Nat) : ℤ)) (fun _ _ => ⟨0, 0, 1⟩) (fun _ => false)).map
      (fun s => s.est.map (fun e => (e.bestPd, e.start, e.end_, e.segmentID))) =
      some [(3, 0, 3, 18), (3, 0, 3, 18), (3, 0, 3, 18), (0, 0, 0, -1), (0, 0, 0, -1),
        (0, 0, 0, -1)] ∧
    ∀ st, sweep (K := ℤ) 6 2 4
        (breakAt [0, 0, 1, 2, 3, 4] [false, false, true, false, false, false, false])
        (fun lo hi => ((hi - lo : Nat) : ℤ)) (fun _ _ => ⟨0, 0, 1⟩) (fun _ => false) = some st →
      ∀ (p : Nat) (e : Estimate ℤ), st.est[p]? = some e → e.segmentID ≠ -1 →
        ∀ q : Nat, e.start ≤ (q : Int) → (q : Int) < e.end_ →
          breakAt [0, 0, 1, 2, 3, 4] [false, false, true, false, false, false, false] q =
            false) ∧
    (∃ st, sweep (K := ℤ) 200 20 50
        (breakAt (0 :: List.range 199) ((List.replicate 200 false).set 99 true))
        (fun lo hi => ((hi - lo : Nat) : ℤ)) (fun _ _ => ⟨0, 0, 1⟩) (fun _ => false) = some st ∧
      ∀ (p : Nat) (e : Estimate ℤ), st.est[p]? = some e →
        ¬ (e.start ≤ 100 ∧ 100 < e.end_)) := by
  refine ⟨⟨by decide, fun st h p e he => ((recorded_window_spans_no_break 6 2 4
    [0, 0, 1, 2, 3, 4] [false, false, true, false, false, false, false]
    (fun lo hi => ((hi - lo : Nat) : ℤ)) (fun _ _ => ⟨0, 0, 1⟩) (fun _ => false)).2 st h p e
    he).1⟩, ?_⟩
  have hbrk : breakAt (0 :: List.range 199) ((List.replicate 200 false).set 99 true) 100 =
      true := by
    unfold breakAt
    have h : (0 :: List.range 199)[100]? = some 99 := by
      rw [show (100 : Nat) = 99 + 1 from rfl, List.getElem?_cons_succ,
        List.getElem?_range (by norm_num)]
    rw [h]
    show ((List.replicate 200 false).set 99 true).getD 99 false = true
    rw [List.getD_eq_getElem?_getD,
      List.getElem?_set_self (by rw [List.length_replicate]; norm_num)]
    rfl
  obtain ⟨st, hst⟩ : ∃ st, sweep (K := ℤ) 200 20 50
      (breakAt (0 :: List.range 199) ((List.replicate 200 false).set 99 true))
      (fun lo hi => ((hi - lo : Nat) : ℤ)) (fun _ _ => ⟨0, 0, 1⟩) (fun _ => false) = some st :=
    outerLoop_some _ _ _ _ _ _ _ _ _ (fun _ _ => rfl)
  exact ⟨st, hst, fun p e he => ((recorded_window_spans_no_break 200 20 50
    (0 :: List.range 199) ((List.replicate 200 false).set 99 true)
    (fun lo hi => ((hi - lo : Nat) : ℤ)) (fun _ _ => ⟨0, 0, 1⟩) (fun _ => false)).2 st hst p e
    he).2 rfl hbrk⟩

/-- C3: the code at a region of 6 points. The points `(0,0,0), (1,1,0), (2,0,1), (3,1,0),
(4,0,0), (5,1,1)` are sorted along the axis `(1,0,0)`: the series has 7 entries, not 6, and
cloud index 0 is at two sorted positions, so `pid` is not a bijection between sorted
positions and cloud indices. -/
theorem sortAlongAxis_inserts_point_zero_twice :
    (sortAlongAxis (K := ℤ) ⟨1, 0, 0⟩
        [⟨⟨0, 0, 0⟩, ⟨0, 0, 1⟩⟩, ⟨⟨1, 1, 0⟩, ⟨0, 0, 1⟩⟩, ⟨⟨2, 0, 1⟩, ⟨0, 0, 1⟩⟩,
          ⟨⟨3, 1, 0⟩, ⟨0, 0, 1⟩⟩, ⟨⟨4, 0, 0⟩, ⟨0, 0, 1⟩⟩, ⟨⟨5, 1, 1⟩, ⟨0, 0, 1⟩⟩] none).map
      (fun st => st.series.map Entry.pid) = some [0, 0, 1, 2, 3, 4, 5] := by
  decide

/-- C4. For every non-empty cloud and every long axis the sort returns a series, whatever
`iid` held before (even nothing), and that series does not depend on it; its projections
`dist` are in non-decreasing order; each `dist[i]` is the dot product of cloud point
`pid[i]` with the long axis; and of two entries of equal projection the one inserted first
(smaller cloud index) comes first. -/
theorem sortAlongAxis_sorted_stable {K : Type} [LinearOrderedRing K] (axis : Vec3 K)
    (pts : List (Sample K)) (iid : Option Nat) (hne : pts ≠ []) :
    ∃ st, sortAlongAxis axis pts iid = some st ∧
      (∀ iid', (sortAlongAxis axis pts iid').map SortState.series = some st.series) ∧
      (∀ (i : Nat) (a b : Entry K), st.series[i]? = some a → st.series[i + 1]? = some b →
        a.dist ≤ b.dist) ∧
      (∀ (i : Nat) (a : Entry K), st.series[i]? = some a →
        ∃ s, pts[a.pid]? = some s ∧ a.dist = s.pos.dot axis) ∧
      (∀ (i j : Nat) (a b : Entry K), i < j → st.series[i]? = some a →
        st.series[j]? = some b → a.dist = b.dist → a.pid ≤ b.pid) := by
  obtain ⟨st, hst, inv⟩ := sortAlongAxis_inv axis pts iid hne
  have hpair : ∀ (i j : Nat) (a b : Entry K), i < j → st.series[i]? = some a →
      st.series[j]? = some b → EntryLE a b := by
    intro i j a b hij ha hb
    obtain ⟨hi, rfl⟩ := List.getElem?_eq_some_iff.1 ha
    obtain ⟨hj, rfl⟩ := List.getElem?_eq_some_iff.1 hb
    exact List.pairwise_iff_getElem.1 inv.sorted i j hi hj hij
  refine ⟨st, hst, ?_, ?_, ?_, ?_⟩
  · intro iid'
    rw [sortAlongAxis_indep axis pts iid' iid, hst]
    rfl
  · intro i a b ha hb
    rcases hpair i (i + 1) a b (Nat.lt_succ_self i) ha hb with h | h
    · exact le_of_lt h
    · exact le_of_eq h.1
  · intro i a ha
    obtain ⟨s, hs, he⟩ := inv.entry a (List.getElem?_mem ha)
    refine ⟨s, hs, ?_⟩
    rw [he]
    rfl
  · intro i j a b hij ha hb hab
    rcases hpair i j a b hij ha hb with h | h
    · exact absurd hab (ne_of_lt h)
    · exact h.2

/-- C4, at a cloud of four points whose projections on the axis `(1,0,0)` are
`3, 1, 3, 1`, sorted with `iid` uninitialised: the series is `pid = [1, 3, 0, 0, 2]`. -/
theorem sortAlongAxis_sorted_stable_witness :
    (sortAlongAxis (K := ℤ) ⟨1, 0, 0⟩
        [⟨⟨3, 0, 0⟩, ⟨0, 0, 1⟩⟩, ⟨⟨1, 5, 0⟩, ⟨0, 0, 1⟩⟩, ⟨⟨3, 7, 0⟩, ⟨0, 0, 1⟩⟩,
          ⟨⟨1, 0, 2⟩, ⟨0, 0, 1⟩⟩] none).map
      (fun st => st.series.map (fun e => (e.pid, e.dist))) =
      some [(1, 1), (3, 1), (0, 3), (0, 3), (2, 3)] ∧
    ∃ st, sortAlongAxis (K := ℤ) ⟨1, 0, 0⟩
        [⟨⟨3, 0, 0⟩, ⟨0, 0, 1⟩⟩, ⟨⟨1, 5, 0⟩, ⟨0, 0, 1⟩⟩, ⟨⟨3, 7, 0⟩, ⟨0, 0, 1⟩⟩,
          ⟨⟨1, 0, 2⟩, ⟨0, 0, 1⟩⟩] none = some st ∧
      (∀ iid', (sortAlongAxis (K := ℤ) ⟨1, 0, 0⟩
        [⟨⟨3, 0, 0⟩, ⟨0, 0, 1⟩⟩, ⟨⟨1, 5, 0⟩, ⟨0, 0, 1⟩⟩, ⟨⟨3, 7, 0⟩, ⟨0, 0, 1⟩⟩,
          ⟨⟨1, 0, 2⟩, ⟨0, 0, 1⟩⟩] iid').map SortState.series = some st.series) ∧
      (∀ (i : Nat) (a b : Entry ℤ), st.series[i]? = some a → st.series[i + 1]? = some b →
        a.dist ≤ b.dist) ∧
      (∀ (i : Nat) (a : Entry ℤ), st.series[i]? = some a →
        ∃ s, ([⟨⟨3, 0, 0⟩, ⟨0, 0, 1⟩⟩, ⟨⟨1, 5, 0⟩, ⟨0, 0, 1⟩⟩, ⟨⟨3, 7, 0⟩, ⟨0, 0, 1⟩⟩,
          ⟨⟨1, 0, 2⟩, ⟨0, 0, 1⟩⟩] : List (Sample ℤ))[a.pid]? = some s ∧
          a.dist = s.pos.dot ⟨1, 0, 0⟩) ∧
      (∀ (i j : Nat) (a b : Entry ℤ), i < j → st.series[i]? = some a →
        st.series[j]? = some b → a.dist = b.dist → a.pid ≤ b.pid) :=
  ⟨by decide, sortAlongAxis_sorted_stable (K := ℤ) ⟨1, 0, 0⟩
    [⟨⟨3, 0, 0⟩, ⟨0, 0, 1⟩⟩, ⟨⟨1, 5, 0⟩, ⟨0, 0, 1⟩⟩, ⟨⟨3, 7, 0⟩, ⟨0, 0, 1⟩⟩,
      ⟨⟨1, 0, 2⟩, ⟨0, 0, 1⟩⟩] none (by simp)⟩

/-- C5: the code at the region of 6 points `(0,0,0), (1,1,0), (2,0,1), (3,1,0), (4,0,0),
(5,1,1)` sorted along the axis `(1,0,0)`. The series is `pid = [0, 0, 1, 2, 3, 4, 5]`, the
write-back loop runs over the sorted positions `0 .. 5` only, and whatever the Estimates
are, cloud index 5 is left unwritten: it has no scalar values and keeps its sampled
normal. -/
theorem storeEstimates_leaves_last_point_unwritten :
    (sortAlongAxis (K := ℤ) ⟨1, 0, 0⟩
        [⟨⟨0, 0, 0⟩, ⟨0, 0, 1⟩⟩, ⟨⟨1, 1, 0⟩, ⟨0, 0, 1⟩⟩, ⟨⟨2, 0, 1⟩, ⟨0, 0, 1⟩⟩,
          ⟨⟨3, 1, 0⟩, ⟨0, 0, 1⟩⟩, ⟨⟨4, 0, 0⟩, ⟨0, 0, 1⟩⟩, ⟨⟨5, 1, 1⟩, ⟨0, 0, 1⟩⟩] none).map
      (fun st => st.series.map Entry.pid) = some [0, 0, 1, 2, 3, 4, 5] ∧
    ∀ (log : ℤ → ℤ) (est : List (Estimate ℤ)),
      (storeEstimates log [0, 0, 1, 2, 3, 4, 5] est
        (loadCloud [⟨⟨0, 0, 0⟩, ⟨0, 0, 1⟩⟩, ⟨⟨1, 1, 0⟩, ⟨0, 0, 1⟩⟩, ⟨⟨2, 0, 1⟩, ⟨0, 0, 1⟩⟩,
          ⟨⟨3, 1, 0⟩, ⟨0, 0, 1⟩⟩, ⟨⟨4, 0, 0⟩, ⟨0, 0, 1⟩⟩, ⟨⟨5, 1, 1⟩, ⟨0, 0, 1⟩⟩]))[5]? =
        some { pos := ⟨5, 1, 1⟩, nrm := ⟨0, 0, 1⟩, sf := none, thickness := none } := by
  refine ⟨by decide, fun log est => ?_⟩
  unfold storeEstimates
  rw [storeLoop_getElem?_ne]
  · rfl
  · intro p hp
    have hp' : p < 6 := by simpa [loadCloud] using hp
    interval_cases p <;> decide

/-- C6. In a completed thickness pass over a surface, every point whose neighbour query
reports a squared distance greater than `tcDistance` gets the thickness 1 and keeps its
normal; hence, when the reported distance is the squared distance to a point of the opposite
surface and every cross-surface squared distance exceeds `tcDistance`, every point gets the
thickness 1: the completed thickness pass of two such surfaces returns both clouds with the
thickness 1 at every point and nothing else changed. -/
theorem thickness_is_one_past_cutoff {K : Type} [LinearOrderedField K] (env : Env K)
    (cfg : Config K) (opp : List (Vec3 K)) (cancel : Nat → Bool)
    (cloud res : List (CloudPoint K))
    (h : thicknessSurface env cfg opp cancel cloud = (res, false)) :
    (∀ (p : Nat) (c : CloudPoint K), cloud[p]? = some c →
      cfg.tcDistance < (env.neighbour opp c.pos).2 →
      ∃ c', res[p]? = some c' ∧ c'.thickness = some 1 ∧ c'.nrm = c.nrm) ∧
    ((∀ c ∈ cloud, ∃ q ∈ opp, (env.neighbour opp c.pos).2 = sqDist c.pos q) →
      (∀ c ∈ cloud, ∀ q ∈ opp, cfg.tcDistance < sqDist c.pos q) →
      ∀ (p : Nat) (c : CloudPoint K), cloud[p]? = some c →
        ∃ c', res[p]? = some c' ∧ c'.thickness = some 1 ∧ c'.nrm = c.nrm) ∧
    (∀ (cancel2 : Nat → Nat → Bool) (c0 c1 : List (CloudPoint K)),
      cfg.calcThickness = true → 0 < c0.length → 0 < c1.length →
      (thicknessPass env cfg cancel2 (Slot.stored c0) (Slot.stored c1)).status =
        Status.completed →
      (∀ a ∈ c0, ∃ b ∈ c1,
        (env.neighbour (c1.map CloudPoint.pos) a.pos).2 = sqDist a.pos b.pos) →
      (∀ b ∈ c1, ∃ a ∈ c0,
        (env.neighbour (c0.map CloudPoint.pos) b.pos).2 = sqDist b.pos a.pos) →
      (∀ a ∈ c0, ∀ b ∈ c1, cfg.tcDistance < sqDist a.pos b.pos) →
      (thicknessPass env cfg cancel2 (Slot.stored c0) (Slot.stored c1)).lower =
          some (c0.map (fun c => { c with thickness := some 1 })) ∧
        (thicknessPass env cfg cancel2 (Slot.stored c0) (Slot.stored c1)).upper =
          some (c1.map (fun c => { c with thickness := some 1 }))) := by
  have key : ∀ (p : Nat) (c : CloudPoint K), cloud[p]? = some c →
      cfg.tcDistance < (env.neighbour opp c.pos).2 →
      ∃ c', res[p]? = some c' ∧ c'.thickness = some 1 ∧ c'.nrm = c.nrm := by
    intro p c hc hfar
    refine ⟨thicknessPoint env cfg opp c, ?_, ?_, ?_⟩
    · rw [thicknessSurface_getElem? env cfg opp cancel cloud res h p, hc]
      rfl
    · rw [thicknessPoint_far env cfg opp c hfar]
    · rw [thicknessPoint_far env cfg opp c hfar]
  refine ⟨key, fun hrep hall p c hc => key p c hc ?_, ?_⟩
  · obtain ⟨q, hq, hd⟩ := hrep c (List.getElem?_mem hc)
    rw [hd]
    exact hall c (List.getElem?_mem hc) q hq
  · intro cancel2 c0 c1 hcalc h0 h1 hdone hrep0 hrep1 hall
    obtain ⟨hl, hu⟩ := thicknessPass_completed env cfg cancel2 c0 c1 hcalc h0 h1 hdone
    rw [hl, hu]
    constructor
    · congr 1
      apply List.map_congr_left
      intro a ha
      obtain ⟨b, hb, hd⟩ := hrep0 a ha
      exact thicknessPoint_far env cfg _ a (hd ▸ hall a ha b hb)
    · congr 1
      apply List.map_congr_left
      intro b hb
      obtain ⟨a, ha, hd⟩ := hrep1 b hb
      refine thicknessPoint_far env cfg _ b ?_
      rw [hd, sqDist_comm]
      exact hall a ha b hb

/-- C6, at a surface of one point `(0,0,0)` facing the point `(0,0,10)`, the query
reporting the squared distance 100, with `tcDistance = 4`. -/
theorem thickness_is_one_past_cutoff_witness :
    ∃ c', (thicknessSurface (K := ℚ)
        { longAxis := fun _ => none, nearestIndex := fun _ _ => 0, pd := fun _ _ _ => 0,
          eig3 := fun _ => ⟨0, 0, 1⟩, log := fun x => x,
          neighbour := fun _ _ => (⟨0, 0, 10⟩, 100) }
        { minsize := 5, maxsize := 50, tcDistance := 4, calcThickness := true }
        [⟨0, 0, 10⟩] (fun _ => false)
        [{ pos := ⟨0, 0, 0⟩, nrm := ⟨0, 0, 1⟩, sf := none, thickness := none }]).1[0]? =
        some c' ∧ c'.thickness = some 1 ∧ c'.nrm = ⟨0, 0, 1⟩ :=
  (thickness_is_one_past_cutoff (K := ℚ)
    { longAxis := fun _ => none, nearestIndex := fun _ _ => 0, pd := fun _ _ _ => 0,
      eig3 := fun _ => ⟨0, 0, 1⟩, log := fun x => x,
      neighbour := fun _ _ => (⟨0, 0, 10⟩, 100) }
    { minsize := 5, maxsize := 50, tcDistance := 4, calcThickness := true }
    [⟨0, 0, 10⟩] (fun _ => false)
    [{ pos := ⟨0, 0, 0⟩, nrm := ⟨0, 0, 1⟩, sf := none, thickness := none }] _
    (Prod.ext rfl (thicknessLoop_completes _ _ _ _ _ _ (fun _ _ => rfl)))).1 0
    { pos := ⟨0, 0, 0⟩, nrm := ⟨0, 0, 1⟩, sf := none, thickness := none } rfl
    (by norm_num)

/-- C7, as stated, fails. Two surfaces of one point each lie in the parallel planes `z = 0`
and `z = 3`, which are 3 apart, within the cutoff 10 (`tcDistance = 100`, the squared
cutoff); both normals are the unit plane normal `(0,0,1)`. The points are `(0,0,0)` and
`(20,0,3)`: the query of either returns the only point of the opposite surface with the
squared distance 409, which exceeds `tcDistance`, so the completed thickness pass writes the
thickness 1 at both points (lines 1855-1859), not the separation 3 of the planes. -/
theorem thickness_is_sentinel_for_offset_points_of_near_planes :
    Vec3.dot (⟨0, 0, 1⟩ : Vec3 ℚ) ⟨0, 0, 1⟩ = 1 ∧
    Vec3.dot (⟨0, 0, 0⟩ : Vec3 ℚ) ⟨0, 0, 1⟩ = 0 ∧
    Vec3.dot (⟨20, 0, 3⟩ : Vec3 ℚ) ⟨0, 0, 1⟩ = 3 ∧
    |(3 : ℚ) - 0| ^ 2 ≤ 100 ∧
    sqDist (⟨0, 0, 0⟩ : Vec3 ℚ) ⟨20, 0, 3⟩ = 409 ∧
    thicknessPass (K := ℚ)
        { longAxis := fun _ => none, nearestIndex := fun _ _ => 0, pd := fun _ _ _ => 0,
          eig3 := fun _ => ⟨0, 0, 1⟩, log := fun x => x,
          neighbour := fun opp x => (opp.headD ⟨0, 0, 0⟩, sqDist x (opp.headD ⟨0, 0, 0⟩)) }
        { minsize := 5, maxsize := 50, tcDistance := 100, calcThickness := true }
        (fun _ _ => false)
        (Slot.stored [{ pos := ⟨0, 0, 0⟩, nrm := ⟨0, 0, 1⟩, sf := none, thickness := none }])
        (Slot.stored [{ pos := ⟨20, 0, 3⟩, nrm := ⟨0, 0, 1⟩, sf := none, thickness := none }]) =
      { lower := some [{ pos := ⟨0, 0, 0⟩, nrm := ⟨0, 0, 1⟩, sf := none, thickness := some 1 }],
        upper := some [{ pos := ⟨20, 0, 3⟩, nrm := ⟨0, 0, 1⟩, sf := none, thickness := some 1 }],
        status := Status.completed } ∧
    (1 : ℚ) ≠ |3 - 0| := by
  refine ⟨by norm_num [Vec3.dot], by norm_num [Vec3.dot], by norm_num [Vec3.dot], by norm_num,
    by norm_num [sqDist, Vec3.dot, Vec3.sub], ?_, by norm_num⟩
  norm_num [thicknessPass, thicknessSurface, thicknessLoop, thicknessAt, thicknessPoint,
    sqDist, Vec3.dot, Vec3.sub]

/-- C7, amended. In a completed thickness pass over a surface, every point `p` whose
neighbour query is within the cutoff (the squared distance it reports does not exceed
`tcDistance`) gets the thickness `|n.q - n.p|`, `n` being its normal and `q` the first
point returned from the opposite surface; consequently, when the surface lies in the plane
`x.u = a` and the opposite surface in the plane `x.u = b` for a unit vector `u` (two parallel
planes `|b - a|` apart), every normal is `u` or `-u` and every query returns a point of the
opposite surface within the cutoff, every point gets the thickness `|b - a|`: the completed
thickness pass of two such surfaces writes `|b - a|` at every point of both. -/
theorem thickness_is_plane_distance_within_cutoff {K : Type} [LinearOrderedField K]
    (env : Env K) (cfg : Config K) (opp : List (Vec3 K)) (cancel : Nat → Bool)
    (cloud res : List (CloudPoint K))
    (h : thicknessSurface env cfg opp cancel cloud = (res, false)) :
    (∀ (p : Nat) (c : CloudPoint K), cloud[p]? = some c →
      ¬ cfg.tcDistance < (env.neighbour opp c.pos).2 →
      ∃ c', res[p]? = some c' ∧
        c'.thickness = some |c.nrm.dot (env.neighbour opp c.pos).1 - c.nrm.dot c.pos|) ∧
    (∀ (u : Vec3 K) (a b : K), u.dot u = 1 →
      (∀ c ∈ cloud, c.pos.dot u = a ∧ (c.nrm = u ∨ c.nrm = u.neg)) →
      (∀ q ∈ opp, q.dot u = b) →
      (∀ c ∈ cloud, (env.neighbour opp c.pos).1 ∈ opp ∧
        ¬ cfg.tcDistance < (env.neighbour opp c.pos).2) →
      ∀ (p : Nat) (c : CloudPoint K), cloud[p]? = some c →
        ∃ c', res[p]? = some c' ∧ c'.thickness = some |b - a|) ∧
    (∀ (cancel2 : Nat → Nat → Bool) (c0 c1 : List (CloudPoint K)) (u : Vec3 K) (a b : K),
      cfg.calcThickness = true → 0 < c0.length → 0 < c1.length →
      (thicknessPass env cfg cancel2 (Slot.stored c0) (Slot.stored c1)).status =
        Status.completed →
      u.dot u = 1 →
      (∀ c ∈ c0, c.pos.dot u = a ∧ (c.nrm = u ∨ c.nrm = u.neg)) →
      (∀ c ∈ c1, c.pos.dot u = b ∧ (c.nrm = u ∨ c.nrm = u.neg)) →
      (∀ c ∈ c0, (env.neighbour (c1.map CloudPoint.pos) c.pos).1 ∈ c1.map CloudPoint.pos ∧
        ¬ cfg.tcDistance < (env.neighbour (c1.map CloudPoint.pos) c.pos).2) →
      (∀ c ∈ c1, (env.neighbour (c0.map CloudPoint.pos) c.pos).1 ∈ c0.map CloudPoint.pos ∧
        ¬ cfg.tcDistance < (env.neighbour (c0.map CloudPoint.pos) c.pos).2) →
      ∃ lower upper,
        (thicknessPass env cfg cancel2 (Slot.stored c0) (Slot.stored c1)).lower = some lower ∧
        (thicknessPass env cfg cancel2 (Slot.stored c0) (Slot.stored c1)).upper = some upper ∧
        lower.length = c0.length ∧ upper.length = c1.length ∧
        (∀ c ∈ lower, c.thickness = some |b - a|) ∧
        (∀ c ∈ upper, c.thickness = some |b - a|)) := by
  have plane : ∀ (opp' : List (Vec3 K)) (c : CloudPoint K) (u : Vec3 K) (a b : K),
      c.pos.dot u = a → (c.nrm = u ∨ c.nrm = u.neg) →
      (env.neighbour opp' c.pos).1.dot u = b →
      ¬ cfg.tcDistance < (env.neighbour opp' c.pos).2 →
      (thicknessPoint env cfg opp' c).thickness = some |b - a| := by
    intro opp' c u a b ha hn hb hnear
    rw [thicknessPoint_near env cfg opp' c hnear]
    simp only [Vec3.dot] at hb ha
    rcases hn with hn | hn
    · rw [hn]
      simp only [Vec3.dot, Vec3.sub]
      congr 2
      rw [← hb, ← ha]
      ring
    · rw [hn]
      simp only [Vec3.dot, Vec3.sub, Vec3.neg]
      rw [← abs_neg]
      congr 2
      rw [← hb, ← ha]
      ring
  have key : ∀ (p : Nat) (c : CloudPoint K), cloud[p]? = some c →
      ¬ cfg.tcDistance < (env.neighbour opp c.pos).2 →
      ∃ c', res[p]? = some c' ∧
        c'.thickness = some |c.nrm.dot (env.neighbour opp c.pos).1 - c.nrm.dot c.pos| := by
    intro p c hc hnear
    refine ⟨thicknessPoint env cfg opp c, ?_, ?_⟩
    · rw [thicknessSurface_getElem? env cfg opp cancel cloud res h p, hc]
      rfl
    · rw [thicknessPoint_near env cfg opp c hnear]
      simp only [Vec3.dot, Vec3.sub]
      congr 2
      ring
  refine ⟨key, fun u a b _ hcloud hopp hq p c hc => ?_, ?_⟩
  · have hmem := List.getElem?_mem hc
    refine ⟨thicknessPoint env cfg opp c, ?_, ?_⟩
    · rw [thicknessSurface_getElem? env cfg opp cancel cloud res h p, hc]
      rfl
    · exact plane opp c u a b (hcloud c hmem).1 (hcloud c hmem).2 (hopp _ (hq c hmem).1)
        (hq c hmem).2
  · intro cancel2 c0 c1 u a b hcalc h0 h1 hdone _ hc0 hc1 hq0 hq1
    obtain ⟨hl, hu⟩ := thicknessPass_completed env cfg cancel2 c0 c1 hcalc h0 h1 hdone
    have hdot : ∀ (cs : List (CloudPoint K)) (t : K), (∀ c ∈ cs, c.pos.dot u = t ∧
        (c.nrm = u ∨ c.nrm = u.neg)) → ∀ q ∈ cs.map CloudPoint.pos, q.dot u = t := by
      intro cs t hcs q hqm
      obtain ⟨c, hc, rfl⟩ := List.mem_map.1 hqm
      exact (hcs c hc).1
    refine ⟨_, _, hl, hu, by simp, by simp, ?_, ?_⟩
    · intro c' hc'
      obtain ⟨c, hc, rfl⟩ := List.mem_map.1 hc'
      exact plane _ c u a b (hc0 c hc).1 (hc0 c hc).2 (hdot c1 b hc1 _ (hq0 c hc).1)
        (hq0 c hc).2
    · intro c' hc'
      obtain ⟨c, hc, rfl⟩ := List.mem_map.1 hc'
      rw [abs_sub_comm]
      exact plane _ c u b a (hc1 c hc).1 (hc1 c hc).2 (hdot c0 a hc0 _ (hq1 c hc).1)
        (hq1 c hc).2

/-- C7, amended, at a surface of one point `(0,0,0)` of the plane `z = 0` with normal
`(0,0,-1)` facing the point `(1,0,3)` of the plane `z = 3`, the query reporting the squared
distance 10, with `tcDistance = 100`: the thickness is `|3 - 0|`. -/
theorem thickness_is_plane_distance_within_cutoff_witness :
    ∃ c', (thicknessSurface (K := ℚ)
        { longAxis := fun _ => none, nearestIndex := fun _ _ => 0, pd := fun _ _ _ => 0,
          eig3 := fun _ => ⟨0, 0, 1⟩, log := fun x => x,
          neighbour := fun _ _ => (⟨1, 0, 3⟩, 10) }
        { minsize := 5, maxsize := 50, tcDistance := 100, calcThickness := true }
        [⟨1, 0, 3⟩] (fun _ => false)
        [{ pos := ⟨0, 0, 0⟩, nrm := ⟨0, 0, -1⟩, sf := none, thickness := none }]).1[0]? =
        some c' ∧ c'.thickness = some |(3 : ℚ) - 0| :=
  (thickness_is_plane_distance_within_cutoff (K := ℚ)
    { longAxis := fun _ => none, nearestIndex := fun _ _ => 0, pd := fun _ _ _ => 0,
      eig3 := fun _ => ⟨0, 0, 1⟩, log := fun x => x,
      neighbour := fun _ _ => (⟨1, 0, 3⟩, 10) }
    { minsize := 5, maxsize := 50, tcDistance := 100, calcThickness := true }
    [⟨1, 0, 3⟩] (fun _ => false)
    [{ pos := ⟨0, 0, 0⟩, nrm := ⟨0, 0, -1⟩, sf := none, thickness := none }] _
    (Prod.ext rfl (thicknessLoop_completes _ _ _ _ _ _ (fun _ _ => rfl)))).2.1
    ⟨0, 0, 1⟩ 0 3 (by norm_num [Vec3.dot])
    (by
      intro c hc
      rw [List.mem_singleton] at hc
      subst hc
      exact ⟨by norm_num [Vec3.dot], Or.inr (by norm_num [Vec3.neg])⟩)
    (by
      intro q hq
      rw [List.mem_singleton] at hq
      subst hq
      norm_num [Vec3.dot])
    (by
      intro c _
      exact ⟨List.mem_singleton.2 rfl, by norm_num⟩)
    0 { pos := ⟨0, 0, 0⟩, nrm := ⟨0, 0, -1⟩, sf := none, thickness := none } rfl

/-- C8. For a point `c` whose neighbour query is within the cutoff and whose signed plane
distance `d = n.(q - p)` is not zero, the normal stored afterwards is `n` if `d > 0` and `-n`
if `d < 0`; it satisfies `n'.(q - p) = |d|`, which is the thickness written and is positive;
and running the step again on the corrected point changes nothing. -/
theorem normal_points_to_opposite_surface {K : Type} [LinearOrderedField K] (env : Env K)
    (cfg : Config K) (opp : List (Vec3 K)) (c : CloudPoint K)
    (hnear : ¬ cfg.tcDistance < (env.neighbour opp c.pos).2)
    (hd : c.nrm.dot ((env.neighbour opp c.pos).1.sub c.pos) ≠ 0) :
    (0 < c.nrm.dot ((env.neighbour opp c.pos).1.sub c.pos) →
      (thicknessPoint env cfg opp c).nrm = c.nrm) ∧
    (c.nrm.dot ((env.neighbour opp c.pos).1.sub c.pos) < 0 →
      (thicknessPoint env cfg opp c).nrm = c.nrm.neg) ∧
    (thicknessPoint env cfg opp c).nrm.dot ((env.neighbour opp c.pos).1.sub c.pos) =
      |c.nrm.dot ((env.neighbour opp c.pos).1.sub c.pos)| ∧
    (thicknessPoint env cfg opp c).thickness =
      some |c.nrm.dot ((env.neighbour opp c.pos).1.sub c.pos)| ∧
    0 < |c.nrm.dot ((env.neighbour opp c.pos).1.sub c.pos)| ∧
    thicknessPoint env cfg opp (thicknessPoint env cfg opp c) = thicknessPoint env cfg opp c := by
  have hpos : (0 : K) < c.nrm.dot ((env.neighbour opp c.pos).1.sub c.pos) →
      (thicknessPoint env cfg opp c).nrm = c.nrm := by
    intro h
    rw [thicknessPoint_near env cfg opp c hnear]
    simp only [abs_of_pos h, div_self hd, Vec3.smul_one]
  have hneg : c.nrm.dot ((env.neighbour opp c.pos).1.sub c.pos) < 0 →
      (thicknessPoint env cfg opp c).nrm = c.nrm.neg := by
    intro h
    rw [thicknessPoint_near env cfg opp c hnear]
    simp only [abs_of_neg h, div_neg, div_self hd, Vec3.smul_neg_one]
  have hdot : (thicknessPoint env cfg opp c).nrm.dot ((env.neighbour opp c.pos).1.sub c.pos) =
      |c.nrm.dot ((env.neighbour opp c.pos).1.sub c.pos)| := by
    rcases lt_or_gt_of_ne hd with h | h
    · rw [hneg h, Vec3.neg_dot, abs_of_neg h]
    · rw [hpos h, abs_of_pos h]
  have hposp : (thicknessPoint env cfg opp c).pos = c.pos := by
    rw [thicknessPoint_near env cfg opp c hnear]
  refine ⟨hpos, hneg, hdot, ?_, abs_pos.2 hd, ?_⟩
  · rw [thicknessPoint_near env cfg opp c hnear]
  · have hnear' : ¬ cfg.tcDistance <
        (env.neighbour opp (thicknessPoint env cfg opp c).pos).2 := by
      rw [hposp]; exact hnear
    rw [thicknessPoint_near env cfg opp (thicknessPoint env cfg opp c) hnear']
    simp only [hposp, hdot, abs_abs, div_self (ne_of_gt (abs_pos.2 hd)), Vec3.smul_one]
    rw [thicknessPoint_near env cfg opp c hnear]

/-- C8, at the point `(0,0,0)` with normal `(0,0,-1)` whose query returns the point
`(1,0,3)` within the cutoff: `d = -3`, the stored normal is `(0,0,1)` and the thickness 3. -/
theorem normal_points_to_opposite_surface_witness :
    (thicknessPoint (K := ℚ)
        { longAxis := fun _ => none, nearestIndex := fun _ _ => 0, pd := fun _ _ _ => 0,
          eig3 := fun _ => ⟨0, 0, 1⟩, log := fun x => x,
          neighbour := fun _ _ => (⟨1, 0, 3⟩, 10) }
        { minsize := 5, maxsize := 50, tcDistance := 100, calcThickness := true }
        [⟨1, 0, 3⟩]
        { pos := ⟨0, 0, 0⟩, nrm := ⟨0, 0, -1⟩, sf := none, thickness := none }).nrm =
      (⟨0, 0, -1⟩ : Vec3 ℚ).neg :=
  (normal_points_to_opposite_surface (K := ℚ)
    { longAxis := fun _ => none, nearestIndex := fun _ _ => 0, pd := fun _ _ _ => 0,
      eig3 := fun _ => ⟨0, 0, 1⟩, log := fun x => x,
      neighbour := fun _ _ => (⟨1, 0, 3⟩, 10) }
    { minsize := 5, maxsize := 50, tcDistance := 100, calcThickness := true }
    [⟨1, 0, 3⟩]
    { pos := ⟨0, 0, 0⟩, nrm := ⟨0, 0, -1⟩, sf := none, thickness := none }
    (by norm_num) (by norm_num [Vec3.dot, Vec3.sub])).2.1 (by norm_num [Vec3.dot, Vec3.sub])

/-- C9. Let the run have processed the datasets `pre`, with outputs `outsPre`, without
leaving the loop, and let it start the next dataset `ds`. If a cancellation poll of the
sweep of the lower region of `ds` answers yes, the function stops and its outputs are
`outsPre`, unchanged, followed by an entry for `ds` that holds no cloud: no normal and no
StartPoint, EndPoint, SegmentID or Weight value is stored for the region. If the lower region
went through and a poll of the sweep of the upper region answers yes, the outputs are
`outsPre` followed by an entry that holds the cloud of the lower region as that region left
it, and no cloud for the upper region. -/
theorem cancelled_sweep_stores_nothing {K : Type} [LinearOrderedField K] (env : Env K)
    (cfg : Config K) (cancel : Cancel) (pre post : List (Dataset K)) (ds : Dataset K)
    (outsPre : List (DatasetOut K)) (pts : List (Sample K)) (axis : Vec3 K)
    (hcfg : ¬ cfg.maxsize < cfg.minsize)
    (hpre : estimateStructureNormals env cfg cancel pre = some outsPre)
    (hrun : (pre.foldl (runStep env cfg cancel) RunState.init).halted = false)
    (hds : cancel.dataset outsPre.length = false)
    (hN : cfg.minsize ≤ pts.length) (hne : pts ≠ []) (hax : env.longAxis pts = some axis) :
    (ds.lower = some pts →
      (∃ lo, lo < pts.length + 1 - cfg.minsize ∧ cancel.sweep outsPre.length 0 lo = true) →
      estimateStructureNormals env cfg cancel (pre ++ ds :: post) =
        some (outsPre ++ [{ lower := none, upper := none, status := Status.cancelled }])) ∧
    (ds.upper = some pts →
      (∃ lo, lo < pts.length + 1 - cfg.minsize ∧ cancel.sweep outsPre.length 1 lo = true) →
      ∀ (s0 : Slot K) (carry0 : Carry),
        regionStep env cfg (pre.foldl (runStep env cfg cancel) RunState.init).carry ds.lower
          ds.pinch (cancel.sweep outsPre.length 0) = (Sum.inl s0, carry0) →
        estimateStructureNormals env cfg cancel (pre ++ ds :: post) =
          some (outsPre ++
            [{ lower := s0.published, upper := none, status := Status.cancelled }])) := by
  have houts : (pre.foldl (runStep env cfg cancel) RunState.init).outs = outsPre := by
    unfold estimateStructureNormals at hpre
    rw [if_neg hcfg] at hpre
    exact Option.some.inj hpre
  constructor
  · intro hlow hc
    have hd := processDataset_lower_cancelled env cfg cancel outsPre.length
      (pre.foldl (runStep env cfg cancel) RunState.init).carry ds pts axis hlow hN hne hax hc
    rw [← houts] at hd hds
    rw [run_stops_at env cfg cancel pre post ds hcfg hrun hds (by rw [hd]; exact fun h => Status.noConfusion h),
      hd, houts]
  · intro hup hc s0 carry0 hlow
    have hd := processDataset_upper_cancelled env cfg cancel outsPre.length
      (pre.foldl (runStep env cfg cancel) RunState.init).carry carry0 ds s0 pts axis hlow hup hN
      hne hax hc
    rw [← houts] at hd hds
    rw [run_stops_at env cfg cancel pre post ds hcfg hrun hds (by rw [hd]; exact fun h => Status.noConfusion h),
      hd, houts]

/-- C9, at a run of three datasets with `minsize = 5`: the first has a lower region of
one point (too small, nothing stored), the second a lower region of six points whose sweep
is cancelled at its first poll, the third is never reached. The outputs are the entry of the
first dataset followed by an entry without clouds. -/
theorem cancelled_sweep_stores_nothing_witness :
    estimateStructureNormals (K := ℚ)
        { longAxis := fun _ => some ⟨1, 0, 0⟩, nearestIndex := fun _ _ => 0,
          pd := fun _ _ _ => 1, eig3 := fun _ => ⟨0, 0, 1⟩, log := fun x => x,
          neighbour := fun _ _ => (⟨0, 0, 0⟩, 0) }
        { minsize := 5, maxsize := 50, tcDistance := 100, calcThickness := true }
        { dataset := fun _ => false, sweep := fun d _ _ => d == 1,
          thickness := fun _ _ _ => false }
        ([{ lower := some [⟨⟨0, 0, 0⟩, ⟨0, 0, 1⟩⟩], upper := none, pinch := [] }] ++
          { lower := some [⟨⟨0, 0, 0⟩, ⟨0, 0, 1⟩⟩, ⟨⟨1, 1, 0⟩, ⟨0, 0, 1⟩⟩,
              ⟨⟨2, 0, 1⟩, ⟨0, 0, 1⟩⟩, ⟨⟨3, 1, 0⟩, ⟨0, 0, 1⟩⟩, ⟨⟨4, 0, 0⟩, ⟨0, 0, 1⟩⟩,
              ⟨⟨5, 1, 1⟩, ⟨0, 0, 1⟩⟩],
            upper := none, pinch := [] } ::
          [{ lower := some [⟨⟨0, 0, 0⟩, ⟨0, 0, 1⟩⟩], upper := none, pinch := [] }]) =
      some ([{ lower := none, upper := none, status := Status.completed }] ++
        [{ lower := none, upper := none, status := Status.cancelled }]) :=
  (cancelled_sweep_stores_nothing (K := ℚ)
    { longAxis := fun _ => some ⟨1, 0, 0⟩, nearestIndex := fun _ _ => 0,
      pd := fun _ _ _ => 1, eig3 := fun _ => ⟨0, 0, 1⟩, log := fun x => x,
      neighbour := fun _ _ => (⟨0, 0, 0⟩, 0) }
    { minsize := 5, maxsize := 50, tcDistance := 100, calcThickness := true }
    { dataset := fun _ => false, sweep := fun d _ _ => d == 1,
      thickness := fun _ _ _ => false }
    [{ lower := some [⟨⟨0, 0, 0⟩, ⟨0, 0, 1⟩⟩], upper := none, pinch := [] }]
    [{ lower := some [⟨⟨0, 0, 0⟩, ⟨0, 0, 1⟩⟩], upper := none, pinch := [] }]
    { lower := some [⟨⟨0, 0, 0⟩, ⟨0, 0, 1⟩⟩, ⟨⟨1, 1, 0⟩, ⟨0, 0, 1⟩⟩,
        ⟨⟨2, 0, 1⟩, ⟨0, 0, 1⟩⟩, ⟨⟨3, 1, 0⟩, ⟨0, 0, 1⟩⟩, ⟨⟨4, 0, 0⟩, ⟨0, 0, 1⟩⟩,
        ⟨⟨5, 1, 1⟩, ⟨0, 0, 1⟩⟩],
      upper := none, pinch := [] }
    [{ lower := none, upper := none, status := Status.completed }]
    [⟨⟨0, 0, 0⟩, ⟨0, 0, 1⟩⟩, ⟨⟨1, 1, 0⟩, ⟨0, 0, 1⟩⟩, ⟨⟨2, 0, 1⟩, ⟨0, 0, 1⟩⟩,
      ⟨⟨3, 1, 0⟩, ⟨0, 0, 1⟩⟩, ⟨⟨4, 0, 0⟩, ⟨0, 0, 1⟩⟩, ⟨⟨5, 1, 1⟩, ⟨0, 0, 1⟩⟩]
    ⟨1, 0, 0⟩ (by decide) rfl rfl rfl (by decide) (by simp) rfl).1 rfl
    ⟨0, by decide, rfl⟩

/-! ### Monotonicity of the best score -/

theorem innerLoop_mono {K : Type} [LinearOrder K] (M : Nat) (brk : Nat → Bool)
    (score : Nat → Nat → K) (nrm : Nat → Nat → Vec3 K) (lo q : Nat) :
    ∀ (his : List Nat) (st : SweepState K) (e : Estimate K), st.est[q]? = some e →
      ∃ e', (innerLoop M brk score nrm lo his st).est[q]? = some e' ∧ e.bestPd ≤ e'.bestPd
  | [], st, e, he => ⟨e, he, le_refl _⟩
  | hi :: his, st, e, he => by
    unfold innerLoop
    cases hb : broken brk lo hi
    · simp only [Bool.false_eq_true, if_false]
      have h1 : (mapUpdate M lo hi (score lo hi) (nrm lo hi) (List.range' lo (hi - lo))
          st.est)[q]? = some (updOne M lo hi (score lo hi) (nrm lo hi) q e) := by
        rw [mapUpdate_window, he]
        rfl
      obtain ⟨e', he', hle⟩ := innerLoop_mono M brk score nrm lo q his
        { est := mapUpdate M lo hi (score lo hi) (nrm lo hi) (List.range' lo (hi - lo)) st.est,
          hasValidSNE := true } _ h1
      refine ⟨e', he', le_trans ?_ hle⟩
      unfold updOne
      split
      · rename_i hc
        exact le_of_lt hc.2.2
      · exact le_refl _
    · simp only [if_true]
      exact ⟨e, he, le_refl _⟩

theorem outerLoop_mono {K : Type} [LinearOrder K] (M minsize maxsize : Nat)
    (brk : Nat → Bool) (score : Nat → Nat → K) (nrm : Nat → Nat → Vec3 K)
    (cancel : Nat → Bool) (q : Nat) :
    ∀ (los : List Nat) (st st' : SweepState K) (e : Estimate K),
      outerLoop M minsize maxsize brk score nrm cancel los st = some st' →
      st.est[q]? = some e → ∃ e', st'.est[q]? = some e' ∧ e.bestPd ≤ e'.bestPd
  | [], st, st', e, hrun, he => by
    simp only [outerLoop, Option.some.injEq] at hrun
    subst hrun
    exact ⟨e, he, le_refl _⟩
  | lo :: los, st, st', e, hrun, he => by
    unfold outerLoop at hrun
    cases hc : cancel lo
    · rw [hc] at hrun
      simp only [Bool.false_eq_true, if_false] at hrun
      obtain ⟨e1, he1, hle1⟩ := innerLoop_mono M brk score nrm lo q
        (innerRange M minsize maxsize lo) st e he
      obtain ⟨e2, he2, hle2⟩ := outerLoop_mono M minsize maxsize brk score nrm cancel q los _
        st' e1 hrun he1
      exact ⟨e2, he2, le_trans hle1 hle2⟩
    · rw [hc] at hrun
      simp at hrun

/-- C15. Processing a window `[lo, hi)` leaves the Estimate of every position `q` as it
was, or, when `q` is inside the window and the score of the window is strictly greater than
`bestPd[q]`, replaces it by what the window stores, whose `bestPd` is that strictly larger
score; positions outside the window are never touched. Hence `bestPd[q]` never decreases
over the steps of the inner loop and of the outer loop of a sweep. -/
theorem bestPd_never_decreases {K : Type} [LinearOrder K] (M : Nat) (brk : Nat → Bool)
    (score : Nat → Nat → K) (nrm : Nat → Nat → Vec3 K) :
    (∀ (lo hi : Nat) (est : List (Estimate K)) (q : Nat) (e : Estimate K),
      est[q]? = some e →
      ∃ e', (mapUpdate M lo hi (score lo hi) (nrm lo hi) (List.range' lo (hi - lo)) est)[q]? =
          some e' ∧
        e.bestPd ≤ e'.bestPd ∧
        (e' = e ∨ (lo ≤ q ∧ q < hi ∧ e.bestPd < score lo hi ∧
          e' = Estimate.ofWindow M lo hi (score lo hi) (nrm lo hi) ∧
          e.bestPd < e'.bestPd)) ∧
        (¬ (lo ≤ q ∧ q < hi) → e' = e) ∧
        (¬ e.bestPd < score lo hi → e' = e)) ∧
    (∀ (lo : Nat) (his : List Nat) (st : SweepState K) (q : Nat) (e : Estimate K),
      st.est[q]? = some e →
      ∃ e', (innerLoop M brk score nrm lo his st).est[q]? = some e' ∧
        e.bestPd ≤ e'.bestPd) ∧
    (∀ (minsize maxsize : Nat) (cancel : Nat → Bool) (los : List Nat)
      (st st' : SweepState K) (q : Nat) (e : Estimate K),
      outerLoop M minsize maxsize brk score nrm cancel los st = some st' →
      st.est[q]? = some e → ∃ e', st'.est[q]? = some e' ∧ e.bestPd ≤ e'.bestPd) := by
  refine ⟨?_, fun lo his st q e he => innerLoop_mono M brk score nrm lo q his st e he,
    fun minsize maxsize cancel los st st' q e hrun he =>
      outerLoop_mono M minsize maxsize brk score nrm cancel q los st st' e hrun he⟩
  intro lo hi est q e he
  refine ⟨updOne M lo hi (score lo hi) (nrm lo hi) q e, ?_, ?_⟩
  · rw [mapUpdate_window, he]
    rfl
  · unfold updOne
    by_cases hc : lo ≤ q ∧ q < hi ∧ e.bestPd < score lo hi
    · rw [if_pos hc]
      exact ⟨le_of_lt hc.2.2, Or.inr ⟨hc.1, hc.2.1, hc.2.2, rfl, hc.2.2⟩,
        fun hn => absurd ⟨hc.1, hc.2.1⟩ hn, fun hn => absurd hc.2.2 hn⟩
    · rw [if_neg hc]
      exact ⟨le_refl _, Or.inl rfl, fun _ => rfl, fun _ => rfl⟩

/-- C15, at a series of 6 positions swept with `minsize = 2` and `maxsize = 4`, the score
of a window being its length: the final `bestPd` is `[3, 3, 3, 3, 3, 0]`, not below the
initial 0 at any position. -/
theorem bestPd_never_decreases_witness :
    (sweep (K := ℤ) 6 2 4 (fun _ => false) (fun lo hi => ((hi - lo : Nat) : ℤ))
        (fun _ _ => ⟨0, 0, 1⟩) (fun _ => false)).map
      (fun s => s.est.map Estimate.bestPd) = some [3, 3, 3, 3, 3, 0] ∧
    ∀ st', outerLoop (K := ℤ) 6 2 4 (fun _ => false) (fun lo hi => ((hi - lo : Nat) : ℤ))
        (fun _ _ => ⟨0, 0, 1⟩) (fun _ => false) (outerRange 6 2) (SweepState.init 6) =
        some st' →
      ∃ e', st'.est[5]? = some e' ∧ (Estimate.init : Estimate ℤ).bestPd ≤ e'.bestPd :=
  ⟨by decide, fun st' h => (bestPd_never_decreases (K := ℤ) 6 (fun _ => false)
    (fun lo hi => ((hi - lo : Nat) : ℤ)) (fun _ _ => ⟨0, 0, 1⟩)).2.2 2 4 (fun _ => false)
    (outerRange 6 2) (SweepState.init 6) st' 5 Estimate.init h (by decide)⟩

/-! ### The early exit of the inner loop -/

theorem innerLoopAll_all_broken {K : Type} [LinearOrder K] (M : Nat) (brk : Nat → Bool)
    (score : Nat → Nat → K) (nrm : Nat → Nat → Vec3 K) (lo : Nat) :
    ∀ (his : List Nat) (st : SweepState K), (∀ hi ∈ his, broken brk lo hi = true) →
      innerLoopAll M brk score nrm lo his st = st
  | [], _, _ => rfl
  | hi :: his, st, h => by
    rw [innerLoopAll, h hi (List.mem_cons_self _ _)]
    simp only [if_true]
    exact innerLoopAll_all_broken M brk score nrm lo his st
      (fun h' hm => h h' (List.mem_cons_of_mem _ hm))

theorem innerLoop_eq_all {K : Type} [LinearOrder K] (M : Nat) (brk : Nat → Bool)
    (score : Nat → Nat → K) (nrm : Nat → Nat → Vec3 K) (lo : Nat) :
    ∀ (n a : Nat) (st : SweepState K),
      innerLoop M brk score nrm lo (List.range' a n) st =
        innerLoopAll M brk score nrm lo (List.range' a n) st
  | 0, _, _ => rfl
  | n + 1, a, st => by
    rw [List.range'_succ, innerLoop, innerLoopAll]
    cases hb : broken brk lo a
    · simp only [Bool.false_eq_true, if_false]
      exact innerLoop_eq_all M brk score nrm lo n (a + 1) _
    · simp only [if_true]
      refine (innerLoopAll_all_broken M brk score nrm lo _ st ?_).symm
      intro hi hm
      rw [List.mem_range'_1] at hm
      exact broken_mono brk lo a hi hb (by omega)

theorem outerLoop_eq_all {K : Type} [LinearOrder K] (M minsize maxsize : Nat)
    (brk : Nat → Bool) (score : Nat → Nat → K) (nrm : Nat → Nat → Vec3 K)
    (cancel : Nat → Bool) :
    ∀ (los : List Nat) (st : SweepState K),
      outerLoop M minsize maxsize brk score nrm cancel los st =
        outerLoopAll M minsize maxsize brk score nrm cancel los st
  | [], _ => rfl
  | lo :: los, st => by
    rw [outerLoop, outerLoopAll]
    have h : innerLoop M brk score nrm lo (innerRange M minsize maxsize lo) st =
        innerLoopAll M brk score nrm lo (innerRange M minsize maxsize lo) st := by
      unfold innerRange
      exact innerLoop_eq_all M brk score nrm lo _ _ st
    rw [h, outerLoop_eq_all M minsize maxsize brk score nrm cancel los]

/-- C18. If the window `[lo, hi)` contains a flagged position then so does every window
`[lo, hi')` with `hi' > hi`; and for every series, break flags, scores and cancellation
polls, the sweep with the early exit returns exactly what the sweep returns that tests
every window of the same loop ranges on its own and skips the broken ones. -/
theorem early_exit_loses_nothing {K : Type} [LinearOrder K] [Zero K]
    (M minsize maxsize : Nat) (brk : Nat → Bool) (score : Nat → Nat → K)
    (nrm : Nat → Nat → Vec3 K) (cancel : Nat → Bool) :
    (∀ lo hi hi', broken brk lo hi = true → hi < hi' → broken brk lo hi' = true) ∧
    sweep M minsize maxsize brk score nrm cancel =
      sweepAll M minsize maxsize brk score nrm cancel :=
  ⟨fun lo hi hi' hb hlt => broken_mono brk lo hi hi' hb (Nat.le_of_lt hlt),
    outerLoop_eq_all M minsize maxsize brk score nrm cancel _ _⟩

/-! ### The windows the sweep scores -/

theorem applyWindows_append {K : Type} [LinearOrder K] (M : Nat) (score : Nat → Nat → K)
    (nrm : Nat → Nat → Vec3 K) :
    ∀ (ws ws' : List (Nat × Nat)) (est : List (Estimate K)),
      applyWindows M score nrm (ws ++ ws') est =
        applyWindows M score nrm ws' (applyWindows M score nrm ws est)
  | [], _, _ => rfl
  | w :: ws, ws', est => by
    simp only [List.cons_append, applyWindows]
    exact applyWindows_append M score nrm ws ws' _

/-- The inner loop is the update loops of the windows of `innerWindows`, and it sets
`hasValidSNE` exactly when there is one. -/
theorem innerLoop_eq_windows {K : Type} [LinearOrder K] (M : Nat) (brk : Nat → Bool)
    (score : Nat → Nat → K) (nrm : Nat → Nat → Vec3 K) (lo : Nat) :
    ∀ (his : List Nat) (st : SweepState K),
      innerLoop M brk score nrm lo his st =
        { est := applyWindows M score nrm (innerWindows brk lo his) st.est,
          hasValidSNE := st.hasValidSNE || !(innerWindows brk lo his).isEmpty }
  | [], st => by simp [innerLoop, innerWindows, applyWindows]
  | hi :: his, st => by
    unfold innerLoop innerWindows
    cases hb : broken brk lo hi
    · simp only [Bool.false_eq_true, if_false]
      rw [innerLoop_eq_windows M brk score nrm lo his]
      simp [applyWindows]
    · simp [applyWindows]

/-- A sweep that is not cancelled is the update loops of the windows of `outerWindows`. -/
theorem outerLoop_eq_windows {K : Type} [LinearOrder K] (M minsize maxsize : Nat)
    (brk : Nat → Bool) (score : Nat → Nat → K) (nrm : Nat → Nat → Vec3 K)
    (cancel : Nat → Bool) :
    ∀ (los : List Nat) (st st' : SweepState K),
      outerLoop M minsize maxsize brk score nrm cancel los st = some st' →
      st' = { est := applyWindows M score nrm (outerWindows M minsize maxsize brk los) st.est,
              hasValidSNE := st.hasValidSNE ||
                !(outerWindows M minsize maxsize brk los).isEmpty }
  | [], st, st', h => by
    simp only [outerLoop, Option.some.injEq] at h
    subst h
    simp [outerWindows, applyWindows]
  | lo :: los, st, st', h => by
    unfold outerLoop at h
    cases hc : cancel lo
    · rw [hc] at h
      simp only [Bool.false_eq_true, if_false] at h
      rw [outerLoop_eq_windows M minsize maxsize brk score nrm cancel los _ st' h,
        innerLoop_eq_windows]
      simp only [outerWindows, applyWindows_append]
      cases innerWindows brk lo (innerRange M minsize maxsize lo) <;> simp
    · rw [hc] at h
      simp at h

theorem mem_innerWindows (brk : Nat → Bool) (lo : Nat) (w : Nat × Nat) :
    ∀ (n a : Nat), w ∈ innerWindows brk lo (List.range' a n) ↔
      w.1 = lo ∧ w.2 ∈ List.range' a n ∧ broken brk lo w.2 = false
  | 0, a => by simp [innerWindows]
  | n + 1, a => by
    rw [List.range'_succ, innerWindows]
    cases hb : broken brk lo a
    · simp only [Bool.false_eq_true, if_false, List.mem_cons, mem_innerWindows brk lo w n (a + 1)]
      constructor
      · rintro (rfl | ⟨h1, h2, h3⟩)
        · exact ⟨rfl, Or.inl rfl, hb⟩
        · exact ⟨h1, Or.inr h2, h3⟩
      · rintro ⟨h1, h2 | h2, h3⟩
        · exact Or.inl (Prod.ext h1 h2)
        · exact Or.inr ⟨h1, h2, h3⟩
    · simp only [if_true, List.not_mem_nil, false_iff, not_and]
      intro _ hm
      have hle : a ≤ w.2 := by
        rcases List.mem_cons.1 hm with h | h
        · exact le_of_eq h.symm
        · rw [List.mem_range'_1] at h
          omega
      rw [broken_mono brk lo a w.2 hb hle]
      exact fun h => Bool.noConfusion h

theorem mem_outerWindows (M minsize maxsize : Nat) (brk : Nat → Bool) (w : Nat × Nat) :
    ∀ (los : List Nat), w ∈ outerWindows M minsize maxsize brk los ↔
      w.1 ∈ los ∧ w.2 ∈ innerRange M minsize maxsize w.1 ∧ broken brk w.1 w.2 = false
  | [] => by simp [outerWindows]
  | lo :: los => by
    rw [outerWindows, List.mem_append, mem_outerWindows M minsize maxsize brk w los]
    unfold innerRange
    rw [mem_innerWindows]
    constructor
    · rintro (⟨h1, h2, h3⟩ | ⟨h1, h2, h3⟩)
      · subst h1
        exact ⟨List.mem_cons_self _ _, h2, h3⟩
      · exact ⟨List.mem_cons_of_mem _ h1, h2, h3⟩
    · rintro ⟨h1, h2, h3⟩
      rcases List.mem_cons.1 h1 with h | h
      · subst h
        exact Or.inl ⟨rfl, h2, h3⟩
      · exact Or.inr ⟨h, h2, h3⟩

/-- The windows a completed sweep scores are the windows `Evaluated` describes. -/
theorem mem_sweepWindows (M minsize maxsize : Nat) (brk : Nat → Bool) (lo hi : Nat) :
    (lo, hi) ∈ sweepWindows M minsize maxsize brk ↔ Evaluated M minsize maxsize brk lo hi := by
  unfold sweepWindows Evaluated
  exact mem_outerWindows M minsize maxsize brk (lo, hi) _

/-- A completed sweep is the update loops of the windows of `sweepWindows`, in order, and
`hasValidSNE` tells whether there was one. -/
theorem sweep_eq_windows {K : Type} [LinearOrder K] [Zero K] (M minsize maxsize : Nat)
    (brk : Nat → Bool) (score : Nat → Nat → K) (nrm : Nat → Nat → Vec3 K)
    (cancel : Nat → Bool) (st : SweepState K)
    (h : sweep M minsize maxsize brk score nrm cancel = some st) :
    st.est = applyWindows M score nrm (sweepWindows M minsize maxsize brk)
        (List.replicate M Estimate.init) ∧
      st.hasValidSNE = !(sweepWindows M minsize maxsize brk).isEmpty := by
  have := outerLoop_eq_windows M minsize maxsize brk score nrm cancel _ _ st h
  rw [this]
  simp [sweepWindows, SweepState.init]

/-- C16, as stated, fails. For a series of 7 positions without Breaks, `minsize = 5` and
`maxsize = 50`, the sweep scores the three windows `[0, 5)`, `[0, 6)` and `[1, 6)` and no
other: the windows `[0, 7)`, `[1, 7)` and `[2, 7)` the specification lists (`lo ≤ N - minsize`,
`hi = min(N, lo + maxsize) = N`) are not scored. For a series of 56 positions, `minsize = 49`
and `maxsize = 50`, the window `[0, 50)` of length `maxsize` is listed and not scored. -/
theorem sweep_windows_differ_from_specified_ranges :
    sweepWindows 7 5 50 (fun _ => false) = [(0, 5), (0, 6), (1, 6)] ∧
    (SpecWindow 7 5 50 0 7 ∧ (0, 7) ∉ sweepWindows 7 5 50 (fun _ => false)) ∧
    (SpecWindow 7 5 50 1 7 ∧ (1, 7) ∉ sweepWindows 7 5 50 (fun _ => false)) ∧
    (SpecWindow 7 5 50 2 7 ∧ (2, 7) ∉ sweepWindows 7 5 50 (fun _ => false)) ∧
    (SpecWindow 56 49 50 0 50 ∧ (0, 50) ∉ sweepWindows 56 49 50 (fun _ => false)) ∧
    ¬ (∀ lo hi, (lo, hi) ∈ sweepWindows 7 5 50 (fun _ => false) ↔ SpecWindow 7 5 50 lo hi) := by
  have h7 : sweepWindows 7 5 50 (fun _ => false) = [(0, 5), (0, 6), (1, 6)] := by decide
  have s0 : SpecWindow 7 5 50 0 7 := by unfold SpecWindow; decide
  have n0 : (0, 7) ∉ sweepWindows 7 5 50 (fun _ => false) := by rw [h7]; decide
  refine ⟨h7, ⟨s0, n0⟩, ⟨by unfold SpecWindow; decide, by rw [h7]; decide⟩,
    ⟨by unfold SpecWindow; decide, by rw [h7]; decide⟩,
    ⟨by unfold SpecWindow; decide, ?_⟩, fun h => n0 ((h 0 7).2 s0)⟩
  rw [mem_sweepWindows, evaluated_iff 56 49 50 _ 0 50 (by norm_num) (by norm_num)]
  omega

/-- C16, amended. For a sorted series of `M` positions none of which is a Break
(`M` and `maxsize` below `2^31`): every window `[lo, hi)` with `lo + minsize ≤ hi` and
`hi < min(M, lo + maxsize)` is scored by the sweep, and every window the sweep scores has
`lo + minsize ≤ hi ≤ M` and a length `hi - lo` from `minsize` to `maxsize - 1`: no window of
length `maxsize` is scored. A completed sweep is the update loops (lines 1741-1751) of the
scored windows, in the order of the two loops, starting from the empty Estimates. -/
theorem sweep_scores_windows_below_exclusive_bounds {K : Type} [LinearOrder K] [Zero K]
    (M minsize maxsize : Nat) (brk : Nat → Bool) (hM : M < 2 ^ 31) (hmax : maxsize < 2 ^ 31)
    (hbrk : ∀ q, q < M → brk q = false) :
    (∀ lo hi, lo + minsize ≤ hi → hi < min M (lo + maxsize) →
      (lo, hi) ∈ sweepWindows M minsize maxsize brk) ∧
    (∀ lo hi, (lo, hi) ∈ sweepWindows M minsize maxsize brk →
      lo + minsize ≤ hi ∧ hi ≤ M ∧ minsize ≤ hi - lo ∧ hi - lo < maxsize) ∧
    (∀ (score : Nat → Nat → K) (nrm : Nat → Nat → Vec3 K) (cancel : Nat → Bool)
      (st : SweepState K), sweep M minsize maxsize brk score nrm cancel = some st →
      st.est = applyWindows M score nrm (sweepWindows M minsize maxsize brk)
        (List.replicate M Estimate.init)) := by
  refine ⟨fun lo hi h1 h2 => ?_, fun lo hi h => ?_, fun score nrm cancel st h =>
    (sweep_eq_windows M minsize maxsize brk score nrm cancel st h).1⟩
  · rw [mem_sweepWindows, evaluated_iff M minsize maxsize brk lo hi hM hmax]
    have h3 := lt_min_iff.1 h2
    exact ⟨by omega, h1, h3.1, h3.2, fun q _ hq => hbrk q (by omega)⟩
  · rw [mem_sweepWindows, evaluated_iff M minsize maxsize brk lo hi hM hmax] at h
    omega

/-- C16, amended, at the series of 7 positions without Breaks, `minsize = 5` and
`maxsize = 50`: the windows `[0, 5)`, `[0, 6)` and `[1, 6)` are scored, and a scored window
has at most 49 positions. -/
theorem sweep_scores_windows_below_exclusive_bounds_witness :
    ((7 : Nat) < 2 ^ 31 ∧ (50 : Nat) < 2 ^ 31 ∧ ∀ q, q < 7 → (fun _ : Nat => false) q = false) ∧
    (0, 5) ∈ sweepWindows 7 5 50 (fun _ => false) ∧
    (0, 6) ∈ sweepWindows 7 5 50 (fun _ => false) ∧
    (1, 6) ∈ sweepWindows 7 5 50 (fun _ => false) ∧
    ∀ lo hi, (lo, hi) ∈ sweepWindows 7 5 50 (fun _ => false) → hi - lo < 50 :=
  ⟨⟨by norm_num, by norm_num, fun _ _ => rfl⟩,
    (sweep_scores_windows_below_exclusive_bounds (K := ℤ) 7 5 50 (fun _ => false) (by norm_num)
      (by norm_num) (fun _ _ => rfl)).1 0 5 (by norm_num) (by decide),
    (sweep_scores_windows_below_exclusive_bounds (K := ℤ) 7 5 50 (fun _ => false) (by norm_num)
      (by norm_num) (fun _ _ => rfl)).1 0 6 (by norm_num) (by decide),
    (sweep_scores_windows_below_exclusive_bounds (K := ℤ) 7 5 50 (fun _ => false) (by norm_num)
      (by norm_num) (fun _ _ => rfl)).1 1 6 (by norm_num) (by decide),
    fun lo hi h => ((sweep_scores_windows_below_exclusive_bounds (K := ℤ) 7 5 50 (fun _ => false)
      (by norm_num) (by norm_num) (fun _ _ => rfl)).2.1 lo hi h).2.2.2⟩

/-! ### The outcome of a region that reaches the sweep -/

theorem processRegion_eq_sweep {K : Type} [LinearOrderedField K] (env : Env K)
    (cfg : Config K) (carry : Carry) (pts : List (Sample K)) (pinch : List (Vec3 K))
    (cancel : Nat → Bool) (axis : Vec3 K) (sorted : SortState K)
    (hN : cfg.minsize ≤ pts.length) (hax : env.longAxis pts = some axis)
    (hsort : sortAlongAxis axis pts carry.iid = some sorted) :
    processRegion env cfg carry pts pinch cancel =
      ((match regionSweep env cfg carry.hasNormals pts pinch cancel sorted.series with
        | none => RegionOutcome.cancelled
        | some st =>
          if st.hasValidSNE then
            RegionOutcome.stored
              (storeEstimates env.log (sorted.series.map Entry.pid) st.est (loadCloud pts))
          else RegionOutcome.noValidSNE),
        { hasNormals := checkNormals carry.hasNormals sorted.series, iid := sorted.iid }) := by
  unfold processRegion regionSweep regionBreaks
  rw [if_neg (not_lt.2 hN)]
  simp only [hax, hsort]
  split
  · rfl
  · split <;> rfl

/-- A sweep none of whose windows scores more than 0 leaves every Estimate as it was
created. -/
theorem sweep_nonpos {K : Type} [LinearOrder K] [Zero K] (M minsize maxsize : Nat)
    (brk : Nat → Bool) (score : Nat → Nat → K) (nrm : Nat → Nat → Vec3 K)
    (cancel : Nat → Bool) (st : SweepState K) (hs : ∀ lo hi, score lo hi ≤ 0)
    (hrun : sweep M minsize maxsize brk score nrm cancel = some st) :
    st.est = List.replicate M Estimate.init := by
  obtain ⟨hlen, hbest⟩ := sweep_best M minsize maxsize brk score nrm cancel st hrun
  rw [List.eq_replicate_iff]
  refine ⟨hlen, fun e he => ?_⟩
  obtain ⟨q, hq⟩ := List.getElem?_of_mem he
  rcases (hbest q e hq).attained with h | ⟨lo, hi, _, _, _, hpos, _⟩
  · exact h
  · exact absurd hpos (not_lt.2 (hs lo hi))

theorem breakAt_replicate_false (pid : List Nat) (n p : Nat) :
    breakAt pid (List.replicate n false) p = false := by
  unfold breakAt
  cases pid[p]? with
  | none => rfl
  | some i =>
    show (List.replicate n false).getD i false = false
    rw [List.getD_eq_getElem?_getD]
    cases h : (List.replicate n false)[i]? with
    | none => rfl
    | some b =>
      have := List.getElem?_mem h
      rw [List.mem_replicate] at this
      rw [this.2]
      rfl

/-- A region without pinch nodes has no Break. -/
theorem regionBreaks_nil {K : Type} (env : Env K) (pts : List (Sample K))
    (series : List (Entry K)) : regionBreaks env pts [] series = fun _ => false := by
  funext p
  unfold regionBreaks
  exact breakAt_replicate_false _ _ p

/-- C11, as stated, fails. A region of 6 points without pinch nodes is processed with
`minsize = 5` and `maxsize = 50`, every window scoring 0. The sweep completes with
`hasValidSNE` set and every Estimate as it was created (every `bestPd` is 0, no window has
updated any Estimate), yet the region is not skipped: its cloud is stored with the zero
normal, `StartPoint = EndPoint = 0`, `SegmentID = -1` and `Weight = log 0` at the cloud
indices `0 .. 4`. -/
theorem region_with_zero_scores_is_stored :
    regionSweep (K := ℚ)
        { longAxis := fun _ => some ⟨1, 0, 0⟩, nearestIndex := fun _ _ => 0,
          pd := fun _ _ _ => 0, eig3 := fun _ => ⟨0, 0, 1⟩, log := fun x => x - 1,
          neighbour := fun _ _ => (⟨0, 0, 0⟩, 0) }
        { minsize := 5, maxsize := 50, tcDistance := 100, calcThickness := true }
        true
        [⟨⟨0, 0, 0⟩, ⟨0, 0, 1⟩⟩, ⟨⟨1, 1, 0⟩, ⟨0, 0, 1⟩⟩, ⟨⟨2, 0, 1⟩, ⟨0, 0, 1⟩⟩,
          ⟨⟨3, 1, 0⟩, ⟨0, 0, 1⟩⟩, ⟨⟨4, 0, 0⟩, ⟨0, 0, 1⟩⟩, ⟨⟨5, 1, 1⟩, ⟨0, 0, 1⟩⟩] []
        (fun _ => false)
        [mkEntry 0 0 ⟨⟨0, 0, 0⟩, ⟨0, 0, 1⟩⟩, mkEntry 0 0 ⟨⟨0, 0, 0⟩, ⟨0, 0, 1⟩⟩,
          mkEntry 1 1 ⟨⟨1, 1, 0⟩, ⟨0, 0, 1⟩⟩, mkEntry 2 2 ⟨⟨2, 0, 1⟩, ⟨0, 0, 1⟩⟩,
          mkEntry 3 3 ⟨⟨3, 1, 0⟩, ⟨0, 0, 1⟩⟩, mkEntry 4 4 ⟨⟨4, 0, 0⟩, ⟨0, 0, 1⟩⟩,
          mkEntry 5 5 ⟨⟨5, 1, 1⟩, ⟨0, 0, 1⟩⟩] =
      some { est := List.replicate 7 Estimate.init, hasValidSNE := true } ∧
    (processRegion (K := ℚ)
        { longAxis := fun _ => some ⟨1, 0, 0⟩, nearestIndex := fun _ _ => 0,
          pd := fun _ _ _ => 0, eig3 := fun _ => ⟨0, 0, 1⟩, log := fun x => x - 1,
          neighbour := fun _ _ => (⟨0, 0, 0⟩, 0) }
        { minsize := 5, maxsize := 50, tcDistance := 100, calcThickness := true }
        { hasNormals := true, iid := none }
        [⟨⟨0, 0, 0⟩, ⟨0, 0, 1⟩⟩, ⟨⟨1, 1, 0⟩, ⟨0, 0, 1⟩⟩, ⟨⟨2, 0, 1⟩, ⟨0, 0, 1⟩⟩,
          ⟨⟨3, 1, 0⟩, ⟨0, 0, 1⟩⟩, ⟨⟨4, 0, 0⟩, ⟨0, 0, 1⟩⟩, ⟨⟨5, 1, 1⟩, ⟨0, 0, 1⟩⟩] []
        (fun _ => false)).1 =
      RegionOutcome.stored (K := ℚ)
        [{ pos := ⟨0, 0, 0⟩, nrm := ⟨0, 0, 0⟩, sf := some ⟨0, 0, -1, 0 - 1⟩, thickness := none },
          { pos := ⟨1, 1, 0⟩, nrm := ⟨0, 0, 0⟩, sf := some ⟨0, 0, -1, 0 - 1⟩, thickness := none },
          { pos := ⟨2, 0, 1⟩, nrm := ⟨0, 0, 0⟩, sf := some ⟨0, 0, -1, 0 - 1⟩, thickness := none },
          { pos := ⟨3, 1, 0⟩, nrm := ⟨0, 0, 0⟩, sf := some ⟨0, 0, -1, 0 - 1⟩, thickness := none },
          { pos := ⟨4, 0, 0⟩, nrm := ⟨0, 0, 0⟩, sf := some ⟨0, 0, -1, 0 - 1⟩, thickness := none },
          { pos := ⟨5, 1, 1⟩, nrm := ⟨0, 0, 1⟩, sf := none, thickness := none }] := by
  have hsw : regionSweep (K := ℚ)
        { longAxis := fun _ => some ⟨1, 0, 0⟩, nearestIndex := fun _ _ => 0,
          pd := fun _ _ _ => 0, eig3 := fun _ => ⟨0, 0, 1⟩, log := fun x => x - 1,
          neighbour := fun _ _ => (⟨0, 0, 0⟩, 0) }
        { minsize := 5, maxsize := 50, tcDistance := 100, calcThickness := true }
        true
        [⟨⟨0, 0, 0⟩, ⟨0, 0, 1⟩⟩, ⟨⟨1, 1, 0⟩, ⟨0, 0, 1⟩⟩, ⟨⟨2, 0, 1⟩, ⟨0, 0, 1⟩⟩,
          ⟨⟨3, 1, 0⟩, ⟨0, 0, 1⟩⟩, ⟨⟨4, 0, 0⟩, ⟨0, 0, 1⟩⟩, ⟨⟨5, 1, 1⟩, ⟨0, 0, 1⟩⟩] []
        (fun _ => false)
        [mkEntry 0 0 ⟨⟨0, 0, 0⟩, ⟨0, 0, 1⟩⟩, mkEntry 0 0 ⟨⟨0, 0, 0⟩, ⟨0, 0, 1⟩⟩,
          mkEntry 1 1 ⟨⟨1, 1, 0⟩, ⟨0, 0, 1⟩⟩, mkEntry 2 2 ⟨⟨2, 0, 1⟩, ⟨0, 0, 1⟩⟩,
          mkEntry 3 3 ⟨⟨3, 1, 0⟩, ⟨0, 0, 1⟩⟩, mkEntry 4 4 ⟨⟨4, 0, 0⟩, ⟨0, 0, 1⟩⟩,
          mkEntry 5 5 ⟨⟨5, 1, 1⟩, ⟨0, 0, 1⟩⟩] =
      some { est := List.replicate 7 Estimate.init, hasValidSNE := true } := by
    unfold regionSweep
    rw [regionBreaks_nil]
    obtain ⟨st, hst⟩ : ∃ st, sweep (K := ℚ) 7 5 50 (fun _ => false) (fun _ _ => 0)
        (fun _ _ => ⟨0, 0, 1⟩) (fun _ => false) = some st :=
      outerLoop_some _ _ _ _ _ _ _ _ _ (fun _ _ => rfl)
    have h1 := sweep_nonpos 7 5 50 _ _ _ _ st (fun _ _ => le_refl _) hst
    have h2 := (sweep_eq_windows 7 5 50 _ _ _ _ st hst).2
    have h3 : sweepWindows 7 5 50 (fun _ => false) = [(0, 5), (0, 6), (1, 6)] := by decide
    rw [h3] at h2
    show sweep (K := ℚ) 7 5 50 (fun _ => false) (fun _ _ => 0)
        (fun _ _ => ⟨0, 0, 1⟩) (fun _ => false) = _
    rw [hst]
    cases st
    simp only at h1 h2
    rw [h1, h2]
    rfl
  refine ⟨hsw, ?_⟩
  rw [processRegion_eq_sweep _ _ _ _ _ _ ⟨1, 0, 0⟩
    ⟨[mkEntry 0 0 ⟨⟨0, 0, 0⟩, ⟨0, 0, 1⟩⟩, mkEntry 0 0 ⟨⟨0, 0, 0⟩, ⟨0, 0, 1⟩⟩,
          mkEntry 1 1 ⟨⟨1, 1, 0⟩, ⟨0, 0, 1⟩⟩, mkEntry 2 2 ⟨⟨2, 0, 1⟩, ⟨0, 0, 1⟩⟩,
          mkEntry 3 3 ⟨⟨3, 1, 0⟩, ⟨0, 0, 1⟩⟩, mkEntry 4 4 ⟨⟨4, 0, 0⟩, ⟨0, 0, 1⟩⟩,
          mkEntry 5 5 ⟨⟨5, 1, 1⟩, ⟨0, 0, 1⟩⟩], none⟩ (by decide) rfl
    (by norm_num [sortAlongAxis, sortLoop, sortStep, Vec3.dot, mkEntry])]
  simp only [hsw]
  rfl

/-- C11, amended. Let a region with at least `minsize` points have a long axis and a sorted
series, and let its sweep not be cancelled. If no window of the two loops passes the Break
test (every window `[lo, hi)` the loops reach contains a flagged position, or the loops reach
none), the region is treated as NoValidWindow and skipped: its outcome is `noValidSNE`, its
slot is left null, no cloud is published for it, and the dataset goes on with its upper
region. In every other case the Estimates of the sweep are stored on the cloud of the
region, whatever the scores were. -/
theorem region_without_break_free_window_is_skipped {K : Type} [LinearOrderedField K]
    (env : Env K) (cfg : Config K) (carry : Carry) (pts : List (Sample K))
    (pinch : List (Vec3 K)) (cancel : Nat → Bool) (axis : Vec3 K) (sorted : SortState K)
    (hN : cfg.minsize ≤ pts.length) (hax : env.longAxis pts = some axis)
    (hsort : sortAlongAxis axis pts carry.iid = some sorted)
    (hc : ∀ lo, cancel lo = false) :
    (sweepWindows sorted.series.length cfg.minsize cfg.maxsize
        (regionBreaks env pts pinch sorted.series) = [] →
      (processRegion env cfg carry pts pinch cancel).1 = RegionOutcome.noValidSNE ∧
      (regionStep env cfg carry (some pts) pinch cancel).1 = Sum.inl Slot.absent ∧
      ∀ (c : Cancel) (d : Nat) (ds : Dataset K), ds.lower = some pts → ds.pinch = pinch →
        c.sweep d 0 = cancel →
        processDataset env cfg c d carry ds =
          match regionStep env cfg
              { hasNormals := checkNormals carry.hasNormals sorted.series, iid := sorted.iid }
              ds.upper ds.pinch (c.sweep d 1) with
          | (Sum.inr status, carry1) =>
            ({ lower := none, upper := none, status := status }, carry1)
          | (Sum.inl s1, carry1) =>
            ({ lower := none, upper := s1.published, status := Status.completed }, carry1)) ∧
    (sweepWindows sorted.series.length cfg.minsize cfg.maxsize
        (regionBreaks env pts pinch sorted.series) ≠ [] →
      ∃ st, regionSweep env cfg carry.hasNormals pts pinch cancel sorted.series = some st ∧
        (processRegion env cfg carry pts pinch cancel).1 =
          RegionOutcome.stored
            (storeEstimates env.log (sorted.series.map Entry.pid) st.est (loadCloud pts))) := by
  obtain ⟨st, hst⟩ : ∃ st, regionSweep env cfg carry.hasNormals pts pinch cancel
      sorted.series = some st :=
    outerLoop_some _ _ _ _ _ _ _ _ _ (fun lo _ => hc lo)
  have hflag := (sweep_eq_windows _ _ _ _ _ _ _ st hst).2
  have hreg := processRegion_eq_sweep env cfg carry pts pinch cancel axis sorted hN hax hsort
  rw [hst] at hreg
  replace hreg : processRegion env cfg carry pts pinch cancel =
      (if st.hasValidSNE then
          RegionOutcome.stored
            (storeEstimates env.log (sorted.series.map Entry.pid) st.est (loadCloud pts))
        else RegionOutcome.noValidSNE,
        { hasNormals := checkNormals carry.hasNormals sorted.series, iid := sorted.iid }) := hreg
  constructor
  · intro hnil
    rw [hnil] at hflag
    have hv : st.hasValidSNE = false := hflag
    rw [hv, if_neg Bool.false_ne_true] at hreg
    have hstep : regionStep env cfg carry (some pts) pinch cancel =
        (Sum.inl Slot.absent,
          { hasNormals := checkNormals carry.hasNormals sorted.series, iid := sorted.iid }) := by
      simp only [regionStep, hreg]
      rfl
    refine ⟨by rw [hreg], by rw [hstep], fun c d ds hl hp hcs => ?_⟩
    unfold processDataset
    rw [hl, hp, hcs, hstep]
    simp only
    split
    · rfl
    · rename_i s1 carry1 h
      cases s1 <;> rfl
  · intro hne
    refine ⟨st, hst, ?_⟩
    have hv : st.hasValidSNE = true := by
      rw [hflag]
      cases h : sweepWindows sorted.series.length cfg.minsize cfg.maxsize
        (regionBreaks env pts pinch sorted.series) with
      | nil => exact absurd h hne
      | cons _ _ => rfl
    rw [hv, if_pos rfl] at hreg
    rw [hreg]

/-- C11, amended, at a region of 6 points with `minsize = 5`, `maxsize = 50` and one pinch
node whose nearest cloud point is point 2 (sorted position 3): the three windows `[0, 5)`,
`[0, 6)` and `[1, 6)` of the loops all contain position 3, and the region is skipped. -/
theorem region_without_break_free_window_is_skipped_witness :
    (processRegion (K := ℚ)
        { longAxis := fun _ => some ⟨1, 0, 0⟩, nearestIndex := fun _ _ => 2,
          pd := fun _ _ _ => 1, eig3 := fun _ => ⟨0, 0, 1⟩, log := fun x => x,
          neighbour := fun _ _ => (⟨0, 0, 0⟩, 0) }
        { minsize := 5, maxsize := 50, tcDistance := 100, calcThickness := true }
        { hasNormals := true, iid := none }
        [⟨⟨0, 0, 0⟩, ⟨0, 0, 1⟩⟩, ⟨⟨1, 1, 0⟩, ⟨0, 0, 1⟩⟩, ⟨⟨2, 0, 1⟩, ⟨0, 0, 1⟩⟩,
          ⟨⟨3, 1, 0⟩, ⟨0, 0, 1⟩⟩, ⟨⟨4, 0, 0⟩, ⟨0, 0, 1⟩⟩, ⟨⟨5, 1, 1⟩, ⟨0, 0, 1⟩⟩]
        [⟨2, 0, 1⟩] (fun _ => false)).1 = RegionOutcome.noValidSNE :=
  ((region_without_break_free_window_is_skipped (K := ℚ)
    { longAxis := fun _ => some ⟨1, 0, 0⟩, nearestIndex := fun _ _ => 2,
      pd := fun _ _ _ => 1, eig3 := fun _ => ⟨0, 0, 1⟩, log := fun x => x,
      neighbour := fun _ _ => (⟨0, 0, 0⟩, 0) }
    { minsize := 5, maxsize := 50, tcDistance := 100, calcThickness := true }
    { hasNormals := true, iid := none }
    [⟨⟨0, 0, 0⟩, ⟨0, 0, 1⟩⟩, ⟨⟨1, 1, 0⟩, ⟨0, 0, 1⟩⟩, ⟨⟨2, 0, 1⟩, ⟨0, 0, 1⟩⟩,
      ⟨⟨3, 1, 0⟩, ⟨0, 0, 1⟩⟩, ⟨⟨4, 0, 0⟩, ⟨0, 0, 1⟩⟩, ⟨⟨5, 1, 1⟩, ⟨0, 0, 1⟩⟩]
    [⟨2, 0, 1⟩] (fun _ => false) ⟨1, 0, 0⟩
    ⟨[mkEntry 0 0 ⟨⟨0, 0, 0⟩, ⟨0, 0, 1⟩⟩, mkEntry 0 0 ⟨⟨0, 0, 0⟩, ⟨0, 0, 1⟩⟩,
      mkEntry 1 1 ⟨⟨1, 1, 0⟩, ⟨0, 0, 1⟩⟩, mkEntry 2 2 ⟨⟨2, 0, 1⟩, ⟨0, 0, 1⟩⟩,
      mkEntry 3 3 ⟨⟨3, 1, 0⟩, ⟨0, 0, 1⟩⟩, mkEntry 4 4 ⟨⟨4, 0, 0⟩, ⟨0, 0, 1⟩⟩,
      mkEntry 5 5 ⟨⟨5, 1, 1⟩, ⟨0, 0, 1⟩⟩], none⟩
    (by decide) rfl (by norm_num [sortAlongAxis, sortLoop, sortStep, Vec3.dot, mkEntry])
    (fun _ => rfl)).1 (by decide)).1

/-! ### A region without a long axis -/

theorem storeAt_length {K : Type} (log : K → K) (pid : List Nat) (est : List (Estimate K))
    (cloud : List (CloudPoint K)) (p : Nat) :
    (storeAt log pid est cloud p).length = cloud.length := by
  unfold storeAt
  split
  · split
    · exact List.length_set _ _ _
    · rfl
  · rfl

theorem storeLoop_length {K : Type} (log : K → K) (pid : List Nat) (est : List (Estimate K)) :
    ∀ (ps : List Nat) (cloud : List (CloudPoint K)),
      (storeLoop log pid est ps cloud).length = cloud.length
  | [], _ => rfl
  | p :: ps, cloud => by
    rw [storeLoop, storeLoop_length log pid est ps, storeAt_length]

theorem storeEstimates_length {K : Type} (log : K → K) (pid : List Nat)
    (est : List (Estimate K)) (cloud : List (CloudPoint K)) :
    (storeEstimates log pid est cloud).length = cloud.length :=
  storeLoop_length log pid est _ cloud

/-- A region whose long axis cannot be computed keeps its raw cloud: `regions[r]` and
`points[r]` are not set to null (line 1517). -/
theorem regionStep_noAxis {K : Type} [LinearOrderedField K] (env : Env K) (cfg : Config K)
    (carry : Carry) (pts : List (Sample K)) (pinch : List (Vec3 K)) (cancel : Nat → Bool)
    (hN : cfg.minsize ≤ pts.length) (hax : env.longAxis pts = none) :
    regionStep env cfg carry (some pts) pinch cancel =
      (Sum.inl (Slot.raw (loadCloud pts)), carry) := by
  have h : processRegion env cfg carry pts pinch cancel = (RegionOutcome.noAxis, carry) := by
    unfold processRegion
    rw [if_neg (not_lt.2 hN)]
    simp only [hax]
  simp only [regionStep, h, RegionOutcome.toSlot]

/-- A region with a long axis, without pinch nodes, whose series has a window to score and
whose sweep is not cancelled, is stored. -/
theorem regionStep_stored {K : Type} [LinearOrderedField K] (env : Env K) (cfg : Config K)
    (carry : Carry) (pts : List (Sample K)) (cancel : Nat → Bool) (axis : Vec3 K)
    (hN : cfg.minsize ≤ pts.length) (hne : pts ≠ []) (hax : env.longAxis pts = some axis)
    (hc : ∀ lo, cancel lo = false)
    (hw : sweepWindows (pts.length + 1) cfg.minsize cfg.maxsize (fun _ => false) ≠ []) :
    ∃ c1 carry1, regionStep env cfg carry (some pts) [] cancel =
      (Sum.inl (Slot.stored c1), carry1) ∧ c1.length = pts.length := by
  obtain ⟨sorted, hsort, _⟩ := sortAlongAxis_inv axis pts carry.iid hne
  have hlen := sortAlongAxis_length axis pts carry.iid sorted hsort
  obtain ⟨st, hst⟩ : ∃ st, regionSweep env cfg carry.hasNormals pts [] cancel
      sorted.series = some st :=
    outerLoop_some _ _ _ _ _ _ _ _ _ (fun lo _ => hc lo)
  have hflag := (sweep_eq_windows _ _ _ _ _ _ _ st hst).2
  rw [regionBreaks_nil, hlen] at hflag
  have hv : st.hasValidSNE = true := by
    rw [hflag]
    cases h : sweepWindows (pts.length + 1) cfg.minsize cfg.maxsize (fun _ => false) with
    | nil => exact absurd h hw
    | cons _ _ => rfl
  have hreg := processRegion_eq_sweep env cfg carry pts [] cancel axis sorted hN hax hsort
  rw [hst] at hreg
  replace hreg : processRegion env cfg carry pts [] cancel =
      (if st.hasValidSNE then
          RegionOutcome.stored
            (storeEstimates env.log (sorted.series.map Entry.pid) st.est (loadCloud pts))
        else RegionOutcome.noValidSNE,
        { hasNormals := checkNormals carry.hasNormals sorted.series, iid := sorted.iid }) := hreg
  rw [hv, if_pos rfl] at hreg
  refine ⟨storeEstimates env.log (sorted.series.map Entry.pid) st.est (loadCloud pts),
    { hasNormals := checkNormals carry.hasNormals sorted.series, iid := sorted.iid }, ?_, ?_⟩
  · simp only [regionStep, hreg, RegionOutcome.toSlot]
  · rw [storeEstimates_length]
    simp [loadCloud]

/-- The thickness pass of a dataset whose lower region has no long axis and whose upper
region is stored: the pass runs and reads the octree of the raw cloud. -/
theorem processDataset_noAxis_lower {K : Type} [LinearOrderedField K] (env : Env K)
    (cfg : Config K) (c : Cancel) (d : Nat) (carry carry1 : Carry) (ds : Dataset K)
    (pts : List (Sample K)) (c1 : List (CloudPoint K))
    (hl : ds.lower = some pts) (hN : cfg.minsize ≤ pts.length) (hax : env.longAxis pts = none)
    (hup : regionStep env cfg carry ds.upper ds.pinch (c.sweep d 1) =
      (Sum.inl (Slot.stored c1), carry1))
    (ht : cfg.calcThickness = true) (h0 : 0 < pts.length) (h1 : 0 < c1.length)
    (hcan : ∀ p, c.thickness d 0 p = false) :
    processDataset env cfg c d carry ds =
      ({ lower := none, upper := some c1, status := Status.undefinedBehaviour }, carry1) := by
  unfold processDataset
  rw [hl, regionStep_noAxis env cfg carry pts ds.pinch _ hN hax]
  simp only [hup, thicknessPass]
  have hlen : 0 < (loadCloud pts).length := by simpa [loadCloud] using h0
  rw [if_pos ⟨ht, hlen, h1⟩]
  have hnc : (thicknessSurface env cfg (c1.map CloudPoint.pos) (c.thickness d 0)
      (loadCloud pts)).2 = false := by
    unfold thicknessSurface
    exact thicknessLoop_completes env cfg _ _ _ _ (fun p _ => hcan p)
  rw [hnc]
  rfl
/-- C12: the code at a dataset of two surfaces processed with `minsize = 5`, `maxsize = 50`
and thickness asked for. The lower region has 6 points and no long axis (`getLSPlaneX`
returns null), the upper region has 7 points and is stored. The lower region is not
discarded: its slot keeps the raw cloud (the `continue` of line 1517 sets neither
`regions[r]` nor `points[r]` to null), the guard of line 1803 passes and the thickness pass
runs: the run ends reading the octree the raw cloud does not have. -/
theorem thickness_pass_runs_after_failed_long_axis :
    regionStep (K := ℚ)
        { longAxis := fun pts => if pts.length = 6 then none else some ⟨1, 0, 0⟩,
          nearestIndex := fun _ _ => 0, pd := fun _ _ _ => 1, eig3 := fun _ => ⟨0, 0, 1⟩,
          log := fun x => x, neighbour := fun _ _ => (⟨0, 0, 0⟩, 0) }
        { minsize := 5, maxsize := 50, tcDistance := 100, calcThickness := true }
        { hasNormals := true, iid := none }
        (some [⟨⟨0, 0, 0⟩, ⟨0, 0, 1⟩⟩, ⟨⟨1, 1, 0⟩, ⟨0, 0, 1⟩⟩, ⟨⟨2, 0, 1⟩, ⟨0, 0, 1⟩⟩,
          ⟨⟨3, 1, 0⟩, ⟨0, 0, 1⟩⟩, ⟨⟨4, 0, 0⟩, ⟨0, 0, 1⟩⟩, ⟨⟨5, 1, 1⟩, ⟨0, 0, 1⟩⟩]) []
        (fun _ => false) =
      (Sum.inl (Slot.raw (loadCloud
        [⟨⟨0, 0, 0⟩, ⟨0, 0, 1⟩⟩, ⟨⟨1, 1, 0⟩, ⟨0, 0, 1⟩⟩, ⟨⟨2, 0, 1⟩, ⟨0, 0, 1⟩⟩,
          ⟨⟨3, 1, 0⟩, ⟨0, 0, 1⟩⟩, ⟨⟨4, 0, 0⟩, ⟨0, 0, 1⟩⟩, ⟨⟨5, 1, 1⟩, ⟨0, 0, 1⟩⟩])),
        { hasNormals := true, iid := none }) ∧
    ∃ c1, c1.length = 7 ∧
      estimateStructureNormals (K := ℚ)
        { longAxis := fun pts => if pts.length = 6 then none else some ⟨1, 0, 0⟩,
          nearestIndex := fun _ _ => 0, pd := fun _ _ _ => 1, eig3 := fun _ => ⟨0, 0, 1⟩,
          log := fun x => x, neighbour := fun _ _ => (⟨0, 0, 0⟩, 0) }
        { minsize := 5, maxsize := 50, tcDistance := 100, calcThickness := true }
        { dataset := fun _ => false, sweep := fun _ _ _ => false,
          thickness := fun _ _ _ => false }
        [{ lower := some [⟨⟨0, 0, 0⟩, ⟨0, 0, 1⟩⟩, ⟨⟨1, 1, 0⟩, ⟨0, 0, 1⟩⟩,
              ⟨⟨2, 0, 1⟩, ⟨0, 0, 1⟩⟩, ⟨⟨3, 1, 0⟩, ⟨0, 0, 1⟩⟩, ⟨⟨4, 0, 0⟩, ⟨0, 0, 1⟩⟩,
              ⟨⟨5, 1, 1⟩, ⟨0, 0, 1⟩⟩],
            upper := some [⟨⟨0, 0, 9⟩, ⟨0, 0, 1⟩⟩, ⟨⟨1, 1, 9⟩, ⟨0, 0, 1⟩⟩,
              ⟨⟨2, 0, 9⟩, ⟨0, 0, 1⟩⟩, ⟨⟨3, 1, 9⟩, ⟨0, 0, 1⟩⟩, ⟨⟨4, 0, 9⟩, ⟨0, 0, 1⟩⟩,
              ⟨⟨5, 1, 9⟩, ⟨0, 0, 1⟩⟩, ⟨⟨6, 0, 9⟩, ⟨0, 0, 1⟩⟩],
            pinch := [] }] =
        some [{ lower := none, upper := some c1, status := Status.undefinedBehaviour }] := by
  refine ⟨regionStep_noAxis _ _ _ _ _ _ (by decide) rfl, ?_⟩
  obtain ⟨c1, carry1, hup, hlen⟩ := regionStep_stored (K := ℚ)
    { longAxis := fun pts => if pts.length = 6 then none else some ⟨1, 0, 0⟩,
      nearestIndex := fun _ _ => 0, pd := fun _ _ _ => 1, eig3 := fun _ => ⟨0, 0, 1⟩,
      log := fun x => x, neighbour := fun _ _ => (⟨0, 0, 0⟩, 0) }
    { minsize := 5, maxsize := 50, tcDistance := 100, calcThickness := true }
    { hasNormals := true, iid := none }
    [⟨⟨0, 0, 9⟩, ⟨0, 0, 1⟩⟩, ⟨⟨1, 1, 9⟩, ⟨0, 0, 1⟩⟩, ⟨⟨2, 0, 9⟩, ⟨0, 0, 1⟩⟩,
      ⟨⟨3, 1, 9⟩, ⟨0, 0, 1⟩⟩, ⟨⟨4, 0, 9⟩, ⟨0, 0, 1⟩⟩, ⟨⟨5, 1, 9⟩, ⟨0, 0, 1⟩⟩,
      ⟨⟨6, 0, 9⟩, ⟨0, 0, 1⟩⟩]
    (fun _ => false) ⟨1, 0, 0⟩ (by decide) (by simp) rfl (fun _ => rfl) (by decide)
  refine ⟨c1, hlen, ?_⟩
  have hd := processDataset_noAxis_lower (K := ℚ)
    { longAxis := fun pts => if pts.length = 6 then none else some ⟨1, 0, 0⟩,
      nearestIndex := fun _ _ => 0, pd := fun _ _ _ => 1, eig3 := fun _ => ⟨0, 0, 1⟩,
      log := fun x => x, neighbour := fun _ _ => (⟨0, 0, 0⟩, 0) }
    { minsize := 5, maxsize := 50, tcDistance := 100, calcThickness := true }
    { dataset := fun _ => false, sweep := fun _ _ _ => false,
      thickness := fun _ _ _ => false } 0
    { hasNormals := true, iid := none } carry1
    { lower := some [⟨⟨0, 0, 0⟩, ⟨0, 0, 1⟩⟩, ⟨⟨1, 1, 0⟩, ⟨0, 0, 1⟩⟩,
          ⟨⟨2, 0, 1⟩, ⟨0, 0, 1⟩⟩, ⟨⟨3, 1, 0⟩, ⟨0, 0, 1⟩⟩, ⟨⟨4, 0, 0⟩, ⟨0, 0, 1⟩⟩,
          ⟨⟨5, 1, 1⟩, ⟨0, 0, 1⟩⟩],
      upper := some [⟨⟨0, 0, 9⟩, ⟨0, 0, 1⟩⟩, ⟨⟨1, 1, 9⟩, ⟨0, 0, 1⟩⟩,
          ⟨⟨2, 0, 9⟩, ⟨0, 0, 1⟩⟩, ⟨⟨3, 1, 9⟩, ⟨0, 0, 1⟩⟩, ⟨⟨4, 0, 9⟩, ⟨0, 0, 1⟩⟩,
          ⟨⟨5, 1, 9⟩, ⟨0, 0, 1⟩⟩, ⟨⟨6, 0, 9⟩, ⟨0, 0, 1⟩⟩],
      pinch := [] }
    _ c1 rfl (by decide) rfl hup rfl (by decide) (by rw [hlen]; decide) (fun _ => rfl)
  unfold estimateStructureNormals
  rw [if_neg (by decide)]
  simp only [List.foldl, runStep, RunState.init, List.length_nil, Bool.false_eq_true, if_false,
    List.nil_append, hd]

/-! ### What a region takes from the regions before it -/

/-- The outcome of a region, and the flag `hasNormals` it hands on, depend on the variables
handed to it through the flag `hasNormals` only. -/
theorem processRegion_carry {K : Type} [LinearOrderedField K] (env : Env K) (cfg : Config K)
    (c1 c2 : Carry) (h : c1.hasNormals = c2.hasNormals) (pts : List (Sample K))
    (pinch : List (Vec3 K)) (cancel : Nat → Bool) :
    (processRegion env cfg c1 pts pinch cancel).1 =
        (processRegion env cfg c2 pts pinch cancel).1 ∧
      (processRegion env cfg c1 pts pinch cancel).2.hasNormals =
        (processRegion env cfg c2 pts pinch cancel).2.hasNormals := by
  unfold processRegion
  by_cases hN : pts.length < cfg.minsize
  · rw [if_pos hN, if_pos hN]
    exact ⟨rfl, h⟩
  · rw [if_neg hN, if_neg hN]
    cases hax : env.longAxis pts with
    | none => exact ⟨rfl, h⟩
    | some axis =>
      have hind := sortAlongAxis_indep axis pts c1.iid c2.iid
      dsimp only
      cases hs1 : sortAlongAxis axis pts c1.iid with
      | none =>
        cases hs2 : sortAlongAxis axis pts c2.iid with
        | none => exact ⟨rfl, h⟩
        | some s2 => rw [hs1, hs2] at hind; exact Option.noConfusion hind
      | some s1 =>
        cases hs2 : sortAlongAxis axis pts c2.iid with
        | none => rw [hs1, hs2] at hind; exact Option.noConfusion hind
        | some s2 =>
          rw [hs1, hs2] at hind
          have hser : s1.series = s2.series := Option.some.inj hind
          simp only [hser, h]
          split
          · exact ⟨rfl, rfl⟩
          · split <;> exact ⟨rfl, rfl⟩

theorem regionStep_carry {K : Type} [LinearOrderedField K] (env : Env K) (cfg : Config K)
    (c1 c2 : Carry) (h : c1.hasNormals = c2.hasNormals) (region : Option (List (Sample K)))
    (pinch : List (Vec3 K)) (cancel : Nat → Bool) :
    (regionStep env cfg c1 region pinch cancel).1 =
        (regionStep env cfg c2 region pinch cancel).1 ∧
      (regionStep env cfg c1 region pinch cancel).2.hasNormals =
        (regionStep env cfg c2 region pinch cancel).2.hasNormals := by
  cases region with
  | none => exact ⟨rfl, h⟩
  | some pts =>
    obtain ⟨h1, h2⟩ := processRegion_carry env cfg c1 c2 h pts pinch cancel
    unfold regionStep
    simp only [h1]
    split <;> exact ⟨rfl, h2⟩

theorem processDataset_carry {K : Type} [LinearOrderedField K] (env : Env K) (cfg : Config K)
    (cancel : Cancel) (d : Nat) (c1 c2 : Carry) (h : c1.hasNormals = c2.hasNormals)
    (ds : Dataset K) :
    (processDataset env cfg cancel d c1 ds).1 = (processDataset env cfg cancel d c2 ds).1 ∧
      (processDataset env cfg cancel d c1 ds).2.hasNormals =
        (processDataset env cfg cancel d c2 ds).2.hasNormals := by
  obtain ⟨h1, h2⟩ := regionStep_carry env cfg c1 c2 h ds.lower ds.pinch (cancel.sweep d 0)
  unfold processDataset
  rcases hr1 : regionStep env cfg c1 ds.lower ds.pinch (cancel.sweep d 0) with ⟨r1, k1⟩
  rcases hr2 : regionStep env cfg c2 ds.lower ds.pinch (cancel.sweep d 0) with ⟨r2, k2⟩
  rw [hr1, hr2] at h1 h2
  simp only at h1 h2
  subst h1
  cases r1 with
  | inr status => exact ⟨rfl, h2⟩
  | inl s0 =>
    dsimp only
    obtain ⟨h3, h4⟩ := regionStep_carry env cfg k1 k2 h2 ds.upper ds.pinch (cancel.sweep d 1)
    rcases hr3 : regionStep env cfg k1 ds.upper ds.pinch (cancel.sweep d 1) with ⟨r3, k3⟩
    rcases hr4 : regionStep env cfg k2 ds.upper ds.pinch (cancel.sweep d 1) with ⟨r4, k4⟩
    rw [hr3, hr4] at h3 h4
    simp only at h3 h4
    subst h3
    cases r3 with
    | inr status => exact ⟨rfl, h4⟩
    | inl s1 => exact ⟨rfl, h4⟩
/-- Two completed sweeps over the same windows: at a position `p` that lies in a scored
window of positive second score, if every positive first score of a scored window containing
`p` is below the second score of that window, the first stored score is below the second. -/
theorem sweep_bestPd_lt {K : Type} [LinearOrder K] [Zero K] (M minsize maxsize : Nat)
    (brk : Nat → Bool) (s1 s2 : Nat → Nat → K) (n1 n2 : Nat → Nat → Vec3 K)
    (c1 c2 : Nat → Bool) (st1 st2 : SweepState K)
    (h1 : sweep M minsize maxsize brk s1 n1 c1 = some st1)
    (h2 : sweep M minsize maxsize brk s2 n2 c2 = some st2) (p : Nat)
    (hlt : ∀ lo hi, Evaluated M minsize maxsize brk lo hi → lo ≤ p → p < hi →
      0 < s1 lo hi → s1 lo hi < s2 lo hi)
    (hpos : ∃ lo hi, Evaluated M minsize maxsize brk lo hi ∧ lo ≤ p ∧ p < hi ∧ 0 < s2 lo hi)
    (e1 e2 : Estimate K) (he1 : st1.est[p]? = some e1) (he2 : st2.est[p]? = some e2) :
    0 ≤ e1.bestPd ∧ e1.bestPd < e2.bestPd := by
  have b1 := (sweep_best M minsize maxsize brk s1 n1 c1 st1 h1).2 p e1 he1
  have b2 := (sweep_best M minsize maxsize brk s2 n2 c2 st2 h2).2 p e2 he2
  refine ⟨b1.nonneg, ?_⟩
  rcases b1.attained with h | ⟨lo, hi, hs, hlo, hhi, hp, h⟩
  · obtain ⟨lo, hi, hs, hlo, hhi, hp⟩ := hpos
    rw [h]
    exact lt_of_lt_of_le hp (b2.ge lo hi hs hlo hhi)
  · rw [h]
    exact lt_of_lt_of_le (hlt lo hi hs hlo hhi hp) (b2.ge lo hi hs hlo hhi)

/-- A region with a long axis, without pinch nodes, whose series has a window to score and
whose sweep is not cancelled: what is stored, and what is handed on. -/
theorem regionStep_stored_eq {K : Type} [LinearOrderedField K] (env : Env K) (cfg : Config K)
    (carry : Carry) (pts : List (Sample K)) (cancel : Nat → Bool) (axis : Vec3 K)
    (hN : cfg.minsize ≤ pts.length) (hne : pts ≠ []) (hax : env.longAxis pts = some axis)
    (hc : ∀ lo, cancel lo = false)
    (hw : sweepWindows (pts.length + 1) cfg.minsize cfg.maxsize (fun _ => false) ≠ []) :
    ∃ sorted st, sortAlongAxis axis pts carry.iid = some sorted ∧
      regionSweep env cfg carry.hasNormals pts [] cancel sorted.series = some st ∧
      regionStep env cfg carry (some pts) [] cancel =
        (Sum.inl (Slot.stored
          (storeEstimates env.log (sorted.series.map Entry.pid) st.est (loadCloud pts))),
          { hasNormals := checkNormals carry.hasNormals sorted.series, iid := sorted.iid }) := by
  obtain ⟨sorted, hsort, _⟩ := sortAlongAxis_inv axis pts carry.iid hne
  have hlen := sortAlongAxis_length axis pts carry.iid sorted hsort
  obtain ⟨st, hst⟩ : ∃ st, regionSweep env cfg carry.hasNormals pts [] cancel
      sorted.series = some st :=
    outerLoop_some _ _ _ _ _ _ _ _ _ (fun lo _ => hc lo)
  have hflag := (sweep_eq_windows _ _ _ _ _ _ _ st hst).2
  rw [regionBreaks_nil, hlen] at hflag
  have hv : st.hasValidSNE = true := by
    rw [hflag]
    cases h : sweepWindows (pts.length + 1) cfg.minsize cfg.maxsize (fun _ => false) with
    | nil => exact absurd h hw
    | cons _ _ => rfl
  have hreg := processRegion_eq_sweep env cfg carry pts [] cancel axis sorted hN hax hsort
  rw [hst] at hreg
  replace hreg : processRegion env cfg carry pts [] cancel =
      (if st.hasValidSNE then
          RegionOutcome.stored
            (storeEstimates env.log (sorted.series.map Entry.pid) st.est (loadCloud pts))
        else RegionOutcome.noValidSNE,
        { hasNormals := checkNormals carry.hasNormals sorted.series, iid := sorted.iid }) := hreg
  rw [hv, if_pos rfl] at hreg
  refine ⟨sorted, st, hsort, hst, ?_⟩
  simp only [regionStep, hreg, RegionOutcome.toSlot]

/-- A dataset whose lower region is stored and whose upper region is null: its output. -/
theorem processDataset_lower_only {K : Type} [LinearOrderedField K] (env : Env K)
    (cfg : Config K) (c : Cancel) (d : Nat) (carry carry1 : Carry) (pts : List (Sample K))
    (c1 : List (CloudPoint K))
    (h : regionStep env cfg carry (some pts) [] (c.sweep d 0) =
      (Sum.inl (Slot.stored c1), carry1)) :
    processDataset env cfg c d carry { lower := some pts, upper := none, pinch := [] } =
      ({ lower := some c1, upper := none, status := Status.completed }, carry1) := by
  unfold processDataset
  dsimp only
  rw [h]
  rfl
/-- The values stored at cloud index 0 of a cloud of six points for the sorted order
`0, 0, 1, 2, 3, 4, 5`: those of sorted position 1, which overwrite those of position 0. -/
theorem storeEstimates_head {K : Type} (log : K → K) (est : List (Estimate K))
    (hlen : est.length = 7) (e1 : Estimate K) (he1 : est[1]? = some e1)
    (p0 p1 p2 p3 p4 p5 : Sample K) :
    (storeEstimates log [0, 0, 1, 2, 3, 4, 5] est (loadCloud [p0, p1, p2, p3, p4, p5]))[0]? =
      some { pos := p0.pos, nrm := e1.sne,
             sf := some { startPoint := e1.start, endPoint := e1.end_,
                          segmentID := e1.segmentID, weight := log e1.bestPd },
             thickness := none } := by
  match est, hlen with
  | [a0, a1, a2, a3, a4, a5, a6], _ =>
    simp only [List.getElem?_cons_succ, List.getElem?_cons_zero, Option.some.injEq] at he1
    subst he1
    simp [storeEstimates, storeLoop, storeAt, loadCloud, List.range, List.range.loop]

/-- The region of six points with sampled normal `(0,0,1)`, swept with `minsize = 5` and
`maxsize = 50` along the axis `(1,0,0)`: what it stores at cloud index 0 when it is reached
with `hasNormals` true and when it is reached with `hasNormals` false. -/
theorem regionStep_weight_depends_on_hasNormals (env : Env ℝ) (sB : SortState ℝ)
    (haxB : env.longAxis
      [⟨⟨0, 0, 0⟩, ⟨0, 0, 1⟩⟩, ⟨⟨1, 1, 0⟩, ⟨0, 0, 1⟩⟩, ⟨⟨2, 0, 1⟩, ⟨0, 0, 1⟩⟩,
        ⟨⟨3, 1, 0⟩, ⟨0, 0, 1⟩⟩, ⟨⟨4, 0, 0⟩, ⟨0, 0, 1⟩⟩, ⟨⟨5, 1, 1⟩, ⟨0, 0, 1⟩⟩] =
      some ⟨1, 0, 0⟩)
    (hsB : sortAlongAxis ⟨1, 0, 0⟩
      [⟨⟨0, 0, 0⟩, ⟨0, 0, 1⟩⟩, ⟨⟨1, 1, 0⟩, ⟨0, 0, 1⟩⟩, ⟨⟨2, 0, 1⟩, ⟨0, 0, 1⟩⟩,
        ⟨⟨3, 1, 0⟩, ⟨0, 0, 1⟩⟩, ⟨⟨4, 0, 0⟩, ⟨0, 0, 1⟩⟩, ⟨⟨5, 1, 1⟩, ⟨0, 0, 1⟩⟩] none = some sB)
    (hpos : 0 < env.pd false 44 (window sB.series 0 6))
    (hprior : ∀ lo hi, lo + 5 ≤ hi → hi < 7 → 0 < env.pd true 44 (window sB.series lo hi) →
      env.pd true 44 (window sB.series lo hi) < env.pd false 44 (window sB.series lo hi)) :
    ∃ (cT cF : List (CloudPoint ℝ)) (eT eF : Estimate ℝ),
      regionStep env { minsize := 5, maxsize := 50, tcDistance := 100, calcThickness := false }
          { hasNormals := true, iid := none }
          (some [⟨⟨0, 0, 0⟩, ⟨0, 0, 1⟩⟩, ⟨⟨1, 1, 0⟩, ⟨0, 0, 1⟩⟩, ⟨⟨2, 0, 1⟩, ⟨0, 0, 1⟩⟩,
            ⟨⟨3, 1, 0⟩, ⟨0, 0, 1⟩⟩, ⟨⟨4, 0, 0⟩, ⟨0, 0, 1⟩⟩, ⟨⟨5, 1, 1⟩, ⟨0, 0, 1⟩⟩]) []
          (fun _ => false) =
        (Sum.inl (Slot.stored cT), { hasNormals := true, iid := none }) ∧
      regionStep env { minsize := 5, maxsize := 50, tcDistance := 100, calcThickness := false }
          { hasNormals := false, iid := none }
          (some [⟨⟨0, 0, 0⟩, ⟨0, 0, 1⟩⟩, ⟨⟨1, 1, 0⟩, ⟨0, 0, 1⟩⟩, ⟨⟨2, 0, 1⟩, ⟨0, 0, 1⟩⟩,
            ⟨⟨3, 1, 0⟩, ⟨0, 0, 1⟩⟩, ⟨⟨4, 0, 0⟩, ⟨0, 0, 1⟩⟩, ⟨⟨5, 1, 1⟩, ⟨0, 0, 1⟩⟩]) []
          (fun _ => false) =
        (Sum.inl (Slot.stored cF), { hasNormals := false, iid := none }) ∧
      cT[0]? = some { pos := ⟨0, 0, 0⟩, nrm := eT.sne,
                      sf := some { startPoint := eT.start, endPoint := eT.end_,
                                   segmentID := eT.segmentID, weight := env.log eT.bestPd },
                      thickness := none } ∧
      cF[0]? = some { pos := ⟨0, 0, 0⟩, nrm := eF.sne,
                      sf := some { startPoint := eF.start, endPoint := eF.end_,
                                   segmentID := eF.segmentID, weight := env.log eF.bestPd },
                      thickness := none } ∧
      0 ≤ eT.bestPd ∧ eT.bestPd < eF.bestPd := by
  obtain ⟨sT, stT, hsT, hswT, hregT⟩ := regionStep_stored_eq env
    { minsize := 5, maxsize := 50, tcDistance := 100, calcThickness := false }
    { hasNormals := true, iid := none }
    [⟨⟨0, 0, 0⟩, ⟨0, 0, 1⟩⟩, ⟨⟨1, 1, 0⟩, ⟨0, 0, 1⟩⟩, ⟨⟨2, 0, 1⟩, ⟨0, 0, 1⟩⟩,
      ⟨⟨3, 1, 0⟩, ⟨0, 0, 1⟩⟩, ⟨⟨4, 0, 0⟩, ⟨0, 0, 1⟩⟩, ⟨⟨5, 1, 1⟩, ⟨0, 0, 1⟩⟩]
    (fun _ => false) ⟨1, 0, 0⟩ (by decide) (by simp) haxB (fun _ => rfl) (by decide)
  obtain ⟨sF, stF, hsF, hswF, hregF⟩ := regionStep_stored_eq env
    { minsize := 5, maxsize := 50, tcDistance := 100, calcThickness := false }
    { hasNormals := false, iid := none }
    [⟨⟨0, 0, 0⟩, ⟨0, 0, 1⟩⟩, ⟨⟨1, 1, 0⟩, ⟨0, 0, 1⟩⟩, ⟨⟨2, 0, 1⟩, ⟨0, 0, 1⟩⟩,
      ⟨⟨3, 1, 0⟩, ⟨0, 0, 1⟩⟩, ⟨⟨4, 0, 0⟩, ⟨0, 0, 1⟩⟩, ⟨⟨5, 1, 1⟩, ⟨0, 0, 1⟩⟩]
    (fun _ => false) ⟨1, 0, 0⟩ (by decide) (by simp) haxB (fun _ => rfl) (by decide)
  have e1 : sT = sB := Option.some.inj (hsT.symm.trans hsB)
  have e2 : sF = sB := Option.some.inj (hsF.symm.trans hsB)
  subst e1
  subst e2
  clear hsF
  norm_num [sortAlongAxis, sortLoop, sortStep, Vec3.dot, mkEntry] at hsT
  subst hsT
  have hcT : checkNormals (K := ℝ) true
      [{ pid := 0, dist := 0, px := 0, py := 0, pz := 0, nx := 0, ny := 0, nz := 1 },
        { pid := 0, dist := 0, px := 0, py := 0, pz := 0, nx := 0, ny := 0, nz := 1 },
        { pid := 1, dist := 1, px := 1, py := 1, pz := 0, nx := 0, ny := 0, nz := 1 },
        { pid := 2, dist := 2, px := 2, py := 0, pz := 1, nx := 0, ny := 0, nz := 1 },
        { pid := 3, dist := 3, px := 3, py := 1, pz := 0, nx := 0, ny := 0, nz := 1 },
        { pid := 4, dist := 4, px := 4, py := 0, pz := 0, nx := 0, ny := 0, nz := 1 },
        { pid := 5, dist := 5, px := 5, py := 1, pz := 1, nx := 0, ny := 0, nz := 1 }] = true := by
    norm_num [checkNormals]
  have hcF : ∀ l : List (Entry ℝ), checkNormals false l = false := fun l => rfl
  unfold regionSweep at hswT hswF
  rw [regionBreaks_nil] at hswT hswF
  dsimp only at hswT hswF hregT hregF hpos hprior
  rw [hcT] at hswT hregT
  rw [hcF] at hswF hregF
  simp only [List.length_cons, List.length_nil, List.map_cons, List.map_nil, Nat.reduceAdd]
    at hswT hswF hregT hregF
  norm_num only at hswT hswF
  obtain ⟨hlenT, _⟩ := sweep_best _ _ _ _ _ _ _ stT hswT
  obtain ⟨hlenF, _⟩ := sweep_best _ _ _ _ _ _ _ stF hswF
  obtain ⟨eT, heT⟩ : ∃ e, stT.est[1]? = some e :=
    ⟨stT.est[1], List.getElem?_eq_getElem (by omega)⟩
  obtain ⟨eF, heF⟩ : ∃ e, stF.est[1]? = some e :=
    ⟨stF.est[1], List.getElem?_eq_getElem (by omega)⟩
  have hcmp := sweep_bestPd_lt 7 5 50 (fun _ => false) _ _ _ _ _ _ stT stF hswT hswF 1
    (fun lo hi hev _ _ hp => by
      have := (evaluated_iff 7 5 50 (fun _ => false) lo hi (by norm_num) (by norm_num)).1 hev
      exact hprior lo hi this.2.1 this.2.2.1 hp)
    ⟨0, 6, (evaluated_iff 7 5 50 (fun _ => false) 0 6 (by norm_num) (by norm_num)).2
      ⟨by decide, by decide, by decide, by decide, fun _ _ _ => rfl⟩, by decide, by decide,
      hpos⟩ eT eF heT heF
  refine ⟨_, _, eT, eF, hregT, hregF, ?_, ?_, hcmp⟩
  · exact storeEstimates_head env.log stT.est hlenT eT heT _ _ _ _ _ _
  · exact storeEstimates_head env.log stF.est hlenF eF heF _ _ _ _ _ _

/-- C17, as stated, fails. With `minsize = 5` and `maxsize = 50`, the region `B` of six
points with sampled normal `(0,0,1)` is processed alone, and after the region `A` of six
points whose sampled normals are zero; both are sorted along `(1,0,0)`. The normals check of
`A` gives false, that of `B` alone true. Take any scorer whose posterior without the prior is
positive on the window `[0, 6)` of `B` and whose posterior with the prior, where it is
positive, is below the one without it on every window of `B` the sweep scores (line 1735
multiplies by the prior, which is at most `1/(2π)`), and any logarithm that takes different
values at `x` and `y` when `0 ≤ x < y`. Alone, `B` is scored with the prior; after `A`, which
has set `hasNormals` to false for the rest of the run (line 1600), the same region with the
same configuration is scored without it: the `Weight` stored at its cloud index 0 is the
logarithm of a larger score, and the two clouds stored for `B` differ. -/
theorem region_estimates_depend_on_earlier_regions :
    (∃ sA, sortAlongAxis (K := ℝ) ⟨1, 0, 0⟩
        [⟨⟨0, 0, 5⟩, ⟨0, 0, 0⟩⟩, ⟨⟨1, 1, 5⟩, ⟨0, 0, 0⟩⟩, ⟨⟨2, 0, 6⟩, ⟨0, 0, 0⟩⟩,
          ⟨⟨3, 1, 5⟩, ⟨0, 0, 0⟩⟩, ⟨⟨4, 0, 5⟩, ⟨0, 0, 0⟩⟩, ⟨⟨5, 1, 6⟩, ⟨0, 0, 0⟩⟩] none =
        some sA ∧ checkNormals true sA.series = false) ∧
    (∃ sB, sortAlongAxis (K := ℝ) ⟨1, 0, 0⟩
        [⟨⟨0, 0, 0⟩, ⟨0, 0, 1⟩⟩, ⟨⟨1, 1, 0⟩, ⟨0, 0, 1⟩⟩, ⟨⟨2, 0, 1⟩, ⟨0, 0, 1⟩⟩,
          ⟨⟨3, 1, 0⟩, ⟨0, 0, 1⟩⟩, ⟨⟨4, 0, 0⟩, ⟨0, 0, 1⟩⟩, ⟨⟨5, 1, 1⟩, ⟨0, 0, 1⟩⟩] none =
        some sB ∧ checkNormals true sB.series = true) ∧
    ∀ (env : Env ℝ) (sB : SortState ℝ),
      env.longAxis
        [⟨⟨0, 0, 5⟩, ⟨0, 0, 0⟩⟩, ⟨⟨1, 1, 5⟩, ⟨0, 0, 0⟩⟩, ⟨⟨2, 0, 6⟩, ⟨0, 0, 0⟩⟩,
          ⟨⟨3, 1, 5⟩, ⟨0, 0, 0⟩⟩, ⟨⟨4, 0, 5⟩, ⟨0, 0, 0⟩⟩, ⟨⟨5, 1, 6⟩, ⟨0, 0, 0⟩⟩] =
        some ⟨1, 0, 0⟩ →
      env.longAxis
        [⟨⟨0, 0, 0⟩, ⟨0, 0, 1⟩⟩, ⟨⟨1, 1, 0⟩, ⟨0, 0, 1⟩⟩, ⟨⟨2, 0, 1⟩, ⟨0, 0, 1⟩⟩,
          ⟨⟨3, 1, 0⟩, ⟨0, 0, 1⟩⟩, ⟨⟨4, 0, 0⟩, ⟨0, 0, 1⟩⟩, ⟨⟨5, 1, 1⟩, ⟨0, 0, 1⟩⟩] =
        some ⟨1, 0, 0⟩ →
      sortAlongAxis ⟨1, 0, 0⟩
        [⟨⟨0, 0, 0⟩, ⟨0, 0, 1⟩⟩, ⟨⟨1, 1, 0⟩, ⟨0, 0, 1⟩⟩, ⟨⟨2, 0, 1⟩, ⟨0, 0, 1⟩⟩,
          ⟨⟨3, 1, 0⟩, ⟨0, 0, 1⟩⟩, ⟨⟨4, 0, 0⟩, ⟨0, 0, 1⟩⟩, ⟨⟨5, 1, 1⟩, ⟨0, 0, 1⟩⟩] none =
        some sB →
      0 < env.pd false 44 (window sB.series 0 6) →
      (∀ lo hi, lo + 5 ≤ hi → hi < 7 → 0 < env.pd true 44 (window sB.series lo hi) →
        env.pd true 44 (window sB.series lo hi) < env.pd false 44 (window sB.series lo hi)) →
      (∀ x y, 0 ≤ x → x < y → env.log x ≠ env.log y) →
      ∃ (outA : DatasetOut ℝ) (cT cF : List (CloudPoint ℝ)) (eT eF : Estimate ℝ),
        estimateStructureNormals env
            { minsize := 5, maxsize := 50, tcDistance := 100, calcThickness := false }
            { dataset := fun _ => false, sweep := fun _ _ _ => false,
              thickness := fun _ _ _ => false }
            [{ lower := some [⟨⟨0, 0, 0⟩, ⟨0, 0, 1⟩⟩, ⟨⟨1, 1, 0⟩, ⟨0, 0, 1⟩⟩,
                  ⟨⟨2, 0, 1⟩, ⟨0, 0, 1⟩⟩, ⟨⟨3, 1, 0⟩, ⟨0, 0, 1⟩⟩, ⟨⟨4, 0, 0⟩, ⟨0, 0, 1⟩⟩,
                  ⟨⟨5, 1, 1⟩, ⟨0, 0, 1⟩⟩],
               upper := none, pinch := [] }] =
          some [{ lower := some cT, upper := none, status := Status.completed }] ∧
        estimateStructureNormals env
            { minsize := 5, maxsize := 50, tcDistance := 100, calcThickness := false }
            { dataset := fun _ => false, sweep := fun _ _ _ => false,
              thickness := fun _ _ _ => false }
            [{ lower := some [⟨⟨0, 0, 5⟩, ⟨0, 0, 0⟩⟩, ⟨⟨1, 1, 5⟩, ⟨0, 0, 0⟩⟩,
                  ⟨⟨2, 0, 6⟩, ⟨0, 0, 0⟩⟩, ⟨⟨3, 1, 5⟩, ⟨0, 0, 0⟩⟩, ⟨⟨4, 0, 5⟩, ⟨0, 0, 0⟩⟩,
                  ⟨⟨5, 1, 6⟩, ⟨0, 0, 0⟩⟩],
               upper := none, pinch := [] },
             { lower := some [⟨⟨0, 0, 0⟩, ⟨0, 0, 1⟩⟩, ⟨⟨1, 1, 0⟩, ⟨0, 0, 1⟩⟩,
                  ⟨⟨2, 0, 1⟩, ⟨0, 0, 1⟩⟩, ⟨⟨3, 1, 0⟩, ⟨0, 0, 1⟩⟩, ⟨⟨4, 0, 0⟩, ⟨0, 0, 1⟩⟩,
                  ⟨⟨5, 1, 1⟩, ⟨0, 0, 1⟩⟩],
               upper := none, pinch := [] }] =
          some [outA, { lower := some cF, upper := none, status := Status.completed }] ∧
        cT[0]? = some { pos := ⟨0, 0, 0⟩, nrm := eT.sne,
                        sf := some { startPoint := eT.start, endPoint := eT.end_,
                                     segmentID := eT.segmentID, weight := env.log eT.bestPd },
                        thickness := none } ∧
        cF[0]? = some { pos := ⟨0, 0, 0⟩, nrm := eF.sne,
                        sf := some { startPoint := eF.start, endPoint := eF.end_,
                                     segmentID := eF.segmentID, weight := env.log eF.bestPd },
                        thickness := none } ∧
        0 ≤ eT.bestPd ∧ eT.bestPd < eF.bestPd ∧ env.log eT.bestPd ≠ env.log eF.bestPd ∧
        cT ≠ cF := by
  refine ⟨?_, ?_, ?_⟩
  · obtain ⟨sA, hsA, _⟩ := sortAlongAxis_inv (K := ℝ) ⟨1, 0, 0⟩
      [⟨⟨0, 0, 5⟩, ⟨0, 0, 0⟩⟩, ⟨⟨1, 1, 5⟩, ⟨0, 0, 0⟩⟩, ⟨⟨2, 0, 6⟩, ⟨0, 0, 0⟩⟩,
        ⟨⟨3, 1, 5⟩, ⟨0, 0, 0⟩⟩, ⟨⟨4, 0, 5⟩, ⟨0, 0, 0⟩⟩, ⟨⟨5, 1, 6⟩, ⟨0, 0, 0⟩⟩] none (by simp)
    refine ⟨sA, hsA, ?_⟩
    norm_num [sortAlongAxis, sortLoop, sortStep, Vec3.dot, mkEntry] at hsA
    subst hsA
    norm_num [checkNormals]
  · obtain ⟨sB, hsB, _⟩ := sortAlongAxis_inv (K := ℝ) ⟨1, 0, 0⟩
      [⟨⟨0, 0, 0⟩, ⟨0, 0, 1⟩⟩, ⟨⟨1, 1, 0⟩, ⟨0, 0, 1⟩⟩, ⟨⟨2, 0, 1⟩, ⟨0, 0, 1⟩⟩,
        ⟨⟨3, 1, 0⟩, ⟨0, 0, 1⟩⟩, ⟨⟨4, 0, 0⟩, ⟨0, 0, 1⟩⟩, ⟨⟨5, 1, 1⟩, ⟨0, 0, 1⟩⟩] none (by simp)
    refine ⟨sB, hsB, ?_⟩
    norm_num [sortAlongAxis, sortLoop, sortStep, Vec3.dot, mkEntry] at hsB
    subst hsB
    norm_num [checkNormals]
  intro env sB haxA haxB hsB hpos hprior hlog
  obtain ⟨cT, cF, eT, eF, hregT, hregF, hT, hF, h0, hlt⟩ :=
    regionStep_weight_depends_on_hasNormals env sB haxB hsB hpos hprior
  obtain ⟨sA, stA, hsA, _, hregA⟩ := regionStep_stored_eq env
    { minsize := 5, maxsize := 50, tcDistance := 100, calcThickness := false }
    { hasNormals := true, iid := none }
    [⟨⟨0, 0, 5⟩, ⟨0, 0, 0⟩⟩, ⟨⟨1, 1, 5⟩, ⟨0, 0, 0⟩⟩, ⟨⟨2, 0, 6⟩, ⟨0, 0, 0⟩⟩,
      ⟨⟨3, 1, 5⟩, ⟨0, 0, 0⟩⟩, ⟨⟨4, 0, 5⟩, ⟨0, 0, 0⟩⟩, ⟨⟨5, 1, 6⟩, ⟨0, 0, 0⟩⟩]
    (fun _ => false) ⟨1, 0, 0⟩ (by decide) (by simp) haxA (fun _ => rfl) (by decide)
  norm_num [sortAlongAxis, sortLoop, sortStep, Vec3.dot, mkEntry] at hsA
  subst hsA
  have hcA : checkNormals (K := ℝ) true
      [{ pid := 0, dist := 0, px := 0, py := 0, pz := 5, nx := 0, ny := 0, nz := 0 },
        { pid := 0, dist := 0, px := 0, py := 0, pz := 5, nx := 0, ny := 0, nz := 0 },
        { pid := 1, dist := 1, px := 1, py := 1, pz := 5, nx := 0, ny := 0, nz := 0 },
        { pid := 2, dist := 2, px := 2, py := 0, pz := 6, nx := 0, ny := 0, nz := 0 },
        { pid := 3, dist := 3, px := 3, py := 1, pz := 5, nx := 0, ny := 0, nz := 0 },
        { pid := 4, dist := 4, px := 4, py := 0, pz := 5, nx := 0, ny := 0, nz := 0 },
        { pid := 5, dist := 5, px := 5, py := 1, pz := 6, nx := 0, ny := 0, nz := 0 }] = false := by
    norm_num [checkNormals]
  dsimp only at hregA
  rw [hcA] at hregA
  generalize storeEstimates env.log _ stA.est _ = cA at hregA
  have hdT := processDataset_lower_only env _
    { dataset := fun _ => false, sweep := fun _ _ _ => false, thickness := fun _ _ _ => false }
    0 _ _ _ cT hregT
  have hdA := processDataset_lower_only env _
    { dataset := fun _ => false, sweep := fun _ _ _ => false, thickness := fun _ _ _ => false }
    0 _ _ _ cA hregA
  have hdF := processDataset_lower_only env _
    { dataset := fun _ => false, sweep := fun _ _ _ => false, thickness := fun _ _ _ => false }
    1 _ _ _ cF hregF
  have hne : env.log eT.bestPd ≠ env.log eF.bestPd := hlog _ _ h0 hlt
  refine ⟨{ lower := some cA, upper := none, status := Status.completed }, cT, cF, eT, eF,
    ?_, ?_, hT, hF, h0, hlt, hne, ?_⟩
  · unfold estimateStructureNormals
    rw [if_neg (by decide)]
    simp only [List.foldl, runStep, RunState.init, List.length_nil, Bool.false_eq_true, if_false,
      List.nil_append, hdT]
  · unfold estimateStructureNormals
    rw [if_neg (by decide)]
    simp only [List.foldl, runStep, RunState.init, List.length_nil, Bool.false_eq_true, if_false,
      List.nil_append, hdA, ne_eq, not_true_eq_false, decide_False, List.length_singleton,
      List.length_cons, Nat.reduceAdd, zero_add, hdF, List.singleton_append]
  · intro h
    rw [h, hF] at hT
    simp only [Option.some.injEq, CloudPoint.mk.injEq, ScalarValues.mk.injEq] at hT
    exact hne hT.2.2.1.2.2.2.symm

theorem processDataset_congr {K : Type} [LinearOrderedField K] (env : Env K) (cfg : Config K)
    (cancel : Cancel) (d d' : Nat) (carry : Carry) (ds : Dataset K)
    (hs : cancel.sweep d = cancel.sweep d') (ht : cancel.thickness d = cancel.thickness d') :
    processDataset env cfg cancel d carry ds = processDataset env cfg cancel d' carry ds := by
  unfold processDataset
  rw [hs, ht]

/-- A run that has not left the loop processes the next dataset and appends its output. -/
theorem run_append_one {K : Type} [LinearOrderedField K] (env : Env K) (cfg : Config K)
    (cancel : Cancel) (pre : List (Dataset K)) (ds : Dataset K)
    (hcfg : ¬ cfg.maxsize < cfg.minsize)
    (hrun : (pre.foldl (runStep env cfg cancel) RunState.init).halted = false)
    (hds : cancel.dataset (pre.foldl (runStep env cfg cancel) RunState.init).outs.length =
      false) :
    estimateStructureNormals env cfg cancel (pre ++ [ds]) =
      some ((pre.foldl (runStep env cfg cancel) RunState.init).outs ++
        [(processDataset env cfg cancel
          (pre.foldl (runStep env cfg cancel) RunState.init).outs.length
          (pre.foldl (runStep env cfg cancel) RunState.init).carry ds).1]) := by
  unfold estimateStructureNormals
  rw [if_neg hcfg, List.foldl_append]
  generalize pre.foldl (runStep env cfg cancel) RunState.init = s at hrun hds
  simp only [List.foldl, runStep, hrun, hds, Bool.false_eq_true, if_false]

/-- C17, amended. What a region gets depends on its own points, sampled normals and pinch
nodes, on the configuration, and on one thing handed on by the regions processed before it:
the flag `hasNormals` (true at the start of a run, false from the first region on whose
first sorted point has a zero sampled normal). Two states of the run that agree on
`hasNormals` give a region the same outcome and a dataset the same output. Hence, when a run
reaches a dataset with `hasNormals` still true, under the same cancellation answers, the
output of the dataset is the output of the run on that dataset alone. -/
theorem region_estimates_depend_on_hasNormals_only {K : Type} [LinearOrderedField K]
    (env : Env K) (cfg : Config K) (c1 c2 : Carry) (h : c1.hasNormals = c2.hasNormals) :
    (∀ (region : Option (List (Sample K))) (pinch : List (Vec3 K)) (cancel : Nat → Bool),
      (regionStep env cfg c1 region pinch cancel).1 =
        (regionStep env cfg c2 region pinch cancel).1) ∧
    (∀ (cancel : Cancel) (d : Nat) (ds : Dataset K),
      (processDataset env cfg cancel d c1 ds).1 = (processDataset env cfg cancel d c2 ds).1) ∧
    (∀ (cancel : Cancel) (pre : List (Dataset K)) (ds : Dataset K),
      ¬ cfg.maxsize < cfg.minsize →
      (pre.foldl (runStep env cfg cancel) RunState.init).halted = false →
      (pre.foldl (runStep env cfg cancel) RunState.init).carry.hasNormals = true →
      cancel.dataset (pre.foldl (runStep env cfg cancel) RunState.init).outs.length = false →
      cancel.dataset 0 = false →
      cancel.sweep (pre.foldl (runStep env cfg cancel) RunState.init).outs.length =
        cancel.sweep 0 →
      cancel.thickness (pre.foldl (runStep env cfg cancel) RunState.init).outs.length =
        cancel.thickness 0 →
      ∃ out, estimateStructureNormals env cfg cancel [ds] = some [out] ∧
        estimateStructureNormals env cfg cancel (pre ++ [ds]) =
          some ((pre.foldl (runStep env cfg cancel) RunState.init).outs ++ [out])) := by
  refine ⟨fun region pinch cancel => (regionStep_carry env cfg c1 c2 h region pinch cancel).1,
    fun cancel d ds => (processDataset_carry env cfg cancel d c1 c2 h ds).1,
    fun cancel pre ds hcfg hrun hn hds hd0 hs ht => ?_⟩
  refine ⟨(processDataset env cfg cancel 0 (RunState.init : RunState K).carry ds).1, ?_, ?_⟩
  · exact run_append_one env cfg cancel [] ds hcfg rfl hd0
  · rw [run_append_one env cfg cancel pre ds hcfg hrun hds,
      processDataset_congr env cfg cancel _ 0 _ ds hs ht,
      (processDataset_carry env cfg cancel 0 _ (RunState.init : RunState K).carry hn ds).1]

/-- C17, amended, at the region `B` of six points with sampled normal `(0,0,1)`, with
`minsize = 5` and `maxsize = 50`: reached with `hasNormals` true and `iid = 3`, it has the
outcome it has at the start of a run. -/
theorem region_estimates_depend_on_hasNormals_only_witness :
    (regionStep (K := ℚ)
        { longAxis := fun _ => some ⟨1, 0, 0⟩, nearestIndex := fun _ _ => 0,
          pd := fun hasNormals _ _ => if hasNormals then 1 / 10 else 1,
          eig3 := fun _ => ⟨0, 1, 0⟩, log := fun x => x,
          neighbour := fun _ _ => (⟨0, 0, 0⟩, 0) }
        { minsize := 5, maxsize := 50, tcDistance := 100, calcThickness := false }
        { hasNormals := true, iid := some 3 }
        (some [⟨⟨0, 0, 0⟩, ⟨0, 0, 1⟩⟩, ⟨⟨1, 1, 0⟩, ⟨0, 0, 1⟩⟩, ⟨⟨2, 0, 1⟩, ⟨0, 0, 1⟩⟩,
          ⟨⟨3, 1, 0⟩, ⟨0, 0, 1⟩⟩, ⟨⟨4, 0, 0⟩, ⟨0, 0, 1⟩⟩, ⟨⟨5, 1, 1⟩, ⟨0, 0, 1⟩⟩]) []
        (fun _ => false)).1 =
      (regionStep (K := ℚ)
        { longAxis := fun _ => some ⟨1, 0, 0⟩, nearestIndex := fun _ _ => 0,
          pd := fun hasNormals _ _ => if hasNormals then 1 / 10 else 1,
          eig3 := fun _ => ⟨0, 1, 0⟩, log := fun x => x,
          neighbour := fun _ _ => (⟨0, 0, 0⟩, 0) }
        { minsize := 5, maxsize := 50, tcDistance := 100, calcThickness := false }
        (RunState.init : RunState ℚ).carry
        (some [⟨⟨0, 0, 0⟩, ⟨0, 0, 1⟩⟩, ⟨⟨1, 1, 0⟩, ⟨0, 0, 1⟩⟩, ⟨⟨2, 0, 1⟩, ⟨0, 0, 1⟩⟩,
          ⟨⟨3, 1, 0⟩, ⟨0, 0, 1⟩⟩, ⟨⟨4, 0, 0⟩, ⟨0, 0, 1⟩⟩, ⟨⟨5, 1, 1⟩, ⟨0, 0, 1⟩⟩]) []
        (fun _ => false)).1 :=
  (region_estimates_depend_on_hasNormals_only (K := ℚ)
    { longAxis := fun _ => some ⟨1, 0, 0⟩, nearestIndex := fun _ _ => 0,
      pd := fun hasNormals _ _ => if hasNormals then 1 / 10 else 1,
      eig3 := fun _ => ⟨0, 1, 0⟩, log := fun x => x,
      neighbour := fun _ _ => (⟨0, 0, 0⟩, 0) }
    { minsize := 5, maxsize := 50, tcDistance := 100, calcThickness := false }
    { hasNormals := true, iid := some 3 } (RunState.init : RunState ℚ).carry rfl).1
    (some [⟨⟨0, 0, 0⟩, ⟨0, 0, 1⟩⟩, ⟨⟨1, 1, 0⟩, ⟨0, 0, 1⟩⟩, ⟨⟨2, 0, 1⟩, ⟨0, 0, 1⟩⟩,
      ⟨⟨3, 1, 0⟩, ⟨0, 0, 1⟩⟩, ⟨⟨4, 0, 0⟩, ⟨0, 0, 1⟩⟩, ⟨⟨5, 1, 1⟩, ⟨0, 0, 1⟩⟩]) []
    (fun _ => false)

/-! ### The orientation angles -/

theorem whileLoop_of_not {α : Type} (c : α → Prop) [DecidablePred c] (f : α → α)
    (fuel : Nat) (x : α) (h : ¬ c x) : whileLoop c f fuel x = some x := by
  cases fuel <;> simp [whileLoop, h]

theorem whileLoop_one {α : Type} (c : α → Prop) [DecidablePred c] (f : α → α)
    (fuel : Nat) (x : α) (h : c x) (h' : ¬ c (f x)) :
    whileLoop c f (fuel + 1) x = some (f x) := by
  rw [whileLoop, if_pos h, whileLoop_of_not c f fuel (f x) h']

theorem asin_of_mem (x : ℝ) (h1 : -1 ≤ x) (h2 : x ≤ 1) : asin x = some (Real.arcsin x) := by
  unfold asin
  rw [if_pos ⟨h1, h2⟩]

theorem atan2_mem (y x : ℝ) : -Real.pi < atan2 y x ∧ atan2 y x ≤ Real.pi :=
  ⟨Complex.neg_pi_lt_arg _, Complex.arg_le_pi _⟩

theorem atan2_eq_pi_iff (y x : ℝ) : atan2 y x = Real.pi ↔ x < 0 ∧ y = 0 := by
  unfold atan2
  rw [Complex.arg_eq_pi_iff]

/-- The trend and plunge of a vector whose third coordinate is in `[-1, 1]`: the loops end
within one round each, and the values are these. -/
theorem trendPlunge_eq (fuel : Nat) (v : Vec3 ℝ) (h1 : -1 ≤ v.z) (h2 : v.z ≤ 1) :
    trendPlunge (fuel + 1) v =
      some (if 0 < v.z then atan2 v.x v.y + Real.pi
            else if atan2 v.x v.y < 0 then atan2 v.x v.y + 2 * Real.pi else atan2 v.x v.y,
          |Real.arcsin v.z|) := by
  have hpi := Real.pi_pos
  obtain ⟨ha1, ha2⟩ := atan2_mem v.x v.y
  unfold trendPlunge
  rw [asin_of_mem v.z h1 h2]
  dsimp only
  by_cases hz : 0 < v.z
  · have hneg : -Real.arcsin v.z < 0 := by
      have := Real.arcsin_pos.2 hz
      linarith
    have habs : |Real.arcsin v.z| = Real.arcsin v.z := abs_of_pos (Real.arcsin_pos.2 hz)
    rw [if_pos hneg, if_pos hneg, if_pos hz, neg_neg, habs,
      whileLoop_of_not (fun x : ℝ => x < 0) (fun x => x + 2 * Real.pi) _ _ (by simp only [not_lt]; linarith)]
    dsimp only
    rw [whileLoop_of_not (fun x : ℝ => x > 2 * Real.pi) (fun x => x - 2 * Real.pi) _ _ (by simp only [gt_iff_lt, not_lt]; linarith)]
  · have hnn : ¬ (-Real.arcsin v.z < 0) := by
      have := Real.arcsin_nonpos.2 (not_lt.1 hz)
      linarith
    have habs : |Real.arcsin v.z| = -Real.arcsin v.z :=
      abs_of_nonpos (Real.arcsin_nonpos.2 (not_lt.1 hz))
    rw [if_neg hnn, if_neg hnn, if_neg hz, habs]
    by_cases hlt : atan2 v.x v.y < 0
    · rw [if_pos hlt, whileLoop_one (fun x : ℝ => x < 0) (fun x => x + 2 * Real.pi) _ _ hlt (by simp only [not_lt]; linarith)]
      dsimp only
      rw [whileLoop_of_not (fun x : ℝ => x > 2 * Real.pi) (fun x => x - 2 * Real.pi) _ _ (by simp only [gt_iff_lt, not_lt]; linarith)]
    · rw [if_neg hlt, whileLoop_of_not (fun x : ℝ => x < 0) (fun x => x + 2 * Real.pi) _ _ hlt]
      dsimp only
      rw [whileLoop_of_not (fun x : ℝ => x > 2 * Real.pi) (fun x => x - 2 * Real.pi) _ _ (by simp only [gt_iff_lt, not_lt]; linarith)]

/-- C13, as stated, fails. The unit vector `v = (0, -3/5, 4/5)` has `atan2(v.x, v.y) = π` and
a negative plunge `-asin(4/5)`, so `phi` is shifted to `π + π`; neither loop changes it
(`2π < 0` and `2π > 2π` are false) and the trend is `2π`. -/
theorem trend_reaches_two_pi :
    Vec3.dot (⟨0, -3 / 5, 4 / 5⟩ : Vec3 ℝ) ⟨0, -3 / 5, 4 / 5⟩ = 1 ∧
    (∀ fuel, trendPlunge fuel ⟨0, -3 / 5, 4 / 5⟩ =
      some (2 * Real.pi, Real.arcsin (4 / 5))) ∧
    ¬ (∀ (phi theta : ℝ), trendPlunge 1 ⟨0, -3 / 5, 4 / 5⟩ = some (phi, theta) →
      0 ≤ phi ∧ phi < 2 * Real.pi) := by
  have hpi := Real.pi_pos
  have hat : atan2 0 (-3 / 5) = Real.pi := (atan2_eq_pi_iff 0 (-3 / 5)).2 ⟨by norm_num, rfl⟩
  have hpos : 0 < Real.arcsin (4 / 5) := Real.arcsin_pos.2 (by norm_num)
  have key : ∀ fuel, trendPlunge fuel ⟨0, -3 / 5, 4 / 5⟩ =
      some (2 * Real.pi, Real.arcsin (4 / 5)) := by
    intro fuel
    unfold trendPlunge
    rw [asin_of_mem (4 / 5) (by norm_num) (by norm_num)]
    dsimp only
    rw [if_pos (by linarith), if_pos (by linarith), hat, neg_neg,
      whileLoop_of_not (fun x : ℝ => x < 0) (fun x => x + 2 * Real.pi) _ _
        (by simp only [not_lt]; linarith)]
    dsimp only
    rw [whileLoop_of_not (fun x : ℝ => x > 2 * Real.pi) (fun x => x - 2 * Real.pi) _ _
        (by simp only [gt_iff_lt, not_lt]; linarith)]
    rw [two_mul]
  refine ⟨by norm_num [Vec3.dot], key, fun h => ?_⟩
  exact absurd (h _ _ (key 1)).2 (lt_irrefl _)

/-- C13, amended. For every vector `v` with `v.z` in `[-1, 1]`, hence for every unit
vector, the computation of the trend ends, each wrapping loop running at most one round,
and the trend satisfies `0 ≤ phi ≤ 2π`. The value `2π` is produced exactly when `v.x = 0`,
`v.y < 0` and `v.z > 0`; for every other vector `0 ≤ phi < 2π`. -/
theorem trend_between_zero_and_two_pi (fuel : Nat) (v : Vec3 ℝ) (hv : v.dot v = 1) :
    ∃ phi theta, trendPlunge (fuel + 1) v = some (phi, theta) ∧
      0 ≤ phi ∧ phi ≤ 2 * Real.pi ∧
      (phi = 2 * Real.pi ↔ v.x = 0 ∧ v.y < 0 ∧ 0 < v.z) := by
  have hpi := Real.pi_pos
  have hz : v.z ^ 2 ≤ 1 := by
    unfold Vec3.dot at hv
    nlinarith [sq_nonneg v.x, sq_nonneg v.y]
  have hz' := abs_le_one_iff_mul_self_le_one.2 (by nlinarith : v.z * v.z ≤ 1)
  obtain ⟨h1, h2⟩ := abs_le.1 hz'
  obtain ⟨ha1, ha2⟩ := atan2_mem v.x v.y
  refine ⟨_, _, trendPlunge_eq fuel v h1 h2, ?_⟩
  by_cases hpos : 0 < v.z
  · simp only [if_pos hpos]
    refine ⟨by linarith, by linarith, ?_⟩
    rw [show atan2 v.x v.y + Real.pi = 2 * Real.pi ↔ atan2 v.x v.y = Real.pi from
      ⟨fun h => by linarith, fun h => by linarith⟩, atan2_eq_pi_iff]
    exact ⟨fun h => ⟨h.2, h.1, hpos⟩, fun h => ⟨h.2.1, h.1⟩⟩
  · simp only [if_neg hpos]
    by_cases hlt : atan2 v.x v.y < 0
    · simp only [if_pos hlt]
      exact ⟨by linarith, by linarith,
        ⟨fun h => absurd h (by linarith), fun h => absurd h.2.2 hpos⟩⟩
    · simp only [if_neg hlt]
      exact ⟨not_lt.1 hlt, by linarith,
        ⟨fun h => absurd h (by linarith), fun h => absurd h.2.2 hpos⟩⟩

/-- C13, amended, at the unit vector `(0, 1, 0)`: the trend is in `[0, 2π]`. -/
theorem trend_between_zero_and_two_pi_witness :
    ∃ phi theta, trendPlunge 1 ⟨0, 1, 0⟩ = some (phi, theta) ∧
      0 ≤ phi ∧ phi ≤ 2 * Real.pi ∧
      (phi = 2 * Real.pi ↔ (0 : ℝ) = 0 ∧ (1 : ℝ) < 0 ∧ (0 : ℝ) < 0) :=
  trend_between_zero_and_two_pi 0 ⟨0, 1, 0⟩ (by norm_num [Vec3.dot])

/-- C20: the code at the orthonormal pair `v3 = (0, 1, 0)`, `v2 = (3/5, 0, 4/5)`. The sweep
computes `phi = 0`, `theta = 0` and `alpha = asin(4/5)`; from these `logWishart` rebuilds the
third vector `(0, 1, 0) = v3` and the second vector `(-3/5, 0, 4/5)`, which is neither `v2`
nor `-v2`: `asin` returns an angle of non-negative cosine, the sign of `cos(alpha)` is
lost. The angle `π - asin(4/5)`, which is in `[0, π)`, does rebuild `v2`. -/
theorem rebuilt_second_vector_is_not_the_eigenvector :
    Vec3.dot (⟨3 / 5, 0, 4 / 5⟩ : Vec3 ℝ) ⟨3 / 5, 0, 4 / 5⟩ = 1 ∧
    Vec3.dot (⟨0, 1, 0⟩ : Vec3 ℝ) ⟨0, 1, 0⟩ = 1 ∧
    Vec3.dot (⟨3 / 5, 0, 4 / 5⟩ : Vec3 ℝ) ⟨0, 1, 0⟩ = 0 ∧
    (∀ fuel, trendPlunge fuel ⟨0, 1, 0⟩ = some (0, 0)) ∧
    Real.cos 0 ≠ 0 ∧
    (∀ fuel, thirdAngle fuel (4 / 5) 0 = some (Real.arcsin (4 / 5))) ∧
    (∀ i, wishartBasis 0 0 (Real.arcsin (4 / 5)) i 2 = ![0, 1, 0] i) ∧
    (∀ i, wishartBasis 0 0 (Real.arcsin (4 / 5)) i 1 = ![-3 / 5, 0, 4 / 5] i) ∧
    (fun i => wishartBasis 0 0 (Real.arcsin (4 / 5)) i 1) ≠ ![3 / 5, 0, 4 / 5] ∧
    (fun i => wishartBasis 0 0 (Real.arcsin (4 / 5)) i 1) ≠ ![-(3 / 5), -0, -(4 / 5)] ∧
    (0 ≤ Real.pi - Real.arcsin (4 / 5) ∧ Real.pi - Real.arcsin (4 / 5) < Real.pi ∧
      ∀ i, wishartBasis 0 0 (Real.pi - Real.arcsin (4 / 5)) i 1 = ![3 / 5, 0, 4 / 5] i) := by
  have hpi := Real.pi_pos
  have hat : atan2 0 1 = 0 := by
    unfold atan2
    have : (⟨1, 0⟩ : ℂ) = 1 := rfl
    rw [this, Complex.arg_one]
  have hpos : 0 < Real.arcsin (4 / 5) := Real.arcsin_pos.2 (by norm_num)
  have hhi := Real.arcsin_le_pi_div_two (4 / 5)
  have hsin : Real.sin (Real.arcsin (4 / 5)) = 4 / 5 :=
    Real.sin_arcsin (by norm_num) (by norm_num)
  have hcos : Real.cos (Real.arcsin (4 / 5)) = 3 / 5 := by
    rw [Real.cos_arcsin, show (1 : ℝ) - (4 / 5) ^ 2 = (3 / 5) ^ 2 by norm_num,
      Real.sqrt_sq (by norm_num)]
  have htp : ∀ fuel, trendPlunge fuel ⟨0, 1, 0⟩ = some (0, 0) := by
    intro fuel
    unfold trendPlunge
    rw [asin_of_mem 0 (by norm_num) (by norm_num)]
    dsimp only
    rw [Real.arcsin_zero, neg_zero, if_neg (lt_irrefl _), if_neg (lt_irrefl _), hat,
      whileLoop_of_not (fun x : ℝ => x < 0) (fun x => x + 2 * Real.pi) _ _ (lt_irrefl _)]
    dsimp only
    rw [whileLoop_of_not (fun x : ℝ => x > 2 * Real.pi) (fun x => x - 2 * Real.pi) _ _
        (by simp only [gt_iff_lt, not_lt]; linarith)]
  have hta : ∀ fuel, thirdAngle fuel (4 / 5) 0 = some (Real.arcsin (4 / 5)) := by
    intro fuel
    unfold thirdAngle
    rw [Real.cos_zero, if_neg one_ne_zero, div_one, asin_of_mem _ (by norm_num) (by norm_num)]
    dsimp only
    rw [whileLoop_of_not (fun x : ℝ => x < 0) (fun x => x + Real.pi) _ _
      (by simp only [not_lt]; linarith)]
    dsimp only
    rw [whileLoop_of_not (fun x : ℝ => x > Real.pi) (fun x => x - Real.pi) _ _
      (by simp only [gt_iff_lt, not_lt]; linarith)]
  have hc2 : ∀ i, wishartBasis 0 0 (Real.arcsin (4 / 5)) i 2 = ![0, 1, 0] i := by
    intro i
    fin_cases i <;> simp [wishartBasis]
  have hc1 : ∀ i, wishartBasis 0 0 (Real.arcsin (4 / 5)) i 1 = ![-3 / 5, 0, 4 / 5] i := by
    intro i
    fin_cases i <;> norm_num [wishartBasis, hsin, hcos]
  refine ⟨by norm_num [Vec3.dot], by norm_num [Vec3.dot], by norm_num [Vec3.dot], htp,
    by rw [Real.cos_zero]; exact one_ne_zero, hta, hc2, hc1, fun h => ?_, fun h => ?_,
    by linarith, by linarith, fun i => ?_⟩
  · have := congrFun h 0
    rw [hc1 0] at this
    norm_num at this
  · have := congrFun h 2
    rw [hc1 2] at this
    norm_num at this
  · fin_cases i <;> norm_num [wishartBasis, Real.sin_pi_sub, Real.cos_pi_sub, hsin, hcos]

/-! ### The Wishart density -/

/-- A matrix whose last two columns `b` and `a` are orthonormal and whose first column is
their cross product `a × b` is orthogonal. -/
theorem cross_basis_orthogonal (a1 a2 a3 b1 b2 b3 : ℝ)
    (haa : a1 * a1 + a2 * a2 + a3 * a3 = 1) (hbb : b1 * b1 + b2 * b2 + b3 * b3 = 1)
    (hab : a1 * b1 + a2 * b2 + a3 * b3 = 0) :
    (!![a2 * b3 - a3 * b2, b1, a1; a3 * b1 - a1 * b3, b2, a2;
        a1 * b2 - a2 * b1, b3, a3] : Matrix (Fin 3) (Fin 3) ℝ).transpose *
      !![a2 * b3 - a3 * b2, b1, a1; a3 * b1 - a1 * b3, b2, a2; a1 * b2 - a2 * b1, b3, a3] =
      1 := by
  ext i j
  rw [Matrix.mul_apply, Fin.sum_univ_three]
  simp only [Matrix.transpose_apply]
  fin_cases i <;> fin_cases j <;> simp <;>
    first
    | linear_combination haa
    | linear_combination hbb
    | linear_combination hab
    | ring1
    | linear_combination (b1 * b1 + b2 * b2 + b3 * b3) * haa + hbb -
        (a1 * b1 + a2 * b2 + a3 * b3) * hab

theorem wishartBasis_orthogonal (phi theta alpha : ℝ) :
    (wishartBasis phi theta alpha).transpose * wishartBasis phi theta alpha = 1 := by
  have hp := Real.sin_sq_add_cos_sq phi
  have ht := Real.sin_sq_add_cos_sq theta
  have ha := Real.sin_sq_add_cos_sq alpha
  have h := cross_basis_orthogonal
    (Real.sin phi * Real.cos theta) (Real.cos phi * Real.cos theta) (-Real.sin theta)
    (Real.sin phi * Real.sin theta * Real.sin alpha - Real.cos phi * Real.cos alpha)
    (Real.sin phi * Real.cos alpha + Real.sin theta * Real.cos phi * Real.sin alpha)
    (Real.sin alpha * Real.cos theta)
    (by linear_combination (Real.cos theta) ^ 2 * hp + ht)
    (by linear_combination ((Real.sin theta) ^ 2 * (Real.sin alpha) ^ 2 +
      (Real.cos alpha) ^ 2) * hp + (Real.sin alpha) ^ 2 * ht + ha)
    (by linear_combination (Real.cos theta * Real.sin theta * Real.sin alpha) * hp)
  exact h
theorem wishartInverse_eq (phi theta alpha e1 e2 e3 : ℝ) :
    wishartInverse phi theta alpha e1 e2 e3 =
      wishartBasis phi theta alpha * Matrix.diagonal ![1 / e1, 1 / e2, 1 / e3] *
        (wishartBasis phi theta alpha).transpose := by
  ext i j
  rw [Matrix.mul_apply, Fin.sum_univ_three]
  simp only [Matrix.transpose_apply, Matrix.mul_apply, Fin.sum_univ_three,
    Matrix.diagonal_apply]
  unfold wishartInverse
  fin_cases i <;> fin_cases j <;> simp <;> ring

theorem wishartInverse_symm (phi theta alpha e1 e2 e3 : ℝ) :
    (wishartInverse phi theta alpha e1 e2 e3).transpose =
      wishartInverse phi theta alpha e1 e2 e3 := by
  ext i j
  rw [Matrix.transpose_apply]
  unfold wishartInverse
  fin_cases i <;> fin_cases j <;> rfl

theorem scaleMatrix_mul_inverse (phi theta alpha e1 e2 e3 : ℝ) (h1 : e1 ≠ 0) (h2 : e2 ≠ 0)
    (h3 : e3 ≠ 0) :
    scaleMatrix phi theta alpha e1 e2 e3 * wishartInverse phi theta alpha e1 e2 e3 = 1 := by
  have hE := wishartBasis_orthogonal phi theta alpha
  have hE' : wishartBasis phi theta alpha * (wishartBasis phi theta alpha).transpose = 1 :=
    Matrix.mul_eq_one_comm.1 hE
  have hD : Matrix.diagonal ![e1, e2, e3] * Matrix.diagonal ![1 / e1, 1 / e2, 1 / e3] =
      (1 : Matrix (Fin 3) (Fin 3) ℝ) := by
    have hf : (fun i => ![e1, e2, e3] i * ![1 / e1, 1 / e2, 1 / e3] i) =
        fun _ => (1 : ℝ) := by
      funext i
      fin_cases i <;> simp [h1, h2, h3]
    rw [Matrix.diagonal_mul_diagonal, hf, Matrix.diagonal_one]
  rw [wishartInverse_eq, scaleMatrix]
  calc wishartBasis phi theta alpha * Matrix.diagonal ![e1, e2, e3] *
        (wishartBasis phi theta alpha).transpose *
        (wishartBasis phi theta alpha * Matrix.diagonal ![1 / e1, 1 / e2, 1 / e3] *
          (wishartBasis phi theta alpha).transpose)
      = wishartBasis phi theta alpha * (Matrix.diagonal ![e1, e2, e3] *
          ((wishartBasis phi theta alpha).transpose * wishartBasis phi theta alpha) *
          Matrix.diagonal ![1 / e1, 1 / e2, 1 / e3]) *
          (wishartBasis phi theta alpha).transpose := by
        simp only [Matrix.mul_assoc]
    _ = 1 := by
        rw [hE, Matrix.mul_one, hD, Matrix.mul_one, hE']

theorem wishartInverse_eq_inv (phi theta alpha e1 e2 e3 : ℝ) (h1 : e1 ≠ 0) (h2 : e2 ≠ 0)
    (h3 : e3 ≠ 0) :
    wishartInverse phi theta alpha e1 e2 e3 = (scaleMatrix phi theta alpha e1 e2 e3)⁻¹ :=
  (Matrix.inv_eq_right_inv (scaleMatrix_mul_inverse phi theta alpha e1 e2 e3 h1 h2 h3)).symm

theorem scaleMatrix_det (phi theta alpha e1 e2 e3 : ℝ) :
    (scaleMatrix phi theta alpha e1 e2 e3).det = e1 * e2 * e3 := by
  have hE := congrArg Matrix.det (wishartBasis_orthogonal phi theta alpha)
  rw [Matrix.det_mul, Matrix.det_transpose, Matrix.det_one] at hE
  unfold scaleMatrix
  rw [Matrix.det_mul, Matrix.det_mul, Matrix.det_transpose, Matrix.det_diagonal,
    Fin.prod_univ_three]
  simp only [Matrix.cons_val_zero, Matrix.cons_val_one, Matrix.head_cons, Matrix.cons_val_two,
    Matrix.tail_cons]
  linear_combination (e1 * e2 * e3) * hE

theorem det_fin_three_expand (X : Matrix (Fin 3) (Fin 3) ℝ) :
    X.det = X 0 0 * ((X 1 1 * X 2 2) - (X 2 1 * X 1 2)) -
      X 0 1 * (X 1 0 * X 2 2 - X 2 0 * X 1 2) +
      X 0 2 * (X 1 0 * X 2 1 - X 2 0 * X 1 1) := by
  rw [Matrix.det_fin_three]
  ring

theorem logWishart_eq_trace (X : Matrix (Fin 3) (Fin 3) ℝ) (n : Int)
    (phi theta alpha e1 e2 e3 lsf : ℝ) :
    logWishart X n phi theta alpha e1 e2 e3 lsf =
      lsf - ((wishartInverse phi theta alpha e1 e2 e3 * X).trace +
        (n : ℝ) * Real.log (e1 * e2 * e3)) / 2 := by
  have hs := wishartInverse_symm phi theta alpha e1 e2 e3
  have h10 : wishartInverse phi theta alpha e1 e2 e3 1 0 =
      wishartInverse phi theta alpha e1 e2 e3 0 1 := by
    conv_lhs => rw [← hs]
    rfl
  have h20 : wishartInverse phi theta alpha e1 e2 e3 2 0 =
      wishartInverse phi theta alpha e1 e2 e3 0 2 := by
    conv_lhs => rw [← hs]
    rfl
  have h21 : wishartInverse phi theta alpha e1 e2 e3 2 1 =
      wishartInverse phi theta alpha e1 e2 e3 1 2 := by
    conv_lhs => rw [← hs]
    rfl
  unfold logWishart
  simp only [Matrix.trace, Matrix.diag_apply, Fin.sum_univ_three, Matrix.mul_apply, h10, h20,
    h21]
  ring
theorem log_gamma3 (a : ℝ) (ha : 1 < a) :
    Real.log (gamma3 a) = (3 / 2) * Real.log Real.pi + lgamma a + lgamma (a - 1 / 2) +
      lgamma (a - 1) := by
  have g1 : 0 < Real.Gamma a := Real.Gamma_pos_of_pos (by linarith)
  have g2 : 0 < Real.Gamma (a - 1 / 2) := Real.Gamma_pos_of_pos (by linarith)
  have g3 : 0 < Real.Gamma (a - 1) := Real.Gamma_pos_of_pos (by linarith)
  have gp : 0 < Real.pi ^ ((3 : ℝ) / 2) := Real.rpow_pos_of_pos Real.pi_pos _
  unfold gamma3 lgamma
  rw [abs_of_pos g1, abs_of_pos g2, abs_of_pos g3,
    Real.log_mul (by positivity) (ne_of_gt g3), Real.log_mul (by positivity) (ne_of_gt g2),
    Real.log_mul (ne_of_gt gp) (ne_of_gt g1), Real.log_rpow Real.pi_pos]

theorem gamma3_pos (a : ℝ) (ha : 1 < a) : 0 < gamma3 a := by
  have g1 : 0 < Real.Gamma a := Real.Gamma_pos_of_pos (by linarith)
  have g2 : 0 < Real.Gamma (a - 1 / 2) := Real.Gamma_pos_of_pos (by linarith)
  have g3 : 0 < Real.Gamma (a - 1) := Real.Gamma_pos_of_pos (by linarith)
  have gp : 0 < Real.pi ^ ((3 : ℝ) / 2) := Real.rpow_pos_of_pos Real.pi_pos _
  unfold gamma3
  positivity

theorem logWishSF_eq (X : Matrix (Fin 3) (Fin 3) ℝ) (n : Int) (hn : 2 < n) :
    logWishSF X n = (((n : ℝ) - 4) / 2) * Real.log X.det - (3 * (n : ℝ) / 2) * Real.log 2 -
      Real.log (gamma3 ((n : ℝ) / 2)) := by
  have hnr : (2 : ℝ) < (n : ℝ) := by exact_mod_cast hn
  rw [log_gamma3 _ (by linarith), det_fin_three_expand]
  unfold logWishSF
  ring

theorem log_wishartDensity (X S : Matrix (Fin 3) (Fin 3) ℝ) (n : ℝ) (hn : 2 < n)
    (hX : 0 < X.det) (hS : 0 < S.det) :
    Real.log (wishartDensity X S n) =
      ((n - 4) / 2) * Real.log X.det - (S⁻¹ * X).trace / 2 -
        ((3 * n / 2) * Real.log 2 + (n / 2) * Real.log S.det + Real.log (gamma3 (n / 2))) := by
  have hg := gamma3_pos (n / 2) (by linarith)
  have hA : 0 < X.det ^ ((n - 4) / 2) := Real.rpow_pos_of_pos hX _
  have hC : 0 < (2 : ℝ) ^ (3 * n / 2) := Real.rpow_pos_of_pos (by norm_num) _
  have hD : 0 < S.det ^ (n / 2) := Real.rpow_pos_of_pos hS _
  unfold wishartDensity
  rw [Real.log_div (by positivity) (by positivity),
    Real.log_mul (ne_of_gt hA) (ne_of_gt (Real.exp_pos _)),
    Real.log_mul (by positivity) (ne_of_gt hg), Real.log_mul (ne_of_gt hC) (ne_of_gt hD),
    Real.log_rpow hX, Real.log_exp, Real.log_rpow (by norm_num : (0 : ℝ) < 2),
    Real.log_rpow hS]
  ring

/-- C19. For every matrix `X`, all angles, all non-zero `e1, e2, e3` and every `n`: the
symmetric matrix `i` built in `logWishart` is the inverse of the scale matrix
`S = E diag(e1, e2, e3) Eᵀ`, the determinant of `S` is `e1 e2 e3`, and `logWishart` returns
`lsf - (tr(S⁻¹ X) + n log(det S)) / 2`. For `n > 2`, `logWishSF(X, n)` is
`((n-4)/2) log(det X) - (3n/2) log 2 - log Γ₃(n/2)` with the true determinant of `X`; and
where the Wishart density exists (`n > 2`, `det X > 0`, positive `e1, e2, e3`), `logWishart`
with `lsf = logWishSF(X, n)` is the logarithm of the Wishart density of `X` with scale `S` and
`n` degrees of freedom. -/
theorem logWishart_is_log_wishart_density (X : Matrix (Fin 3) (Fin 3) ℝ) (n : Int)
    (phi theta alpha e1 e2 e3 lsf : ℝ) (h1 : e1 ≠ 0) (h2 : e2 ≠ 0) (h3 : e3 ≠ 0) :
    wishartInverse phi theta alpha e1 e2 e3 = (scaleMatrix phi theta alpha e1 e2 e3)⁻¹ ∧
    (wishartInverse phi theta alpha e1 e2 e3).transpose =
      wishartInverse phi theta alpha e1 e2 e3 ∧
    scaleMatrix phi theta alpha e1 e2 e3 * wishartInverse phi theta alpha e1 e2 e3 = 1 ∧
    (scaleMatrix phi theta alpha e1 e2 e3).det = e1 * e2 * e3 ∧
    logWishart X n phi theta alpha e1 e2 e3 lsf =
      lsf - (((scaleMatrix phi theta alpha e1 e2 e3)⁻¹ * X).trace +
        (n : ℝ) * Real.log (scaleMatrix phi theta alpha e1 e2 e3).det) / 2 ∧
    (2 < n →
      logWishSF X n = (((n : ℝ) - 4) / 2) * Real.log X.det - (3 * (n : ℝ) / 2) * Real.log 2 -
        Real.log (gamma3 ((n : ℝ) / 2))) ∧
    (2 < n → 0 < X.det → 0 < e1 → 0 < e2 → 0 < e3 →
      logWishart X n phi theta alpha e1 e2 e3 (logWishSF X n) =
        Real.log (wishartDensity X (scaleMatrix phi theta alpha e1 e2 e3) (n : ℝ))) := by
  have hinv := wishartInverse_eq_inv phi theta alpha e1 e2 e3 h1 h2 h3
  have hdet := scaleMatrix_det phi theta alpha e1 e2 e3
  have hlw : logWishart X n phi theta alpha e1 e2 e3 lsf =
      lsf - (((scaleMatrix phi theta alpha e1 e2 e3)⁻¹ * X).trace +
        (n : ℝ) * Real.log (scaleMatrix phi theta alpha e1 e2 e3).det) / 2 := by
    rw [logWishart_eq_trace, hinv, hdet]
  refine ⟨hinv, wishartInverse_symm phi theta alpha e1 e2 e3,
    scaleMatrix_mul_inverse phi theta alpha e1 e2 e3 h1 h2 h3, hdet, hlw,
    logWishSF_eq X n, fun hn hX p1 p2 p3 => ?_⟩
  have hnr : (2 : ℝ) < (n : ℝ) := by exact_mod_cast hn
  have hS : 0 < (scaleMatrix phi theta alpha e1 e2 e3).det := by
    rw [hdet]
    positivity
  rw [log_wishartDensity X _ (n : ℝ) hnr hX hS, logWishart_eq_trace, logWishSF_eq X n hn,
    hinv, hdet]
  ring

/-- C19, at the identity matrix `X`, `n = 5`, the angles `1, 1/2, 2` and the eigenvalues
`3, 2, 1`. -/
theorem logWishart_is_log_wishart_density_witness :
    logWishart 1 5 1 (1 / 2) 2 3 2 1 (logWishSF 1 5) =
      Real.log (wishartDensity 1 (scaleMatrix 1 (1 / 2) 2 3 2 1) ((5 : Int) : ℝ)) :=
  (logWishart_is_log_wishart_density 1 5 1 (1 / 2) 2 3 2 1 (logWishSF 1 5) (by norm_num)
    (by norm_num) (by norm_num)).2.2.2.2.2.2 (by norm_num) (by simp) (by norm_num)
    (by norm_num) (by norm_num)

/-- C29. For all angles `phi`, `theta`, `alpha` the columns 0, 1, 2 of the array `e` built
at the start of `logWishart` form an orthonormal basis: the sum over the rows `i` of
`e[i][j] e[i][k]` is 1 for `j = k` (unit length) and 0 for `j ≠ k` (orthogonal columns),
that is `Eᵀ E` is the identity, and so is `E Eᵀ`. -/
theorem logWishart_basis_orthonormal (phi theta alpha : ℝ) :
    (∀ j k : Fin 3, ∑ i : Fin 3, wishartBasis phi theta alpha i j *
        wishartBasis phi theta alpha i k = if j = k then 1 else 0) ∧
    (wishartBasis phi theta alpha).transpose * wishartBasis phi theta alpha = 1 ∧
    wishartBasis phi theta alpha * (wishartBasis phi theta alpha).transpose = 1 := by
  have hE := wishartBasis_orthogonal phi theta alpha
  refine ⟨fun j k => ?_, hE, Matrix.mul_eq_one_comm.1 hE⟩
  have h := congrFun (congrFun hE j) k
  rw [Matrix.mul_apply, Matrix.one_apply] at h
  simpa only [Matrix.transpose_apply] using h

/-! ### The third basis vector -/

/-- For a unit vector `v`, `sin(atan2(v.x, v.y))` and `cos(atan2(v.x, v.y))`, multiplied by
`sqrt(1 - v.z²)`, give back `v.x` and `v.y`. -/
theorem atan2_sin_cos (v : Vec3 ℝ) (hv : v.dot v = 1) :
    Real.sin (atan2 v.x v.y) * Real.sqrt (1 - v.z ^ 2) = v.x ∧
      Real.cos (atan2 v.x v.y) * Real.sqrt (1 - v.z ^ 2) = v.y := by
  unfold Vec3.dot at hv
  have hr : Complex.abs ⟨v.y, v.x⟩ = Real.sqrt (1 - v.z ^ 2) := by
    rw [Complex.abs_apply, Complex.normSq_mk]
    congr 1
    linarith
  unfold atan2
  by_cases h0 : (⟨v.y, v.x⟩ : ℂ) = 0
  · have hre : v.y = 0 := congrArg Complex.re h0
    have him : v.x = 0 := congrArg Complex.im h0
    have : Real.sqrt (1 - v.z ^ 2) = 0 := by
      rw [← hr, h0, map_zero]
    rw [this, mul_zero, mul_zero, hre, him]
    exact ⟨rfl, rfl⟩
  · have hpos : 0 < Real.sqrt (1 - v.z ^ 2) := by
      rw [← hr]
      exact AbsoluteValue.pos Complex.abs h0
    rw [Complex.sin_arg, Complex.cos_arg h0, hr]
    exact ⟨div_mul_cancel₀ _ (ne_of_gt hpos), div_mul_cancel₀ _ (ne_of_gt hpos)⟩

/-- C28. For every unit vector `v`, the trend and the plunge computed by the sweep (with
the shift by `π`, the change of sign and the wrapping) end with values `phi`, `theta` from
which `logWishart` rebuilds, as column 2 of its array `e` and for every `alpha`, the vector
`(sin phi cos theta, cos phi cos theta, -sin theta)`: it is `v` when `v.z ≤ 0` and `-v` when
`v.z > 0`. -/
theorem third_basis_vector_round_trip (fuel : Nat) (v : Vec3 ℝ) (hv : v.dot v = 1) :
    ∃ phi theta, trendPlunge (fuel + 1) v = some (phi, theta) ∧
      (⟨Real.sin phi * Real.cos theta, Real.cos phi * Real.cos theta, -Real.sin theta⟩ :
        Vec3 ℝ) = (if v.z ≤ 0 then v else v.neg) ∧
      ∀ alpha, (⟨wishartBasis phi theta alpha 0 2, wishartBasis phi theta alpha 1 2,
        wishartBasis phi theta alpha 2 2⟩ : Vec3 ℝ) = (if v.z ≤ 0 then v else v.neg) := by
  have hz : v.z * v.z ≤ 1 := by
    unfold Vec3.dot at hv
    nlinarith [sq_nonneg v.x, sq_nonneg v.y]
  obtain ⟨hz1, hz2⟩ := abs_le.1 (abs_le_one_iff_mul_self_le_one.2 hz)
  obtain ⟨hs, hc⟩ := atan2_sin_cos v hv
  have hcos : Real.cos |Real.arcsin v.z| = Real.sqrt (1 - v.z ^ 2) := by
    rw [Real.cos_abs, Real.cos_arcsin]
  have key : (⟨Real.sin (if 0 < v.z then atan2 v.x v.y + Real.pi
            else if atan2 v.x v.y < 0 then atan2 v.x v.y + 2 * Real.pi else atan2 v.x v.y) *
          Real.cos |Real.arcsin v.z|,
        Real.cos (if 0 < v.z then atan2 v.x v.y + Real.pi
            else if atan2 v.x v.y < 0 then atan2 v.x v.y + 2 * Real.pi else atan2 v.x v.y) *
          Real.cos |Real.arcsin v.z|,
        -Real.sin |Real.arcsin v.z|⟩ : Vec3 ℝ) = (if v.z ≤ 0 then v else v.neg) := by
    rw [hcos]
    by_cases hpos : 0 < v.z
    · rw [if_pos hpos, if_neg (not_le.2 hpos), abs_of_pos (Real.arcsin_pos.2 hpos),
        Real.sin_arcsin hz1 hz2, Real.sin_add_pi, Real.cos_add_pi, neg_mul, neg_mul, hs, hc]
      rfl
    · have hle := not_lt.1 hpos
      rw [if_neg hpos, if_pos hle, abs_of_nonpos (Real.arcsin_nonpos.2 hle), Real.sin_neg,
        Real.sin_arcsin hz1 hz2, neg_neg]
      by_cases hlt : atan2 v.x v.y < 0
      · rw [if_pos hlt, Real.sin_add_two_pi, Real.cos_add_two_pi, hs, hc]
      · rw [if_neg hlt, hs, hc]
  refine ⟨_, _, trendPlunge_eq fuel v hz1 hz2, key, fun alpha => ?_⟩
  rw [← key]
  simp [wishartBasis]

/-- C28, at the unit vectors `(0, 3/5, -4/5)`, which is rebuilt as it is, and
`(0, 3/5, 4/5)`, which is rebuilt with the opposite sign. -/
theorem third_basis_vector_round_trip_witness :
    (∃ phi theta, trendPlunge 1 ⟨0, 3 / 5, -4 / 5⟩ = some (phi, theta) ∧
      (⟨Real.sin phi * Real.cos theta, Real.cos phi * Real.cos theta, -Real.sin theta⟩ :
        Vec3 ℝ) = ⟨0, 3 / 5, -4 / 5⟩) ∧
    (∃ phi theta, trendPlunge 1 ⟨0, 3 / 5, 4 / 5⟩ = some (phi, theta) ∧
      (⟨Real.sin phi * Real.cos theta, Real.cos phi * Real.cos theta, -Real.sin theta⟩ :
        Vec3 ℝ) = ⟨-0, -(3 / 5), -(4 / 5)⟩) := by
  constructor
  · obtain ⟨phi, theta, h1, h2, _⟩ :=
      third_basis_vector_round_trip 0 ⟨0, 3 / 5, -4 / 5⟩ (by norm_num [Vec3.dot])
    refine ⟨phi, theta, h1, ?_⟩
    rw [h2, if_pos (by norm_num)]
  · obtain ⟨phi, theta, h1, h2, _⟩ :=
      third_basis_vector_round_trip 0 ⟨0, 3 / 5, 4 / 5⟩ (by norm_num [Vec3.dot])
    refine ⟨phi, theta, h1, ?_⟩
    rw [h2, if_neg (by norm_num)]
    rfl

/-! ### The prior -/

theorem acos_of_mem (x : ℝ) (h1 : -1 ≤ x) (h2 : x ≤ 1) : acos x = some (Real.arccos x) := by
  unfold acos
  rw [if_pos ⟨h1, h2⟩]

/-- The cosine between a unit vector and the normal estimate of trend `phi` and plunge
`theta` is in `[-1, 1]`. -/
theorem prior_cosine_mem (phi theta nx ny nz : ℝ) (hn : nx * nx + ny * ny + nz * nz = 1) :
    (nx * Real.sin phi * Real.cos theta + ny * Real.cos phi * Real.cos theta -
      nz * Real.sin theta) ^ 2 ≤ 1 := by
  have hp := Real.sin_sq_add_cos_sq phi
  have ht := Real.sin_sq_add_cos_sq theta
  have he : (Real.sin phi * Real.cos theta) ^ 2 + (Real.cos phi * Real.cos theta) ^ 2 +
      (Real.sin theta) ^ 2 = 1 := by
    linear_combination (Real.cos theta) ^ 2 * hp + ht
  have hL : (nx * nx + ny * ny + nz * nz) * ((Real.sin phi * Real.cos theta) ^ 2 +
      (Real.cos phi * Real.cos theta) ^ 2 + (Real.sin theta) ^ 2) -
      (nx * Real.sin phi * Real.cos theta + ny * Real.cos phi * Real.cos theta -
        nz * Real.sin theta) ^ 2 =
      (nx * (Real.cos phi * Real.cos theta) - ny * (Real.sin phi * Real.cos theta)) ^ 2 +
      (nx * Real.sin theta + nz * (Real.sin phi * Real.cos theta)) ^ 2 +
      (ny * Real.sin theta + nz * (Real.cos phi * Real.cos theta)) ^ 2 := by ring
  rw [hn, he] at hL
  nlinarith [sq_nonneg (nx * (Real.cos phi * Real.cos theta) -
      ny * (Real.sin phi * Real.cos theta)),
    sq_nonneg (nx * Real.sin theta + nz * (Real.sin phi * Real.cos theta)),
    sq_nonneg (ny * Real.sin theta + nz * (Real.cos phi * Real.cos theta))]

/-- The value of the prior at a unit sampled normal. -/
theorem prior_eq (phi theta nx ny nz : ℝ) (hn : nx * nx + ny * ny + nz * nz = 1) :
    prior phi theta nx ny nz =
      some (Real.sqrt (1 - (nx * Real.sin phi * Real.cos theta +
        ny * Real.cos phi * Real.cos theta - nz * Real.sin theta) ^ 2) / (2 * Real.pi)) := by
  have hc := prior_cosine_mem phi theta nx ny nz hn
  obtain ⟨h1, h2⟩ := abs_le.1 (abs_le_one_iff_mul_self_le_one.2
    (by nlinarith : (nx * Real.sin phi * Real.cos theta + ny * Real.cos phi * Real.cos theta -
      nz * Real.sin theta) * (nx * Real.sin phi * Real.cos theta +
      ny * Real.cos phi * Real.cos theta - nz * Real.sin theta) ≤ 1))
  unfold prior
  by_cases hz : nz > 0
  · simp only [if_pos hz]
    have e : nx * -1 * Real.sin phi * Real.cos theta + ny * -1 * Real.cos phi * Real.cos theta -
        nz * -1 * Real.sin theta = -(nx * Real.sin phi * Real.cos theta +
        ny * Real.cos phi * Real.cos theta - nz * Real.sin theta) := by ring
    rw [e, acos_of_mem _ (by linarith) (by linarith)]
    simp only [Real.sin_arccos, neg_sq]
  · simp only [if_neg hz]
    rw [acos_of_mem _ h1 h2]
    simp only [Real.sin_arccos]

/-- C30. For all `phi`, `theta` and every unit vector `(nx, ny, nz)`, the prior of the
vector and of its opposite are both `sqrt(1 - c²) / (2π)`, with `c` the dot product of the
vector with `(sin phi cos theta, cos phi cos theta, -sin theta)`: turning the normal to point
down has no effect on the result, and the prior lies in `[0, 1/(2π)]`. -/
theorem prior_ignores_sign_of_normal (phi theta nx ny nz : ℝ)
    (hn : nx * nx + ny * ny + nz * nz = 1) :
    prior phi theta nx ny nz =
      some (Real.sqrt (1 - (nx * (Real.sin phi * Real.cos theta) +
        ny * (Real.cos phi * Real.cos theta) + nz * -Real.sin theta) ^ 2) / (2 * Real.pi)) ∧
    prior phi theta (-nx) (-ny) (-nz) = prior phi theta nx ny nz ∧
    0 ≤ Real.sqrt (1 - (nx * (Real.sin phi * Real.cos theta) +
        ny * (Real.cos phi * Real.cos theta) + nz * -Real.sin theta) ^ 2) / (2 * Real.pi) ∧
    Real.sqrt (1 - (nx * (Real.sin phi * Real.cos theta) +
        ny * (Real.cos phi * Real.cos theta) + nz * -Real.sin theta) ^ 2) / (2 * Real.pi) ≤
      1 / (2 * Real.pi) := by
  have hpi := Real.pi_pos
  have e1 : nx * (Real.sin phi * Real.cos theta) + ny * (Real.cos phi * Real.cos theta) +
      nz * -Real.sin theta = nx * Real.sin phi * Real.cos theta +
      ny * Real.cos phi * Real.cos theta - nz * Real.sin theta := by ring
  have e2 : -nx * Real.sin phi * Real.cos theta + -ny * Real.cos phi * Real.cos theta -
      -nz * Real.sin theta = -(nx * Real.sin phi * Real.cos theta +
      ny * Real.cos phi * Real.cos theta - nz * Real.sin theta) := by ring
  rw [e1]
  refine ⟨prior_eq phi theta nx ny nz hn, ?_, by positivity, ?_⟩
  · rw [prior_eq phi theta nx ny nz hn,
      prior_eq phi theta (-nx) (-ny) (-nz) (by linarith), e2, neg_sq]
  · apply div_le_div_of_nonneg_right _ (by positivity)
    rw [Real.sqrt_le_one]
    nlinarith [sq_nonneg (nx * Real.sin phi * Real.cos theta +
      ny * Real.cos phi * Real.cos theta - nz * Real.sin theta)]

/-- C30, at the sampled normal `(0, 0, 1)`, which the function turns to `(0, 0, -1)`, with
`phi = 0` and `theta = 0`: the dot product is 0 and the prior is `1 / (2π)`. -/
theorem prior_ignores_sign_of_normal_witness :
    prior 0 0 0 0 1 = some (1 / (2 * Real.pi)) ∧ prior 0 0 (-0) (-0) (-1) = prior 0 0 0 0 1 := by
  obtain ⟨h1, h2, _⟩ := prior_ignores_sign_of_normal 0 0 0 0 1 (by norm_num)
  refine ⟨?_, h2⟩
  rw [h1]
  norm_num

/-- The prior at the sampled normal `(0, 0, -1)`. -/
theorem prior_down (phi theta : ℝ) :
    prior phi theta 0 0 (-1) = some (|Real.cos theta| / (2 * Real.pi)) := by
  rw [prior_eq phi theta 0 0 (-1) (by norm_num)]
  have e : (1 : ℝ) - (0 * Real.sin phi * Real.cos theta + 0 * Real.cos phi * Real.cos theta -
      -1 * Real.sin theta) ^ 2 = Real.cos theta ^ 2 := by
    have := Real.sin_sq_add_cos_sq theta
    linear_combination -this
  rw [e, Real.sqrt_sq_eq_abs]

/-- C22: the code at the unit sampled normal `(0, 0, -1)`. The prior is
`|cos theta| / (2π)`, and its integral over the full orientation sphere (`phi` from 0 to
`2π`, `theta` from `-π/2` to `π/2`, surface element `cos(theta) dtheta dphi`) is `π/2`,
not 1: the factor `2π` of line 1212 does not normalise the function. -/
theorem prior_integrates_to_half_pi :
    (∀ phi theta, prior phi theta 0 0 (-1) = some (|Real.cos theta| / (2 * Real.pi))) ∧
    (∫ phi in (0 : ℝ)..(2 * Real.pi), ∫ theta in (-(Real.pi / 2))..(Real.pi / 2),
      (prior phi theta 0 0 (-1)).getD 0 * Real.cos theta) = Real.pi / 2 ∧
    Real.pi / 2 ≠ 1 := by
  have hpi := Real.pi_pos
  have inner : ∀ phi : ℝ, (∫ theta in (-(Real.pi / 2))..(Real.pi / 2),
      (prior phi theta 0 0 (-1)).getD 0 * Real.cos theta) = 1 / 4 := by
    intro phi
    have hcongr : (∫ theta in (-(Real.pi / 2))..(Real.pi / 2),
        (prior phi theta 0 0 (-1)).getD 0 * Real.cos theta) =
        ∫ theta in (-(Real.pi / 2))..(Real.pi / 2),
          (1 / (2 * Real.pi)) * Real.cos theta ^ 2 := by
      apply intervalIntegral.integral_congr
      intro theta ht
      rw [Set.uIcc_of_le (by linarith)] at ht
      have hc : 0 ≤ Real.cos theta := Real.cos_nonneg_of_mem_Icc ht
      show (prior phi theta 0 0 (-1)).getD 0 * Real.cos theta = _
      rw [prior_down, Option.getD_some, abs_of_nonneg hc]
      ring
    rw [hcongr, intervalIntegral.integral_const_mul, integral_cos_sq, Real.cos_pi_div_two,
      Real.cos_neg, Real.cos_pi_div_two]
    field_simp
    ring
  refine ⟨prior_down, ?_, ?_⟩
  · simp only [inner]
    rw [intervalIntegral.integral_const]
    simp only [smul_eq_mul]
    ring
  · have := Real.pi_gt_three
    intro h
    linarith

/-! ### The scatter matrix -/

theorem foldl_add_eq_sum {α K : Type} [AddCommMonoid K] (f : α → K) :
    ∀ (l : List α) (a : K), l.foldl (fun acc e => acc + f e) a = a + (l.map f).sum
  | [], a => by simp
  | e :: l, a => by
    rw [List.foldl_cons, foldl_add_eq_sum f l, List.map_cons, List.sum_cons, add_assoc]

theorem outerSum_apply {K : Type} [Field K] (c : Vec3 K) (i j : Fin 3) :
    ∀ w : List (Entry K),
      outerSum c w i j = (w.map (fun e => e.offset c i * e.offset c j)).sum
  | [] => by simp [outerSum]
  | e :: w => by
    have ih := outerSum_apply c i j w
    unfold outerSum at ih ⊢
    rw [List.map_cons, List.sum_cons, Matrix.add_apply, ih, List.map_cons, List.sum_cons,
      Matrix.vecMulVec_apply]

theorem scatterMatrix_eq_outerSum {K : Type} [Field K] (series : List (Entry K))
    (lo hi : Nat) :
    scatterMatrix series lo hi =
      outerSum (windowCentroid series lo hi) (window series lo hi) := by
  ext i j
  rw [outerSum_apply]
  unfold scatterMatrix
  fin_cases i <;> fin_cases j <;>
    simp [foldl_add_eq_sum, Entry.offset, mul_comm]

theorem outerSum_quadratic_nonneg {K : Type} [LinearOrderedField K] (c : Vec3 K)
    (v : Fin 3 → K) :
    ∀ w : List (Entry K), 0 ≤ Matrix.dotProduct v (Matrix.mulVec (outerSum c w) v)
  | [] => by simp [outerSum]
  | e :: w => by
    have ih := outerSum_quadratic_nonneg c v w
    have hs : outerSum c (e :: w) =
        Matrix.vecMulVec (e.offset c) (e.offset c) + outerSum c w := by
      simp [outerSum]
    rw [hs, Matrix.add_mulVec, Matrix.dotProduct_add]
    have h1 : Matrix.dotProduct v (Matrix.mulVec
        (Matrix.vecMulVec (e.offset c) (e.offset c)) v) =
        (v 0 * e.offset c 0 + v 1 * e.offset c 1 + v 2 * e.offset c 2) ^ 2 := by
      simp only [Matrix.dotProduct, Matrix.mulVec, Matrix.vecMulVec_apply, Fin.sum_univ_three]
      ring
    rw [h1]
    exact add_nonneg (sq_nonneg _) ih

theorem covMatrix_eq_smul {K : Type} [Field K] (series : List (Entry K)) (lo hi : Nat) :
    covMatrix series lo hi = (((hi - lo : Nat) : K))⁻¹ • scatterMatrix series lo hi := by
  have hsym : ∀ i j, scatterMatrix series lo hi i j = scatterMatrix series lo hi j i := by
    intro i j
    unfold scatterMatrix
    fin_cases i <;> fin_cases j <;> rfl
  ext i j
  rw [Matrix.smul_apply, smul_eq_mul]
  unfold covMatrix
  fin_cases i <;> fin_cases j <;>
    simp [div_eq_inv_mul, hsym 1 0, hsym 2 0, hsym 2 1]

/-- C21. For every window `[lo, hi)` with `n = hi - lo ≥ 1`: the centroid is the sum of the
positions of the window divided by `n`; the scatter matrix `X` the sweep computes is the sum
over the window of the outer products `(p - c)(p - c)ᵀ`; it is symmetric and positive
semi-definite (`vᵀ X v ≥ 0` for every `v`); `cov` is `X / n` entrywise, it is positive
semi-definite as well and every eigenvalue of `cov` is `≥ 0`. -/
theorem scatter_matrix_is_sum_of_outer_products {K : Type} [LinearOrderedField K]
    (series : List (Entry K)) (lo hi : Nat) (hn : lo < hi) :
    windowCentroid series lo hi =
      ⟨((window series lo hi).map Entry.px).sum / ((hi - lo : Nat) : K),
        ((window series lo hi).map Entry.py).sum / ((hi - lo : Nat) : K),
        ((window series lo hi).map Entry.pz).sum / ((hi - lo : Nat) : K)⟩ ∧
    scatterMatrix series lo hi =
      outerSum (windowCentroid series lo hi) (window series lo hi) ∧
    (scatterMatrix series lo hi).transpose = scatterMatrix series lo hi ∧
    (∀ v : Fin 3 → K,
      0 ≤ Matrix.dotProduct v (Matrix.mulVec (scatterMatrix series lo hi) v)) ∧
    (∀ i j, covMatrix series lo hi i j =
      scatterMatrix series lo hi i j / ((hi - lo : Nat) : K)) ∧
    (∀ v : Fin 3 → K, 0 ≤ Matrix.dotProduct v (Matrix.mulVec (covMatrix series lo hi) v)) ∧
    (∀ (l : K) (v : Fin 3 → K), v ≠ 0 → Matrix.mulVec (covMatrix series lo hi) v = l • v →
      0 ≤ l) := by
  have hpos : (0 : K) < ((hi - lo : Nat) : K) := by
    exact_mod_cast Nat.sub_pos_of_lt hn
  have hX : ∀ v : Fin 3 → K,
      0 ≤ Matrix.dotProduct v (Matrix.mulVec (scatterMatrix series lo hi) v) := by
    intro v
    rw [scatterMatrix_eq_outerSum]
    exact outerSum_quadratic_nonneg _ v _
  have hcov : ∀ v : Fin 3 → K,
      0 ≤ Matrix.dotProduct v (Matrix.mulVec (covMatrix series lo hi) v) := by
    intro v
    rw [covMatrix_eq_smul, Matrix.smul_mulVec_assoc, Matrix.dotProduct_smul, smul_eq_mul]
    exact mul_nonneg (inv_nonneg.2 (le_of_lt hpos)) (hX v)
  refine ⟨?_, scatterMatrix_eq_outerSum series lo hi, ?_, hX, ?_, hcov, ?_⟩
  · unfold windowCentroid
    simp only [foldl_add_eq_sum, zero_add]
  · ext i j
    rw [Matrix.transpose_apply]
    unfold scatterMatrix
    fin_cases i <;> fin_cases j <;> rfl
  · intro i j
    rw [covMatrix_eq_smul, Matrix.smul_apply, smul_eq_mul, div_eq_inv_mul]
  · intro l v hv hev
    have h1 := hcov v
    rw [hev, Matrix.dotProduct_smul, smul_eq_mul] at h1
    have hvv : 0 < Matrix.dotProduct v v := by
      have hne : Matrix.dotProduct v v ≠ 0 := fun h => hv (Matrix.dotProduct_self_eq_zero.1 h)
      have hge : 0 ≤ Matrix.dotProduct v v := by
        simp only [Matrix.dotProduct, Fin.sum_univ_three]
        nlinarith [mul_self_nonneg (v 0), mul_self_nonneg (v 1), mul_self_nonneg (v 2)]
      exact lt_of_le_of_ne hge (Ne.symm hne)
    by_contra hl
    have := mul_neg_of_neg_of_pos (not_le.1 hl) hvv
    linarith

/-- C21, at the window `[0, 3)` of the series of positions `(0,0,0), (1,0,0), (2,2,0)`:
the centroid is `(1, 2/3, 0)`, the scatter matrix has the entries `X[0][0] = 2`,
`X[0][1] = 2` and `X[1][1] = 8/3`, and it is positive semi-definite. -/
theorem scatter_matrix_is_sum_of_outer_products_witness :
    windowCentroid (K := ℚ)
      [mkEntry 0 0 ⟨⟨0, 0, 0⟩, ⟨0, 0, 1⟩⟩, mkEntry 1 1 ⟨⟨1, 0, 0⟩, ⟨0, 0, 1⟩⟩,
        mkEntry 2 2 ⟨⟨2, 2, 0⟩, ⟨0, 0, 1⟩⟩] 0 3 = ⟨1, 2 / 3, 0⟩ ∧
    scatterMatrix (K := ℚ)
      [mkEntry 0 0 ⟨⟨0, 0, 0⟩, ⟨0, 0, 1⟩⟩, mkEntry 1 1 ⟨⟨1, 0, 0⟩, ⟨0, 0, 1⟩⟩,
        mkEntry 2 2 ⟨⟨2, 2, 0⟩, ⟨0, 0, 1⟩⟩] 0 3 = !![2, 2, 0; 2, 8 / 3, 0; 0, 0, 0] ∧
    ∀ v : Fin 3 → ℚ, 0 ≤ Matrix.dotProduct v (Matrix.mulVec (scatterMatrix (K := ℚ)
      [mkEntry 0 0 ⟨⟨0, 0, 0⟩, ⟨0, 0, 1⟩⟩, mkEntry 1 1 ⟨⟨1, 0, 0⟩, ⟨0, 0, 1⟩⟩,
        mkEntry 2 2 ⟨⟨2, 2, 0⟩, ⟨0, 0, 1⟩⟩] 0 3) v) := by
  have hc : windowCentroid (K := ℚ)
      [mkEntry 0 0 ⟨⟨0, 0, 0⟩, ⟨0, 0, 1⟩⟩, mkEntry 1 1 ⟨⟨1, 0, 0⟩, ⟨0, 0, 1⟩⟩,
        mkEntry 2 2 ⟨⟨2, 2, 0⟩, ⟨0, 0, 1⟩⟩] 0 3 = ⟨1, 2 / 3, 0⟩ := by
    norm_num [windowCentroid, window, mkEntry]
  refine ⟨hc, ?_, (scatter_matrix_is_sum_of_outer_products (K := ℚ)
      [mkEntry 0 0 ⟨⟨0, 0, 0⟩, ⟨0, 0, 1⟩⟩, mkEntry 1 1 ⟨⟨1, 0, 0⟩, ⟨0, 0, 1⟩⟩,
        mkEntry 2 2 ⟨⟨2, 2, 0⟩, ⟨0, 0, 1⟩⟩] 0 3 (by decide)).2.2.2.1⟩
  unfold scatterMatrix
  rw [hc]
  norm_num [window, mkEntry]

/-! ### Positions no window reaches -/

theorem mapUpdate_getElem?_of_not_mem {K : Type} [LinearOrder K] (M lo hi : Nat) (pd : K)
    (v : Vec3 K) (p : Nat) :
    ∀ (ps : List Nat) (est : List (Estimate K)), p ∉ ps →
      (mapUpdate M lo hi pd v ps est)[p]? = est[p]?
  | [], _, _ => rfl
  | q :: ps, est, h => by
    rw [mapUpdate, mapUpdate_getElem?_of_not_mem M lo hi pd v p ps _
      (fun hm => h (List.mem_cons_of_mem _ hm)), updateAt_getElem?,
      if_neg (fun (hpq : p = q) => h (by rw [hpq]; exact List.mem_cons_self _ _))]

/-- The inner loop leaves the Estimate of a position alone when every window of the loop
that contains the position has a Break. -/
theorem innerLoop_getElem?_of_broken {K : Type} [LinearOrder K] (M : Nat) (brk : Nat → Bool)
    (score : Nat → Nat → K) (nrm : Nat → Nat → Vec3 K) (lo p : Nat) :
    ∀ (his : List Nat) (st : SweepState K),
      (∀ hi ∈ his, lo ≤ p → p < hi → broken brk lo hi = true) →
      (innerLoop M brk score nrm lo his st).est[p]? = st.est[p]?
  | [], _, _ => rfl
  | hi :: his, st, h => by
    unfold innerLoop
    cases hb : broken brk lo hi
    · simp only [Bool.false_eq_true, if_false]
      rw [innerLoop_getElem?_of_broken M brk score nrm lo p his _
        (fun hi' hm => h hi' (List.mem_cons_of_mem _ hm))]
      apply mapUpdate_getElem?_of_not_mem
      intro hm
      rw [List.mem_range'_1] at hm
      have := h hi (List.mem_cons_self _ _) hm.1 (by omega)
      rw [hb] at this
      exact Bool.noConfusion this
    · simp only [if_true]

theorem outerLoop_getElem?_of_broken {K : Type} [LinearOrder K] (M minsize maxsize : Nat)
    (brk : Nat → Bool) (score : Nat → Nat → K) (nrm : Nat → Nat → Vec3 K)
    (cancel : Nat → Bool) (p : Nat)
    (h : ∀ lo hi, hi ∈ innerRange M minsize maxsize lo → lo ≤ p → p < hi →
      broken brk lo hi = true) :
    ∀ (los : List Nat) (st st' : SweepState K),
      outerLoop M minsize maxsize brk score nrm cancel los st = some st' →
      st'.est[p]? = st.est[p]?
  | [], st, st', hrun => by
    simp only [outerLoop, Option.some.injEq] at hrun
    rw [← hrun]
  | lo :: los, st, st', hrun => by
    unfold outerLoop at hrun
    split at hrun
    · simp at hrun
    · rw [outerLoop_getElem?_of_broken M minsize maxsize brk score nrm cancel p h los _ st' hrun,
        innerLoop_getElem?_of_broken M brk score nrm lo p _ st (fun hi hm => h lo hi hm)]

/-- At every step of the sweep, a position all of whose windows have a Break holds the
Estimate it was created with. -/
theorem sweepAt_getElem?_of_broken {K : Type} [LinearOrder K] [Zero K]
    (M minsize maxsize : Nat) (brk : Nat → Bool) (score : Nat → Nat → K)
    (nrm : Nat → Nat → Vec3 K) (cancel : Nat → Bool) (p : Nat) (hp : p < M)
    (h : ∀ lo hi, hi ∈ innerRange M minsize maxsize lo → lo ≤ p → p < hi →
      broken brk lo hi = true)
    (k j i : Nat) (est : List (Estimate K))
    (hrun : sweepAt M minsize maxsize brk score nrm cancel k j i = some est) :
    est[p]? = some Estimate.init := by
  have h0 : (SweepState.init M : SweepState K).est[p]? = some Estimate.init := by
    simp only [SweepState.init]
    rw [List.getElem?_replicate, if_pos hp]
  unfold sweepAt at hrun
  cases ho : outerLoop M minsize maxsize brk score nrm cancel
      ((outerRange M minsize).take k) (SweepState.init M) with
  | none => rw [ho] at hrun; exact Option.noConfusion hrun
  | some st =>
    rw [ho] at hrun
    simp only [Option.map_some', Option.some.injEq] at hrun
    have h1 := outerLoop_getElem?_of_broken M minsize maxsize brk score nrm cancel p h _ _ st ho
    have h2 := innerLoop_getElem?_of_broken M brk score nrm k p
      ((innerRange M minsize maxsize k).take j) st
      (fun hi hm => h k hi (List.mem_of_mem_take hm))
    rw [← hrun]
    split
    · rename_i hi hj
      have hmem : hi ∈ innerRange M minsize maxsize k := List.getElem?_mem hj
      split
      · rw [h2, h1, h0]
      · rename_i hb
        rw [mapUpdate_getElem?_of_not_mem, h2, h1, h0]
        intro hm
        have hm' := List.mem_of_mem_take hm
        rw [List.mem_range'_1] at hm'
        exact hb (h k hi hmem hm'.1 (by omega))
    · rw [h2, h1, h0]

theorem broken_of_mem (brk : Nat → Bool) (lo hi p : Nat) (h1 : lo ≤ p) (h2 : p < hi)
    (hb : brk p = true) : broken brk lo hi = true := by
  cases h : broken brk lo hi
  · have := (broken_eq_false_iff brk lo hi).1 h p h1 h2
    rw [hb] at this
    exact Bool.noConfusion this
  · rfl

/-- C24. Let `p` be a sorted position with `breaks[pid[p]]` true. Every window `[lo, hi)`
that contains `p` is rejected by the Break test, and at every step of the sweep (after `k`
steps of the outer loop, `j` steps of the inner loop and `i` steps of an update loop), hence
after the sweep, the Estimate of `p` is as it was created: `bestPd[p] = 0`,
`start[p] = end[p] = 0` and `segmentID[p] = -1`. -/
theorem break_position_never_gets_estimate {K : Type} [LinearOrder K] [Zero K]
    (M minsize maxsize : Nat) (pid : List Nat) (breaks : List Bool) (score : Nat → Nat → K)
    (nrm : Nat → Nat → Vec3 K) (cancel : Nat → Bool) (p : Nat) (hp : p < M)
    (hb : breakAt pid breaks p = true) :
    (∀ lo hi, lo ≤ p → p < hi → broken (breakAt pid breaks) lo hi = true) ∧
    (∀ k j i est, sweepAt M minsize maxsize (breakAt pid breaks) score nrm cancel k j i =
        some est →
      ∃ e, est[p]? = some e ∧ e.bestPd = 0 ∧ e.start = 0 ∧ e.end_ = 0 ∧ e.segmentID = -1) ∧
    (∀ st, sweep M minsize maxsize (breakAt pid breaks) score nrm cancel = some st →
      ∃ e, st.est[p]? = some e ∧ e.bestPd = 0 ∧ e.start = 0 ∧ e.end_ = 0 ∧
        e.segmentID = -1) := by
  have hall : ∀ lo hi, hi ∈ innerRange M minsize maxsize lo → lo ≤ p → p < hi →
      broken (breakAt pid breaks) lo hi = true :=
    fun lo hi _ h1 h2 => broken_of_mem _ lo hi p h1 h2 hb
  refine ⟨fun lo hi h1 h2 => broken_of_mem _ lo hi p h1 h2 hb, fun k j i est h => ?_,
    fun st h => ?_⟩
  · exact ⟨Estimate.init, sweepAt_getElem?_of_broken M minsize maxsize _ score nrm cancel p hp
      hall k j i est h, rfl, rfl, rfl, rfl⟩
  · refine ⟨Estimate.init, ?_, rfl, rfl, rfl, rfl⟩
    rw [outerLoop_getElem?_of_broken M minsize maxsize _ score nrm cancel p hall _ _ st h]
    simp only [SweepState.init]
    rw [List.getElem?_replicate, if_pos hp]

/-- C24, at a series of 6 positions whose position 3 is a Break (`pid[3] = 2` and
`breaks[2]` is true), swept with `minsize = 2` and `maxsize = 4`, the score of a window being
its length: after the sweep the positions 0, 1, 2 hold the window `[0, 3)` and position 3
holds `bestPd = 0`, `start = end = 0`, `segmentID = -1`. -/
theorem break_position_never_gets_estimate_witness :
    (sweep (K := ℤ) 6 2 4
        (breakAt [0, 0, 1, 2, 3, 4] [false, false, true, false, false, false, false])
        (fun lo hi => ((hi - lo : Nat) : ℤ)) (fun _ _ => ⟨0, 0, 1⟩) (fun _ => false)).map
      (fun s => s.est.map (fun e => (e.bestPd, e.start, e.end_, e.segmentID))) =
      some [(3, 0, 3, 18), (3, 0, 3, 18), (3, 0, 3, 18), (0, 0, 0, -1), (0, 0, 0, -1),
        (0, 0, 0, -1)] ∧
    ∀ st, sweep (K := ℤ) 6 2 4
        (breakAt [0, 0, 1, 2, 3, 4] [false, false, true, false, false, false, false])
        (fun lo hi => ((hi - lo : Nat) : ℤ)) (fun _ _ => ⟨0, 0, 1⟩) (fun _ => false) = some st →
      ∃ e, st.est[3]? = some e ∧ e.bestPd = 0 ∧ e.start = 0 ∧ e.end_ = 0 ∧ e.segmentID = -1 :=
  ⟨by decide, (break_position_never_gets_estimate (K := ℤ) 6 2 4 [0, 0, 1, 2, 3, 4]
    [false, false, true, false, false, false, false] (fun lo hi => ((hi - lo : Nat) : ℤ))
    (fun _ _ => ⟨0, 0, 1⟩) (fun _ => false) 3 (by decide) (by decide)).2.2⟩

/-- C23: the code at the last sorted position. For a series of `M + 1` positions, with or
without Breaks and for every `minsize` and `maxsize`, no window the sweep scores ends after
position `M - 1` (the inner loop stops before `_max = px.size()`), so the last position `M`
is in no scored window and a completed sweep leaves its Estimate as it was created, with
`segmentID = -1`. For the series of 7 positions without Breaks, `minsize = 5` and
`maxsize = 50`, the score of a window being its length: the scored windows are `[0, 5)`,
`[0, 6)` and `[1, 6)`, and position 6 ends with `bestPd = 0`, `start = end = 0` and
`segmentID = -1`. -/
theorem last_position_never_gets_estimate {K : Type} [LinearOrder K] [Zero K]
    (M minsize maxsize : Nat) (brk : Nat → Bool) (score : Nat → Nat → K)
    (nrm : Nat → Nat → Vec3 K) :
    (∀ lo hi, (lo, hi) ∈ sweepWindows (M + 1) minsize maxsize brk → hi ≤ M) ∧
    (∃ st, sweep (M + 1) minsize maxsize brk score nrm (fun _ => false) = some st ∧
      st.est[M]? = some Estimate.init) ∧
    sweepWindows 7 5 50 (fun _ => false) = [(0, 5), (0, 6), (1, 6)] ∧
    (sweep (K := ℤ) 7 5 50 (fun _ => false) (fun lo hi => ((hi - lo : Nat) : ℤ))
        (fun _ _ => ⟨0, 0, 1⟩) (fun _ => false)).map
      (fun s => s.est.map (fun e => (e.bestPd, e.start, e.end_, e.segmentID))) =
      some [(6, 0, 6, 42), (6, 0, 6, 42), (6, 0, 6, 42), (6, 0, 6, 42), (6, 0, 6, 42),
        (6, 0, 6, 42), (0, 0, 0, -1)] := by
  have hle : ∀ lo hi, hi ∈ innerRange (M + 1) minsize maxsize lo → hi ≤ M := by
    intro lo hi hm
    have h1 := (mem_innerRange hm).2.1
    have h2 : u32 (M + 1) ≤ M + 1 := Nat.mod_le _ _
    omega
  refine ⟨fun lo hi h => ?_, ?_, by decide, by decide⟩
  · rw [mem_sweepWindows] at h
    exact hle lo hi h.2.1
  · obtain ⟨st, hst⟩ : ∃ st, sweep (M + 1) minsize maxsize brk score nrm (fun _ => false) =
        some st := outerLoop_some _ _ _ _ _ _ _ _ _ (fun _ _ => rfl)
    refine ⟨st, hst, ?_⟩
    rw [outerLoop_getElem?_of_broken (M + 1) minsize maxsize brk score nrm (fun _ => false) M
      (fun lo hi hm _ h2 => absurd (hle lo hi hm) (not_le.2 h2)) _ _ st hst]
    simp only [SweepState.init]
    rw [List.getElem?_replicate, if_pos (Nat.lt_succ_self M)]

/-! ### The segment id -/

theorem evaluated_bounds {M minsize maxsize : Nat} {brk : Nat → Bool} {lo hi : Nat}
    (h : Evaluated M minsize maxsize brk lo hi) : lo < M ∧ hi ≤ M := by
  obtain ⟨h1, h2, _⟩ := h
  unfold outerRange at h1
  rw [List.mem_range] at h1
  have h3 := (mem_innerRange h2).2.1
  have h4 : u32 M ≤ M := Nat.mod_le _ _
  omega

theorem ofWindow_fields {K : Type} (M lo hi : Nat) (pd : K) (v : Vec3 K)
    (hM : M * M + M < 2 ^ 31) (hlo : lo < M) (hhi : hi ≤ M) :
    (Estimate.ofWindow M lo hi pd v).segmentID = ((hi * M + lo : Nat) : Int) ∧
      (Estimate.ofWindow M lo hi pd v).start = (lo : Int) ∧
      (Estimate.ofWindow M lo hi pd v).end_ = (hi : Int) := by
  have h1 : hi * M ≤ M * M := Nat.mul_le_mul_right M hhi
  have h2 : hi * M + lo < 2 ^ 31 := by omega
  have h3 : M ≤ M * M + M := Nat.le_add_left _ _
  have h4 : (hi * M + lo) % 2 ^ 64 = hi * M + lo := Nat.mod_eq_of_lt (by omega)
  simp only [Estimate.ofWindow]
  rw [h4]
  exact ⟨toInt32_of_lt h2, toInt32_of_lt (by omega), toInt32_of_lt (by omega)⟩

theorem window_of_id {M lo hi lo' hi' : Nat} (hlo : lo < M) (hlo' : lo' < M)
    (h : hi * M + lo = hi' * M + lo') : lo = lo' ∧ hi = hi' := by
  have hpos : 0 < M := by omega
  have e1 : (hi * M + lo) % M = lo := by
    rw [Nat.mul_comm, Nat.mul_add_mod, Nat.mod_eq_of_lt hlo]
  have e2 : (hi' * M + lo') % M = lo' := by
    rw [Nat.mul_comm, Nat.mul_add_mod, Nat.mod_eq_of_lt hlo']
  have hl : lo = lo' := by rw [← e1, ← e2, h]
  subst hl
  exact ⟨rfl, Nat.eq_of_mul_eq_mul_right hpos (Nat.add_right_cancel h)⟩

/-- C27. For a series of `M` positions with `M * M + M < 2^31`: the id `hi * M + lo` of a
scored window is stored without overflow and gives the window back (`hi = id / M`,
`lo = id % M`), so it is injective on the scored windows. After a completed sweep, two
positions with the same `segmentID ≠ -1` hold the same Estimate (the same `start`, `end`,
`bestPd` and normal), and a position has `segmentID = -1` exactly when its Estimate is as it
was created; otherwise its Estimate is what the scored window `[start, end)`, which contains
the position, has stored. -/
theorem segment_id_identifies_window {K : Type} [LinearOrder K] [Zero K]
    (M minsize maxsize : Nat) (brk : Nat → Bool) (score : Nat → Nat → K)
    (nrm : Nat → Nat → Vec3 K) (cancel : Nat → Bool) (st : SweepState K)
    (hM : M * M + M < 2 ^ 31)
    (hrun : sweep M minsize maxsize brk score nrm cancel = some st) :
    (∀ lo hi, Evaluated M minsize maxsize brk lo hi →
      (Estimate.ofWindow M lo hi (score lo hi) (nrm lo hi)).segmentID =
        ((hi * M + lo : Nat) : Int) ∧
      (hi * M + lo) / M = hi ∧ (hi * M + lo) % M = lo) ∧
    (∀ lo hi lo' hi', Evaluated M minsize maxsize brk lo hi →
      Evaluated M minsize maxsize brk lo' hi' → hi * M + lo = hi' * M + lo' →
      lo = lo' ∧ hi = hi') ∧
    (∀ (p q : Nat) (e e' : Estimate K), st.est[p]? = some e → st.est[q]? = some e' →
      e.segmentID = e'.segmentID → e.segmentID ≠ -1 →
      e.start = e'.start ∧ e.end_ = e'.end_ ∧ e.bestPd = e'.bestPd ∧ e.sne = e'.sne) ∧
    (∀ (p : Nat) (e : Estimate K), st.est[p]? = some e →
      (e.segmentID = -1 ↔ e = Estimate.init) ∧
      (e.segmentID ≠ -1 → ∃ lo hi, Evaluated M minsize maxsize brk lo hi ∧ lo ≤ p ∧ p < hi ∧
        e = Estimate.ofWindow M lo hi (score lo hi) (nrm lo hi) ∧
        e.segmentID = ((hi * M + lo : Nat) : Int) ∧ e.start = (lo : Int) ∧
        e.end_ = (hi : Int))) := by
  obtain ⟨_, hbest⟩ := sweep_best M minsize maxsize brk score nrm cancel st hrun
  have hinit : (Estimate.init : Estimate K).segmentID = -1 := rfl
  have hcase : ∀ (p : Nat) (e : Estimate K), st.est[p]? = some e → e.segmentID ≠ -1 →
      ∃ lo hi, Evaluated M minsize maxsize brk lo hi ∧ lo ≤ p ∧ p < hi ∧
        e = Estimate.ofWindow M lo hi (score lo hi) (nrm lo hi) ∧
        e.segmentID = ((hi * M + lo : Nat) : Int) ∧ e.start = (lo : Int) ∧
        e.end_ = (hi : Int) := by
    intro p e he hne
    rcases (hbest p e he).attained with h | ⟨lo, hi, hev, h1, h2, _, heq⟩
    · rw [h] at hne
      exact absurd hinit hne
    · obtain ⟨b1, b2⟩ := evaluated_bounds hev
      obtain ⟨f1, f2, f3⟩ := ofWindow_fields M lo hi (score lo hi) (nrm lo hi) hM b1 b2
      exact ⟨lo, hi, hev, h1, h2, heq, by rw [heq]; exact f1, by rw [heq]; exact f2,
        by rw [heq]; exact f3⟩
  refine ⟨fun lo hi hev => ?_, fun lo hi lo' hi' hev hev' h => ?_,
    fun p q e e' he he' hid hne => ?_, fun p e he => ⟨⟨fun h => ?_, fun h => ?_⟩, hcase p e he⟩⟩
  · obtain ⟨b1, b2⟩ := evaluated_bounds hev
    refine ⟨(ofWindow_fields M lo hi _ _ hM b1 b2).1, ?_, ?_⟩
    · rw [Nat.mul_comm, Nat.mul_add_div (by omega), Nat.div_eq_of_lt b1, Nat.add_zero]
    · rw [Nat.mul_comm, Nat.mul_add_mod, Nat.mod_eq_of_lt b1]
  · exact window_of_id (evaluated_bounds hev).1 (evaluated_bounds hev').1 h
  · obtain ⟨lo, hi, hev, _, _, heq, hs, _, _⟩ := hcase p e he hne
    obtain ⟨lo', hi', hev', _, _, heq', hs', _, _⟩ := hcase q e' he' (hid ▸ hne)
    rw [hs, hs'] at hid
    obtain ⟨hl, hh⟩ := window_of_id (evaluated_bounds hev).1 (evaluated_bounds hev').1
      (by exact_mod_cast hid)
    subst hl
    subst hh
    rw [heq, heq']
    exact ⟨rfl, rfl, rfl, rfl⟩
  · by_contra hne
    rcases (hbest p e he).attained with h0 | ⟨lo, hi, hev, _, _, _, heq⟩
    · exact hne h0
    · obtain ⟨b1, b2⟩ := evaluated_bounds hev
      have f1 := (ofWindow_fields M lo hi (score lo hi) (nrm lo hi) hM b1 b2).1
      rw [← heq, h] at f1
      have : (0 : Int) ≤ ((hi * M + lo : Nat) : Int) := Int.natCast_nonneg _
      omega
  · rw [h]
    rfl

/-- C27, at a series of 6 positions whose position 3 is a Break, swept with `minsize = 2`
and `maxsize = 4`, the score of a window being its length: the positions 0, 1, 2 hold the
id `18 = 3 * 6 + 0` of the window `[0, 3)`, the others hold `-1`. -/
theorem segment_id_identifies_window_witness :
    (sweep (K := ℤ) 6 2 4
        (breakAt [0, 0, 1, 2, 3, 4] [false, false, true, false, false, false, false])
        (fun lo hi => ((hi - lo : Nat) : ℤ)) (fun _ _ => ⟨0, 0, 1⟩) (fun _ => false)).map
      (fun s => s.est.map (fun e => (e.bestPd, e.start, e.end_, e.segmentID))) =
      some [(3, 0, 3, 18), (3, 0, 3, 18), (3, 0, 3, 18), (0, 0, 0, -1), (0, 0, 0, -1),
        (0, 0, 0, -1)] ∧
    ∀ st, sweep (K := ℤ) 6 2 4
        (breakAt [0, 0, 1, 2, 3, 4] [false, false, true, false, false, false, false])
        (fun lo hi => ((hi - lo : Nat) : ℤ)) (fun _ _ => ⟨0, 0, 1⟩) (fun _ => false) = some st →
      ∀ (p : Nat) (e : Estimate ℤ), st.est[p]? = some e →
        (e.segmentID = -1 ↔ e = Estimate.init) :=
  ⟨by decide, fun st h p e he => ((segment_id_identifies_window (K := ℤ) 6 2 4
    (breakAt [0, 0, 1, 2, 3, 4] [false, false, true, false, false, false, false])
    (fun lo hi => ((hi - lo : Nat) : ℤ)) (fun _ _ => ⟨0, 0, 1⟩) (fun _ => false) st
    (by norm_num) h).2.2.2 p e he).1⟩

/-! ### Equal window sizes -/

theorem innerRange_eq_nil (M size lo : Nat) : innerRange M size size lo = [] := by
  unfold innerRange
  rw [Nat.sub_eq_zero_of_le (Nat.min_le_right _ _)]
  rfl

theorem outerWindows_eq_nil (M size : Nat) (brk : Nat → Bool) :
    ∀ los : List Nat, outerWindows M size size brk los = []
  | [] => rfl
  | lo :: los => by
    rw [outerWindows, innerRange_eq_nil, outerWindows_eq_nil M size brk los]
    rfl

theorem sweepWindows_eq_nil (M size : Nat) (brk : Nat → Bool) :
    sweepWindows M size size brk = [] :=
  outerWindows_eq_nil M size brk _

/-- With `maxsize = minsize` no region is stored. -/
theorem processRegion_not_stored {K : Type} [LinearOrderedField K] (env : Env K)
    (cfg : Config K) (h : cfg.maxsize = cfg.minsize) (carry : Carry) (pts : List (Sample K))
    (pinch : List (Vec3 K)) (cancel : Nat → Bool) :
    (processRegion env cfg carry pts pinch cancel).1 = RegionOutcome.tooSmall ∨
    (processRegion env cfg carry pts pinch cancel).1 = RegionOutcome.noAxis ∨
    (processRegion env cfg carry pts pinch cancel).1 = RegionOutcome.undefinedSort ∨
    (processRegion env cfg carry pts pinch cancel).1 = RegionOutcome.cancelled ∨
    (processRegion env cfg carry pts pinch cancel).1 = RegionOutcome.noValidSNE := by
  by_cases hN : pts.length < cfg.minsize
  · left
    unfold processRegion
    rw [if_pos hN]
  · cases hax : env.longAxis pts with
    | none =>
      right; left
      unfold processRegion
      rw [if_neg hN]
      simp only [hax]
    | some axis =>
      cases hs : sortAlongAxis axis pts carry.iid with
      | none =>
        right; right; left
        unfold processRegion
        rw [if_neg hN]
        simp only [hax, hs]
      | some sorted =>
        rw [processRegion_eq_sweep env cfg carry pts pinch cancel axis sorted (not_lt.1 hN)
          hax hs]
        cases hsw : regionSweep env cfg carry.hasNormals pts pinch cancel sorted.series with
        | none => right; right; right; left; rfl
        | some st =>
          right; right; right; right
          have hflag := (sweep_eq_windows _ _ _ _ _ _ _ st hsw).2
          rw [h, sweepWindows_eq_nil] at hflag
          have hv : st.hasValidSNE = false := hflag
          simp only [hv, Bool.false_eq_true, if_false]

theorem regionStep_not_stored {K : Type} [LinearOrderedField K] (env : Env K)
    (cfg : Config K) (h : cfg.maxsize = cfg.minsize) (carry : Carry)
    (region : Option (List (Sample K))) (pinch : List (Vec3 K)) (cancel : Nat → Bool) :
    (∃ status, (regionStep env cfg carry region pinch cancel).1 = Sum.inr status) ∨
    (∃ slot, (regionStep env cfg carry region pinch cancel).1 = Sum.inl slot ∧
      slot.published = none) := by
  cases region with
  | none => exact Or.inr ⟨Slot.absent, rfl, rfl⟩
  | some pts =>
    unfold regionStep
    rcases processRegion_not_stored env cfg h carry pts pinch cancel with
      h1 | h1 | h1 | h1 | h1 <;> simp only [h1, RegionOutcome.toSlot]
    · exact Or.inr ⟨_, rfl, rfl⟩
    · exact Or.inr ⟨_, rfl, rfl⟩
    · exact Or.inl ⟨_, rfl⟩
    · exact Or.inl ⟨_, rfl⟩
    · exact Or.inr ⟨_, rfl, rfl⟩

theorem thicknessPass_no_cloud {K : Type} [LinearOrderedField K] (env : Env K)
    (cfg : Config K) (cancel : Nat → Nat → Bool) (s0 s1 : Slot K)
    (h0 : s0.published = none) (h1 : s1.published = none) :
    (thicknessPass env cfg cancel s0 s1).lower = none ∧
      (thicknessPass env cfg cancel s0 s1).upper = none := by
  cases s0 <;> cases s1 <;> simp [Slot.published] at h0 h1 <;>
    simp [thicknessPass, Slot.published]

theorem processDataset_no_cloud {K : Type} [LinearOrderedField K] (env : Env K)
    (cfg : Config K) (h : cfg.maxsize = cfg.minsize) (cancel : Cancel) (d : Nat)
    (carry : Carry) (ds : Dataset K) :
    (processDataset env cfg cancel d carry ds).1.lower = none ∧
      (processDataset env cfg cancel d carry ds).1.upper = none := by
  unfold processDataset
  rcases hr0 : regionStep env cfg carry ds.lower ds.pinch (cancel.sweep d 0) with ⟨r0, k0⟩
  rcases regionStep_not_stored env cfg h carry ds.lower ds.pinch (cancel.sweep d 0) with
    ⟨status, hs⟩ | ⟨s0, hs, hp0⟩
  · rw [hr0] at hs
    simp only at hs
    subst hs
    exact ⟨rfl, rfl⟩
  · rw [hr0] at hs
    simp only at hs
    subst hs
    dsimp only
    rcases hr1 : regionStep env cfg k0 ds.upper ds.pinch (cancel.sweep d 1) with ⟨r1, k1⟩
    rcases regionStep_not_stored env cfg h k0 ds.upper ds.pinch (cancel.sweep d 1) with
      ⟨status, hs⟩ | ⟨s1, hs, hp1⟩
    · rw [hr1] at hs
      simp only at hs
      subst hs
      exact ⟨hp0, rfl⟩
    · rw [hr1] at hs
      simp only at hs
      subst hs
      exact thicknessPass_no_cloud env cfg _ s0 s1 hp0 hp1

theorem run_no_cloud {K : Type} [LinearOrderedField K] (env : Env K) (cfg : Config K)
    (h : cfg.maxsize = cfg.minsize) (cancel : Cancel) :
    ∀ (datasets : List (Dataset K)) (st : RunState K),
      (∀ o ∈ st.outs, o.lower = none ∧ o.upper = none) →
      ∀ o ∈ (datasets.foldl (runStep env cfg cancel) st).outs, o.lower = none ∧ o.upper = none
  | [], _, hst => hst
  | ds :: rest, st, hst => by
    rw [List.foldl_cons]
    apply run_no_cloud env cfg h cancel rest
    unfold runStep
    split
    · exact hst
    · split
      · exact hst
      · intro o ho
        simp only [List.mem_append, List.mem_singleton] at ho
        rcases ho with ho | ho
        · exact hst o ho
        · rw [ho]
          exact processDataset_no_cloud env cfg h cancel _ _ ds

/-- C26, as stated, fails. With `minsize = maxsize = 5`, a region of one point does not end
as NoValidWindow: it is rejected for having fewer than `minsize` points (line 1501) before
any sweep is started. -/
theorem small_region_is_not_no_valid_window :
    processRegion (K := ℚ)
        { longAxis := fun _ => some ⟨1, 0, 0⟩, nearestIndex := fun _ _ => 0,
          pd := fun _ _ _ => 1, eig3 := fun _ => ⟨0, 0, 1⟩, log := fun x => x,
          neighbour := fun _ _ => (⟨0, 0, 0⟩, 0) }
        { minsize := 5, maxsize := 5, tcDistance := 100, calcThickness := true }
        { hasNormals := true, iid := none } [⟨⟨0, 0, 0⟩, ⟨0, 0, 1⟩⟩] [] (fun _ => false) =
      (RegionOutcome.tooSmall, { hasNormals := true, iid := none }) ∧
    (RegionOutcome.tooSmall : RegionOutcome ℚ) ≠ RegionOutcome.noValidSNE := by
  refine ⟨?_, fun h => RegionOutcome.noConfusion h⟩
  unfold processRegion
  rw [if_pos (by decide)]

/-- C26, amended. The configuration check rejects exactly `maxsize < minsize`. With
`maxsize = minsize` the run is accepted; the range of the inner loop is empty for every
`_min`, so the sweep scores no window; a region that reaches the sweep (it has at least
`minsize` points and a long axis) and is not cancelled ends as NoValidWindow, no region is
stored, and no output of the run holds a cloud. -/
theorem equal_sizes_accepted_and_nothing_scored {K : Type} [LinearOrderedField K]
    (env : Env K) (cfg : Config K) (cancel : Cancel) (datasets : List (Dataset K))
    (h : cfg.maxsize = cfg.minsize) :
    (∀ (cfg' : Config K),
      estimateStructureNormals env cfg' cancel datasets = none ↔ cfg'.maxsize < cfg'.minsize) ∧
    (∃ outs, estimateStructureNormals env cfg cancel datasets = some outs ∧
      ∀ o ∈ outs, o.lower = none ∧ o.upper = none) ∧
    (∀ M lo, innerRange M cfg.minsize cfg.maxsize lo = []) ∧
    (∀ M brk, sweepWindows M cfg.minsize cfg.maxsize brk = []) ∧
    (∀ (carry : Carry) (pts : List (Sample K)) (pinch : List (Vec3 K)) (cnl : Nat → Bool)
      (axis : Vec3 K), cfg.minsize ≤ pts.length → pts ≠ [] → env.longAxis pts = some axis →
      (∀ lo, cnl lo = false) →
      (processRegion env cfg carry pts pinch cnl).1 = RegionOutcome.noValidSNE) ∧
    (∀ (carry : Carry) (pts : List (Sample K)) (pinch : List (Vec3 K)) (cnl : Nat → Bool)
      (cloud : List (CloudPoint K)),
      (processRegion env cfg carry pts pinch cnl).1 ≠ RegionOutcome.stored cloud) := by
  have hnot : ¬ cfg.maxsize < cfg.minsize := by omega
  refine ⟨fun cfg' => ?_, ?_, fun M lo => ?_, fun M brk => ?_,
    fun carry pts pinch cnl axis hN hne hax hc => ?_, fun carry pts pinch cnl cloud hst => ?_⟩
  · unfold estimateStructureNormals
    by_cases hc : cfg'.maxsize < cfg'.minsize
    · simp [hc]
    · simp [hc]
  · refine ⟨_, by unfold estimateStructureNormals; rw [if_neg hnot], ?_⟩
    exact run_no_cloud env cfg h cancel datasets RunState.init
      (fun o ho => absurd ho (List.not_mem_nil o))
  · rw [h]
    exact innerRange_eq_nil M _ lo
  · rw [h]
    exact sweepWindows_eq_nil M _ brk
  · obtain ⟨sorted, hsort, _⟩ := sortAlongAxis_inv axis pts carry.iid hne
    rw [processRegion_eq_sweep env cfg carry pts pinch cnl axis sorted hN hax hsort]
    obtain ⟨st, hst⟩ : ∃ st, regionSweep env cfg carry.hasNormals pts pinch cnl
        sorted.series = some st :=
      outerLoop_some _ _ _ _ _ _ _ _ _ (fun lo _ => hc lo)
    have hflag := (sweep_eq_windows _ _ _ _ _ _ _ st hst).2
    rw [h, sweepWindows_eq_nil] at hflag
    have hv : st.hasValidSNE = false := hflag
    simp only [hst, hv, Bool.false_eq_true, if_false]
  · rcases processRegion_not_stored env cfg h carry pts pinch cnl with
      h1 | h1 | h1 | h1 | h1 <;> rw [h1] at hst <;> exact RegionOutcome.noConfusion hst

/-- C26, at a run with `minsize = maxsize = 5` on one dataset whose lower region has 6
points: the run is accepted and its output holds no cloud. -/
theorem equal_sizes_accepted_and_nothing_scored_witness :
    ∃ outs, estimateStructureNormals (K := ℚ)
        { longAxis := fun _ => some ⟨1, 0, 0⟩, nearestIndex := fun _ _ => 0,
          pd := fun _ _ _ => 1, eig3 := fun _ => ⟨0, 0, 1⟩, log := fun x => x,
          neighbour := fun _ _ => (⟨0, 0, 0⟩, 0) }
        { minsize := 5, maxsize := 5, tcDistance := 100, calcThickness := true }
        { dataset := fun _ => false, sweep := fun _ _ _ => false,
          thickness := fun _ _ _ => false }
        [{ lower := some [⟨⟨0, 0, 0⟩, ⟨0, 0, 1⟩⟩, ⟨⟨1, 1, 0⟩, ⟨0, 0, 1⟩⟩,
              ⟨⟨2, 0, 1⟩, ⟨0, 0, 1⟩⟩, ⟨⟨3, 1, 0⟩, ⟨0, 0, 1⟩⟩, ⟨⟨4, 0, 0⟩, ⟨0, 0, 1⟩⟩,
              ⟨⟨5, 1, 1⟩, ⟨0, 0, 1⟩⟩],
            upper := none, pinch := [] }] = some outs ∧
      ∀ o ∈ outs, o.lower = none ∧ o.upper = none :=
  (equal_sizes_accepted_and_nothing_scored (K := ℚ)
    { longAxis := fun _ => some ⟨1, 0, 0⟩, nearestIndex := fun _ _ => 0,
      pd := fun _ _ _ => 1, eig3 := fun _ => ⟨0, 0, 1⟩, log := fun x => x,
      neighbour := fun _ _ => (⟨0, 0, 0⟩, 0) }
    { minsize := 5, maxsize := 5, tcDistance := 100, calcThickness := true }
    { dataset := fun _ => false, sweep := fun _ _ _ => false,
      thickness := fun _ _ _ => false }
    [{ lower := some [⟨⟨0, 0, 0⟩, ⟨0, 0, 1⟩⟩, ⟨⟨1, 1, 0⟩, ⟨0, 0, 1⟩⟩,
          ⟨⟨2, 0, 1⟩, ⟨0, 0, 1⟩⟩, ⟨⟨3, 1, 0⟩, ⟨0, 0, 1⟩⟩, ⟨⟨4, 0, 0⟩, ⟨0, 0, 1⟩⟩,
          ⟨⟨5, 1, 1⟩, ⟨0, 0, 1⟩⟩],
        upper := none, pinch := [] }] rfl).2.1

/-- C25: the code at the point `p = (0, 0, 0)` with normal `n = (0, 0, 1)` whose neighbour
query returns `q = (1, 0, 0)` at the squared distance 1, within the cutoff 100. The signed
plane distance `d = n.(q - p)` is 0, the thickness written is 0 and the factor `d / abs(d)`
is `0 / 0`: it is neither 1 nor -1 (in the source it is not a number; in a field, where
`0 / 0 = 0`, it is 0) and the stored normal is not a vector of the length of `n`. -/
theorem normal_correction_divides_by_zero :
    ¬ ((100 : ℚ) < 1) ∧
    Vec3.dot (⟨0, 0, 1⟩ : Vec3 ℚ) (Vec3.sub ⟨1, 0, 0⟩ ⟨0, 0, 0⟩) = 0 ∧
    computePoint2PlaneDistance (⟨1, 0, 0⟩ : Vec3 ℚ) 0 0 1
      (Vec3.dot (⟨0, 0, 0⟩ : Vec3 ℚ) ⟨0, 0, 1⟩) = 0 ∧
    thicknessPoint (K := ℚ)
        { longAxis := fun _ => some ⟨1, 0, 0⟩, nearestIndex := fun _ _ => 0,
          pd := fun _ _ _ => 1, eig3 := fun _ => ⟨0, 0, 1⟩, log := fun x => x,
          neighbour := fun _ _ => (⟨1, 0, 0⟩, 1) }
        { minsize := 5, maxsize := 50, tcDistance := 100, calcThickness := true }
        [⟨1, 0, 0⟩]
        { pos := ⟨0, 0, 0⟩, nrm := ⟨0, 0, 1⟩, sf := none, thickness := none } =
      { pos := ⟨0, 0, 0⟩, nrm := ⟨0, 0, 0⟩, sf := none, thickness := some 0 } ∧
    ((0 : ℚ) / |0| ≠ 1 ∧ (0 : ℚ) / |0| ≠ -1) ∧
    Vec3.dot (⟨0, 0, 0⟩ : Vec3 ℚ) ⟨0, 0, 0⟩ ≠ Vec3.dot (⟨0, 0, 1⟩ : Vec3 ℚ) ⟨0, 0, 1⟩ := by
  refine ⟨by norm_num, by norm_num [Vec3.dot, Vec3.sub],
    by norm_num [computePoint2PlaneDistance, Vec3.dot], ?_, by norm_num,
    by norm_num [Vec3.dot]⟩
  rw [thicknessPoint_near _ _ _ _ (by norm_num)]
  norm_num [Vec3.dot, Vec3.sub, Vec3.smul]

end CCCompass

